import Mathlib

/-!
# Context store and request dispatcher

A shallow embedding of the `ContextManager` type of `pkg/context/context.go` and of
its methods, and of the `ModelHandler` of `pkg/aimodel/handler.go`, followed by
theorems about them.

Modelling conventions.

* A Go `map[string]T` is a `GoMap T`: a finite list of key/value pairs whose keys are
  pairwise distinct.  A map-typed field that may be `nil` is an `Option (GoMap T)`,
  `none` standing for the `nil` map.  `range` over a map visits `entries` in list
  order (Go leaves the order unspecified).
* `interface{}` values are never inspected by the store, so the type `V` of data
  values is a parameter.
* A Go `string` is a `String`: the embedding covers strings that are valid UTF-8.
* Maps are references: `CreateContext` and `UpdateContext` keep the caller's map and
  `GetContext` hands out the stored pointer.  What a caller does to them outside
  the store's methods is not part of the embedding.
* `cm.contexts` has type `map[string]*Context`.  Every pointer put into the table is
  freshly allocated (by `CreateContext`, or by the decoder in `LoadContexts`), so
  distinct ids never share a `Context` object and the table is modelled as a map
  from ids to `Context` values.  The methods are applied to stores whose table is
  not nil and holds no nil pointer, as every table built by `NewContextManager` and
  the methods other than `LoadContexts` is; the table `LoadContexts` leaves, which
  may be nil or hold nil pointers, is given as a map of pointers (`Loaded`).  A
  write through a pointer taken from the table (`ctx.Data = data`) is a replacement
  of the entry at that id; writes are kept in source order.
* `time.Now()` is an input: every method that reads the clock takes the reading
  `now` as an argument.
* `cm.mu` only serialises concurrent callers; the embedding describes one call
  running alone, and each method maps the store before the call to its result
  together with the store after the call.
* `GetInheritedContext` is recursive and need not terminate, so its embedding takes
  a bound `fuel` on the recursion depth and returns `none` when the bound is hit.
-/

namespace ContextStore

/-! ## Go maps -/

/-- Keys of an association list. -/
def keysL {β : Type} (l : List (String × β)) : List String := l.map Prod.fst

/-- First value stored under `k` in an association list. -/
def lookupL {β : Type} (k : String) : List (String × β) → Option β
  | [] => none
  | (k', v) :: t => if k' = k then some v else lookupL k t

/-- Overwrite the value under `k`, or add the pair at the end when `k` is new. -/
def setL {β : Type} (k : String) (v : β) : List (String × β) → List (String × β)
  | [] => [(k, v)]
  | (k', v') :: t => if k' = k then (k, v) :: t else (k', v') :: setL k v t

/-- Drop every pair stored under `k`. -/
def deleteL {β : Type} (k : String) : List (String × β) → List (String × β)
  | [] => []
  | (k', v') :: t => if k' = k then deleteL k t else (k', v') :: deleteL k t

theorem keysL_setL_of_mem {β : Type} (k : String) (v : β) :
    ∀ l : List (String × β), k ∈ keysL l → keysL (setL k v l) = keysL l
  | [], h => by simp [keysL] at h
  | (k', v') :: t, h => by
    by_cases hk : k' = k
    · simp [setL, keysL, hk]
    · have ht : k ∈ keysL t := by
        simp only [keysL, List.map_cons, List.mem_cons] at h
        rcases h with h | h
        · exact absurd h.symm hk
        · exact h
      have ih := keysL_setL_of_mem k v t ht
      simp only [keysL] at ih
      simp [setL, keysL, hk, ih]

theorem keysL_setL_of_not_mem {β : Type} (k : String) (v : β) :
    ∀ l : List (String × β), k ∉ keysL l → keysL (setL k v l) = keysL l ++ [k]
  | [], _ => by simp [setL, keysL]
  | (k', v') :: t, h => by
    simp only [keysL, List.map_cons, List.mem_cons, not_or] at h
    have hk : ¬ k' = k := fun e => h.1 e.symm
    have ih := keysL_setL_of_not_mem k v t h.2
    simp only [keysL] at ih
    simp [setL, keysL, hk, ih]

theorem nodup_keysL_setL {β : Type} (k : String) (v : β) (l : List (String × β))
    (h : (keysL l).Nodup) : (keysL (setL k v l)).Nodup := by
  by_cases hk : k ∈ keysL l
  · rw [keysL_setL_of_mem k v l hk]; exact h
  · rw [keysL_setL_of_not_mem k v l hk]
    exact List.Nodup.append h (List.nodup_singleton k) (by
      intro a ha hb
      simp only [List.mem_singleton] at hb
      exact hk (hb ▸ ha))

theorem keysL_deleteL {β : Type} (k : String) :
    ∀ l : List (String × β), keysL (deleteL k l) = (keysL l).filter (fun a => decide (a ≠ k))
  | [] => rfl
  | (k', v') :: t => by
    have ih := keysL_deleteL k t
    simp only [keysL] at ih
    by_cases hk : k' = k
    · simp [deleteL, keysL, hk, ih]
    · simp [deleteL, keysL, hk, ih]

theorem nodup_keysL_deleteL {β : Type} (k : String) (l : List (String × β))
    (h : (keysL l).Nodup) : (keysL (deleteL k l)).Nodup := by
  rw [keysL_deleteL]; exact h.filter _

/-- A Go map with string keys: the pairs it holds, no key occurring twice. -/
structure GoMap (β : Type) where
  entries : List (String × β)
  nodup : (keysL entries).Nodup

instance {β : Type} [DecidableEq β] : DecidableEq (GoMap β) := fun a b =>
  match a, b with
  | ⟨ea, _⟩, ⟨eb, _⟩ =>
    if h : ea = eb then isTrue (by subst h; rfl)
    else isFalse (fun e => h (congrArg GoMap.entries e))

namespace GoMap

/-- The map `make(map[string]T)`. -/
def empty {β : Type} : GoMap β := ⟨[], List.nodup_nil⟩

/-- The value read by `v, ok := m[k]`: `none` for `ok == false`. -/
def get? {β : Type} (m : GoMap β) (k : String) : Option β := lookupL k m.entries

/-- The assignment `m[k] = v`. -/
def set {β : Type} (m : GoMap β) (k : String) (v : β) : GoMap β :=
  ⟨setL k v m.entries, nodup_keysL_setL k v m.entries m.nodup⟩

/-- The statement `delete(m, k)`. -/
def delete {β : Type} (m : GoMap β) (k : String) : GoMap β :=
  ⟨deleteL k m.entries, nodup_keysL_deleteL k m.entries m.nodup⟩

/-- The keys of the map. -/
def keys {β : Type} (m : GoMap β) : List String := keysL m.entries

/-- The value of `len(m)`. -/
def len {β : Type} (m : GoMap β) : Nat := m.entries.length

/-- The map holding the given pairs, a later pair overwriting an earlier one. -/
def ofList {β : Type} (l : List (String × β)) : GoMap β :=
  l.foldl (fun m e => m.set e.1 e.2) empty

end GoMap

/-- The pairs a `range` loop visits: none for the `nil` map. -/
def rangeOf {β : Type} : Option (GoMap β) → List (String × β)
  | none => []
  | some m => m.entries

/-- The value read by `v, ok := m[k]` from a map that may be `nil`. -/
def index? {β : Type} (m : Option (GoMap β)) (k : String) : Option β :=
  match m with
  | none => none
  | some d => d.get? k

/-! ## The data model -/

/-- A reading of the clock (`time.Time`), as an instant on a linear scale. -/
abbrev Time := Int

/-- The struct `Context`. `ParentID` is `none` for the `nil` pointer. -/
structure Context (V : Type) where
  ID : String
  Data : Option (GoMap V)
  Metadata : Option (GoMap String)
  CreatedAt : Time
  UpdatedAt : Time
  ExpiresAt : Option Time
  ParentID : Option String
  ChildrenIDs : List String
  Source : String
deriving DecidableEq

/-- The struct `ContextManager` without its lock. -/
structure ContextManager (V : Type) where
  contexts : GoMap (Context V)
deriving DecidableEq

/-- The store built by `NewContextManager`. -/
def NewContextManager {V : Type} : ContextManager V := ⟨GoMap.empty⟩

/-- Write through the pointer stored at `id`: the entry at `id` becomes `f` of it.
Nothing happens when `id` is not in the table. -/
def ContextManager.assign {V : Type} (cm : ContextManager V) (id : String)
    (f : Context V → Context V) : ContextManager V :=
  match cm.contexts.get? id with
  | none => cm
  | some c => ⟨cm.contexts.set id (f c)⟩

/-- Method `CreateContext`: the context returned and the store after the call. -/
def CreateContext {V : Type} (cm : ContextManager V) (now : Time) (id : String)
    (data : Option (GoMap V)) (metadata : Option (GoMap String)) (source : String) :
    Context V × ContextManager V :=
  let ctx : Context V :=
    { ID := id
      Data := data
      Metadata := metadata
      CreatedAt := now
      UpdatedAt := now
      ExpiresAt := none
      ParentID := none
      ChildrenIDs := []
      Source := source }
  (ctx, ⟨cm.contexts.set id ctx⟩)

/-- Method `GetContext`: `some ctx` for `(ctx, true)`, `none` for `(nil, false)`. -/
def GetContext {V : Type} (cm : ContextManager V) (id : String) :
    Option (Context V) × ContextManager V :=
  (cm.contexts.get? id, cm)

/-- Method `UpdateContext`: `some ctx` for `(ctx, true)`, `none` for `(nil, false)`. -/
def UpdateContext {V : Type} (cm : ContextManager V) (now : Time) (id : String)
    (data : Option (GoMap V)) (metadata : Option (GoMap String)) :
    Option (Context V) × ContextManager V :=
  match cm.contexts.get? id with
  | none => (none, cm)
  | some ctx =>
    let ctx := match data with
      | some d => { ctx with Data := some d }
      | none => ctx
    let ctx := match metadata with
      | some m => { ctx with Metadata := some m }
      | none => ctx
    let ctx := { ctx with UpdatedAt := now }
    (some ctx, ⟨cm.contexts.set id ctx⟩)

/-- Method `DeleteContext`. -/
def DeleteContext {V : Type} (cm : ContextManager V) (id : String) :
    Bool × ContextManager V :=
  match cm.contexts.get? id with
  | none => (false, cm)
  | some _ => (true, ⟨cm.contexts.delete id⟩)

/-- Method `GetContextsBySource`: the contexts appended to `result`, in the order the
loop visits the table. -/
def GetContextsBySource {V : Type} (cm : ContextManager V) (source : String) :
    List (Context V) × ContextManager V :=
  (cm.contexts.entries.foldl
    (fun result e => if e.2.Source = source then result ++ [e.2] else result) [], cm)

/-- Method `SetParentContext`. The two writes go through the pointers `child` and
`parent` in source order; when `childID = parentID` both reach the same object. -/
def SetParentContext {V : Type} (cm : ContextManager V) (childID parentID : String) :
    Bool × ContextManager V :=
  match cm.contexts.get? childID, cm.contexts.get? parentID with
  | some _, some _ =>
    let cm := cm.assign childID (fun c => { c with ParentID := some parentID })
    let cm := cm.assign parentID (fun p => { p with ChildrenIDs := p.ChildrenIDs ++ [childID] })
    (true, cm)
  | _, _ => (false, cm)

/-- The loop `for k, v := range src { result[k] = v }`. -/
def copyAll {V : Type} (src : List (String × V)) (result : GoMap V) : GoMap V :=
  src.foldl (fun r e => r.set e.1 e.2) result

/-- The loop `for k, v := range src { if _, exists := result[k]; !exists { result[k] = v } }`. -/
def copyMissing {V : Type} (src : List (String × V)) (result : GoMap V) : GoMap V :=
  src.foldl (fun r e => match r.get? e.1 with
    | some _ => r
    | none => r.set e.1 e.2) result

/-- Method `GetInheritedContext`, with at most `fuel` nested calls: the map
returned and the store after the call, or `none` when `fuel` calls do not suffice. -/
def GetInheritedContext {V : Type} :
    Nat → ContextManager V → String → Option (GoMap V × ContextManager V)
  | 0, _, _ => none
  | fuel + 1, cm, id =>
    let result : GoMap V := GoMap.empty
    match cm.contexts.get? id with
    | none => some (result, cm)
    | some ctx =>
      let result := copyAll (rangeOf ctx.Data) result
      match ctx.ParentID with
      | none => some (result, cm)
      | some parentID =>
        match GetInheritedContext fuel cm parentID with
        | none => none
        | some (parentData, cm) => some (copyMissing parentData.entries result, cm)

/-! ## Concrete stores used by the examples -/

/-- Parent `P` with data `{a:1, b:2}` created at time 10 and child `C` with data
`{b:9}` created at time 11, not linked. -/
def storeTwo : ContextManager Int :=
  let cm := (CreateContext NewContextManager 10 "P"
    (some (GoMap.ofList [("a", 1), ("b", 2)])) none "test").2
  (CreateContext cm 11 "C" (some (GoMap.ofList [("b", 9)])) none "test").2

/-- The store `storeTwo` after `SetParentContext("C", "P")`. -/
def storePC : ContextManager Int := (SetParentContext storeTwo "C" "P").2

/-- The context at `P` in `storeTwo`. -/
def ctxP0 : Context Int :=
  { ID := "P", Data := some (GoMap.ofList [("a", 1), ("b", 2)]), Metadata := none,
    CreatedAt := 10, UpdatedAt := 10, ExpiresAt := none, ParentID := none,
    ChildrenIDs := [], Source := "test" }

/-- The context at `C` in `storeTwo`. -/
def ctxC0 : Context Int :=
  { ID := "C", Data := some (GoMap.ofList [("b", 9)]), Metadata := none,
    CreatedAt := 11, UpdatedAt := 11, ExpiresAt := none, ParentID := none,
    ChildrenIDs := [], Source := "test" }

/-- The context at `P` in `storePC`. -/
def ctxP : Context Int := { ctxP0 with ChildrenIDs := ["C"] }

/-- The context at `C` in `storePC`. -/
def ctxC : Context Int := { ctxC0 with ParentID := some "P" }

/-- Grandparent `G` `{x:1}`, parent `P` `{y:2}`, child `C` `{z:3}`, linked in a chain. -/
def storeGPC : ContextManager Int :=
  let cm := (CreateContext NewContextManager 10 "G" (some (GoMap.ofList [("x", 1)])) none "test").2
  let cm := (CreateContext cm 11 "P" (some (GoMap.ofList [("y", 2)])) none "test").2
  let cm := (CreateContext cm 12 "C" (some (GoMap.ofList [("z", 3)])) none "test").2
  let cm := (SetParentContext cm "P" "G").2
  (SetParentContext cm "C" "P").2

/-- The contexts met by following `ParentID` from `id`: `id` itself first, then its
parent, and so on, until a context without parent or an id missing from the table
is reached. The chain exists exactly when that walk is finite. -/
inductive ParentChain {V : Type} (cm : ContextManager V) : String → List (Context V) → Prop
  | absent (id : String) : cm.contexts.get? id = none → ParentChain cm id []
  | root (id : String) (c : Context V) :
      cm.contexts.get? id = some c → c.ParentID = none → ParentChain cm id [c]
  | step (id parentID : String) (c : Context V) (cs : List (Context V)) :
      cm.contexts.get? id = some c → c.ParentID = some parentID →
      ParentChain cm parentID cs → ParentChain cm id (c :: cs)

/-- The store `storePC` after `DeleteContext("P")`: `C` still names the parent `P`,
which is no longer in the table. -/
def storeDangling : ContextManager Int := (DeleteContext storePC "P").2

/-! ## The request dispatcher of `pkg/aimodel/handler.go`

The remote client `frClient` is an external collaborator: `Client` holds what its two
methods used here return for each argument, an error being represented by its
message (the text `%v` prints).  `HandleRequest` and the two action handlers return,
next to their Go results, the list of calls they made to the context store and to the
client, in order.  The `context.Context` argument only carries cancellation and is
left out. -/

/-- A value held in an `interface{}` of a parameter bag, told apart by the dynamic
types the handlers assert: `string`, `map[string]interface{}` (a key is read at its
first pair), `[]interface{}`, and anything else (`nil` included). -/
inductive Value
  | str (s : String)
  | object (kvs : List (String × Value))
  | array (xs : List Value)
  | other (tag : Nat)

/-- The struct `firstresonance.Part` (its field `Type` is `Type_` here). -/
structure Part where
  ID : String
  Name : String
  Description : String
  Type_ : String
  Status : String

/-- The struct `firstresonance.Order`. -/
structure Order where
  ID : String
  CustomerID : String
  Items : List Value
  Priority : String
  DueDate : String
  Status : String

/-- The remote client as seen by the handlers: the pointer (`none` for nil) or the
error message returned by `Parts.Get` and by `Orders.Create`. -/
structure Client where
  PartsGet : String → Except String (Option Part)
  OrdersCreate : Order → Except String (Option Order)

/-- A value stored in `ModelResponse.Data`. -/
inductive Payload
  | part (p : Option Part)
  | order (o : Option Order)

/-- The struct `ModelRequest`. -/
structure ModelRequest where
  ModelID : String
  Action : String
  ContextID : String
  Params : Option (GoMap Value)

/-- The struct `ModelResponse`. -/
structure ModelResponse where
  Success : Bool
  Data : Option (GoMap Payload)
  Error : String

/-- The struct `ModelHandler` without its lock. -/
structure ModelHandler (V : Type) where
  contextManager : ContextManager V
  frClient : Client
  models : GoMap Bool

/-- A call made while a request is handled. -/
inductive Call
  | GetInheritedContext (id : String)
  | PartsGet (id : String)
  | OrdersCreate (order : Order)

/-- What `HandleRequest` returns (`resp` and `err`, `none` for nil), the calls it
made, and the context store afterwards. -/
structure Dispatched (V : Type) where
  resp : Option ModelResponse
  err : Option String
  calls : List Call
  contextManager : ContextManager V

/-- The function `NewModelHandler`. -/
def NewModelHandler {V : Type} (contextManager : ContextManager V) (frClient : Client) :
    ModelHandler V :=
  { contextManager := contextManager, frClient := frClient, models := GoMap.empty }

/-- Method `RegisterModel`. -/
def RegisterModel {V : Type} (h : ModelHandler V) (modelID : String) : ModelHandler V :=
  { h with models := h.models.set modelID true }

/-- The value of the index expression `h.models[modelID]`: false for a missing key. -/
def ModelHandler.isRegistered {V : Type} (h : ModelHandler V) (modelID : String) : Bool :=
  match h.models.get? modelID with
  | some b => b
  | none => false

/-- The assertion `x.(string)` in its two-result form, on the result of a map index. -/
def asString : Option Value → Option String
  | some (Value.str s) => some s
  | _ => none

/-- The assertion `x.(map[string]interface{})` in its two-result form. -/
def asObject : Option Value → Option (List (String × Value))
  | some (Value.object kvs) => some kvs
  | _ => none

/-- The assertion `x.([]interface{})` in its two-result form. -/
def asArray : Option Value → Option (List Value)
  | some (Value.array xs) => some xs
  | _ => none

/-- A response with `Success: false` and the given `Error`. -/
def failure (msg : String) : ModelResponse :=
  { Success := false, Data := none, Error := msg }

/-- Method `handleGetPart`: response, error and the calls made. -/
def handleGetPart {V : Type} (h : ModelHandler V) (req : ModelRequest) :
    Option ModelResponse × Option String × List Call :=
  match asString (index? req.Params "part_id") with
  | none => (some (failure "part_id is required"), none, [])
  | some partID =>
    match h.frClient.PartsGet partID with
    | Except.error err =>
      (some (failure ("failed to get part: " ++ err)), none, [Call.PartsGet partID])
    | Except.ok part =>
      (some { Success := true
              Data := some (GoMap.empty.set "part" (Payload.part part))
              Error := "" },
        none, [Call.PartsGet partID])

/-- Method `handleCreateOrder`: response, error and the calls made. -/
def handleCreateOrder {V : Type} (h : ModelHandler V) (req : ModelRequest) :
    Option ModelResponse × Option String × List Call :=
  match asObject (index? req.Params "order") with
  | none => (some (failure "order data is required"), none, [])
  | some orderData =>
    let order : Order :=
      { ID := "", CustomerID := "", Items := [], Priority := "", DueDate := "", Status := "" }
    match asString (lookupL "customer_id" orderData) with
    | none => (some (failure "customer_id is required and must be a string"), none, [])
    | some customerID =>
      let order := { order with CustomerID := customerID }
      match asArray (lookupL "items" orderData) with
      | none => (some (failure "items is required and must be an array"), none, [])
      | some items =>
        let order := { order with Items := items }
        let order := match asString (lookupL "priority" orderData) with
          | some priority => { order with Priority := priority }
          | none => order
        let order := match asString (lookupL "due_date" orderData) with
          | some dueDate => { order with DueDate := dueDate }
          | none => order
        let order := match asString (lookupL "status" orderData) with
          | some status => { order with Status := status }
          | none => order
        match h.frClient.OrdersCreate order with
        | Except.error err =>
          (some (failure ("failed to create order: " ++ err)), none,
            [Call.OrdersCreate order])
        | Except.ok createdOrder =>
          (some { Success := true
                  Data := some (GoMap.empty.set "order" (Payload.order createdOrder))
                  Error := "" },
            none, [Call.OrdersCreate order])

/-- The first step of `HandleRequest` after the registration check: `ctxData` (nil
when no context id is given), the store afterwards and the calls made; `none` when
`GetInheritedContext` does not return within `fuel` nested calls. -/
def resolveContext {V : Type} (fuel : Nat) (h : ModelHandler V) (req : ModelRequest) :
    Option (Option (GoMap V) × ContextManager V × List Call) :=
  if req.ContextID ≠ "" then
    match GetInheritedContext fuel h.contextManager req.ContextID with
    | none => none
    | some (ctxData, cm) => some (some ctxData, cm, [Call.GetInheritedContext req.ContextID])
  else some (none, h.contextManager, [])

/-- Method `HandleRequest`; `none` when the call does not return because
`GetInheritedContext` needs more than `fuel` nested calls. -/
def HandleRequest {V : Type} (fuel : Nat) (h : ModelHandler V) (req : ModelRequest) :
    Option (Dispatched V) :=
  if h.isRegistered req.ModelID = false then
    some { resp := none
           err := some ("model " ++ req.ModelID ++ " not registered")
           calls := []
           contextManager := h.contextManager }
  else
    match resolveContext fuel h req with
    | none => none
    | some (_, cm, calls) =>
      if req.Action = "get_part" then
        let r := handleGetPart h req
        some { resp := r.1, err := r.2.1, calls := calls ++ r.2.2, contextManager := cm }
      else if req.Action = "create_order" then
        let r := handleCreateOrder h req
        some { resp := r.1, err := r.2.1, calls := calls ++ r.2.2, contextManager := cm }
      else
        some { resp := some (failure ("unknown action: " ++ req.Action))
               err := none
               calls := calls
               contextManager := cm }

/-- A client whose calls all fail with the message `offline`. -/
def stubClient : Client :=
  { PartsGet := fun _ => Except.error "offline"
    OrdersCreate := fun _ => Except.error "offline" }

/-- A handler over `storePC` with the single registered model `m1`. -/
def handlerPC : ModelHandler Int := RegisterModel (NewModelHandler storePC stubClient) "m1"

/-- The store `storeTwo` after `SetParentContext("P", "P")`: `P` is its own parent. -/
def storeSelf : ContextManager Int := (SetParentContext storeTwo "P" "P").2

/-- A handler over `storeSelf` with the single registered model `m1`. -/
def handlerSelf : ModelHandler Int := RegisterModel (NewModelHandler storeSelf stubClient) "m1"

/-- The context at `P` in `storeSelf`. -/
def ctxSelf : Context Int := { ctxP0 with ParentID := some "P", ChildrenIDs := ["P"] }

/-- A `get_part` request of model `m1` with context `C`. -/
def reqGetPart : ModelRequest :=
  { ModelID := "m1", Action := "get_part", ContextID := "C",
    Params := some (GoMap.ofList [("part_id", Value.str "p-1")]) }

/-- A request of model `m1` for the unknown action `foo` with context `P`. -/
def reqUnknown : ModelRequest :=
  { ModelID := "m1", Action := "foo", ContextID := "P", Params := none }

/-- A request of the unregistered model `m2`. -/
def reqUnregistered : ModelRequest :=
  { ModelID := "m2", Action := "get_part", ContextID := "C", Params := none }

/-! ## Persistence: `SaveContexts` and `LoadContexts`

Both methods hand the table to `encoding/json`, which is not part of the repository.
The embedding works on JSON documents as trees: the text of a file is either not
well-formed JSON or spells one document.  A tree keeps the members of an object in
document order (duplicates included), a string as the characters it spells, and a
number as the `float64` nearest to it, which is all the decoder uses of a number
here (a number is read into an `interface{}` as that `float64`, and is of the wrong
kind everywhere else).  What the
package does with a `map[string]*Context` is written out below from the struct tags
of `Context` and from the decoder of the package:

* `Marshal` writes a map as an object with its keys sorted, a struct as an object
  with its fields in declaration order under their tag names, leaves out an
  `omitempty` field holding a nil pointer or an empty slice, writes a nil map as
  `null`, and fails when a value cannot be written.
* `Unmarshal` checks the whole text first and stores nothing when it is not
  well-formed.  `null` sets a map, a pointer or a slice to nil and leaves a string
  or a `time.Time` as it is.  An object is decoded into a map member by member, in
  document order, each member into a fresh element that is then stored under its
  key; a map that is not nil is reused, its entries kept.  An object is decoded into
  a struct member by member, each into the field whose tag name is the key, exactly
  or else up to case; a member with no such field is skipped.  A value of the wrong
  JSON kind for its place is skipped with an `UnmarshalTypeError` recorded (after a
  nil pointer on the way to the place has been set to a new zero value), decoding
  goes on, and the first error recorded is returned at the end.  The error of
  `Time.UnmarshalJSON` is returned at once: the object being decoded is left
  unfinished and the member it belongs to is not stored.

How single data values and clock readings are written and read is left to a `Codec`.
`Time.UnmarshalJSON` reads the text between the quotes as it stands; a tree keeps
the characters a string spells, so time strings are taken to be written without
escape sequences.  The store passed to `LoadContexts` has a table that is not nil and
holds no nil pointer, as every store built by the other methods has; the table it
leaves may be nil or hold nil pointers, and is given as such (`Loaded`). -/

/-- A JSON document. A number literal within the range of `float64` is kept as the
`float64` nearest to it: its sign, and the mantissa and binary exponent of its
magnitude `mantissa · 2 ^ exponent`, the mantissa odd (zero has mantissa and exponent
zero): `-1.5e3` is `num true 375 2`, `0.5` is `num false 1 (-1)`.  A number literal
out of that range is `bigNum`. -/
inductive Json
  | null
  | bool (b : Bool)
  | num (negative : Bool) (mantissa : Nat) (exponent : Int)
  | bigNum
  | str (s : String)
  | arr (xs : List Json)
  | obj (kvs : List (String × Json))

mutual
/-- Whether two JSON values are the same. -/
def Json.beq : Json → Json → Bool
  | Json.null, Json.null => true
  | Json.bool a, Json.bool b => a == b
  | Json.num n m e, Json.num n2 m2 e2 => n == n2 && m == m2 && e == e2
  | Json.bigNum, Json.bigNum => true
  | Json.str a, Json.str b => a == b
  | Json.arr xs, Json.arr ys => Json.beqList xs ys
  | Json.obj xs, Json.obj ys => Json.beqMembers xs ys
  | _, _ => false
/-- Whether two lists of JSON values are the same. -/
def Json.beqList : List Json → List Json → Bool
  | [], [] => true
  | x :: xs, y :: ys => Json.beq x y && Json.beqList xs ys
  | _, _ => false
/-- Whether the members of two objects are the same, in their order. -/
def Json.beqMembers : List (String × Json) → List (String × Json) → Bool
  | [], [] => true
  | (k, x) :: xs, (k2, y) :: ys => k == k2 && Json.beq x y && Json.beqMembers xs ys
  | _, _ => false
end

mutual
theorem Json.beq_iff : ∀ a b : Json, Json.beq a b = true ↔ a = b
  | Json.null, b => by cases b <;> simp [Json.beq]
  | Json.bool a, b => by cases b <;> simp [Json.beq]
  | Json.num n m e, b => by cases b <;> simp [Json.beq, and_assoc]
  | Json.bigNum, b => by cases b <;> simp [Json.beq]
  | Json.str a, b => by cases b <;> simp [Json.beq]
  | Json.arr xs, b => by cases b <;> simp [Json.beq, Json.beqList_iff xs]
  | Json.obj xs, b => by cases b <;> simp [Json.beq, Json.beqMembers_iff xs]
theorem Json.beqList_iff : ∀ a b : List Json, Json.beqList a b = true ↔ a = b
  | [], b => by cases b <;> simp [Json.beqList]
  | x :: xs, b => by cases b <;> simp [Json.beqList, Json.beq_iff x, Json.beqList_iff xs]
theorem Json.beqMembers_iff : ∀ a b : List (String × Json), Json.beqMembers a b = true ↔ a = b
  | [], b => by cases b <;> simp [Json.beqMembers]
  | (k, x) :: xs, b => by
    cases b with
    | nil => simp [Json.beqMembers]
    | cons h t =>
      obtain ⟨k2, y⟩ := h
      simp [Json.beqMembers, Json.beq_iff x, Json.beqMembers_iff xs, and_assoc]
end

instance : DecidableEq Json := fun a b =>
  decidable_of_iff (Json.beq a b = true) (Json.beq_iff a b)

/-- The bytes `os.ReadFile` returns, up to JSON text. -/
inductive FileData
  | malformed
  | document (j : Json)

/-- The errors `SaveContexts` and `LoadContexts` return: of `os.ReadFile`, of
`json.MarshalIndent`, a `*json.SyntaxError`, a `*json.UnmarshalTypeError`, and the
error of `Time.UnmarshalJSON`. -/
inductive Failure
  | readFile
  | marshal
  | invalidJson
  | typeMismatch
  | timeFormat
deriving DecidableEq

/-- What `encoding/json` and `time` do with the values the store does not look into:
writing a data value (`none` for an error), reading a JSON value into a new
`interface{}` (the value it holds afterwards, and whether an `UnmarshalTypeError`
was recorded, as it is for a number out of the range of `float64`),
`Time.MarshalJSON` (the text of
the JSON string, `none` for an error), `Time.UnmarshalJSON` on a JSON string (`none`
for an error), and the zero `Time`. -/
structure Codec (V : Type) where
  marshalValue : V → Option Json
  unmarshalValue : Json → V × Bool
  marshalTime : Time → Option String
  unmarshalTime : String → Option Time
  zeroTime : Time

/-- Whether the first text comes strictly before the second in byte order. -/
def ltChars : List Char → List Char → Bool
  | [], [] => false
  | [], _ :: _ => true
  | _ :: _, [] => false
  | a :: s, b :: t =>
    if a.toNat < b.toNat then true
    else if b.toNat < a.toNat then false
    else ltChars s t

/-- The pairs of a map in the order `Marshal` writes them: sorted by key. -/
def sortByKey {β : Type} (l : List (String × β)) : List (String × β) :=
  l.insertionSort (fun a b => ltChars b.1.data a.1.data = false)

/-- Write every value of a list of pairs, failing when one value fails. -/
def mapValues? {β γ : Type} (f : β → Option γ) : List (String × β) → Option (List (String × γ))
  | [] => some []
  | (k, v) :: t =>
    match f v with
    | none => none
    | some j =>
      match mapValues? f t with
      | none => none
      | some r => some ((k, j) :: r)

/-- The field `Data` as `Marshal` writes it. -/
def marshalData {V : Type} (codec : Codec V) : Option (GoMap V) → Option Json
  | none => some Json.null
  | some m => (mapValues? codec.marshalValue (sortByKey m.entries)).map Json.obj

/-- The field `Metadata` as `Marshal` writes it. -/
def marshalMetadata : Option (GoMap String) → Json
  | none => Json.null
  | some m => Json.obj ((sortByKey m.entries).map (fun e => (e.1, Json.str e.2)))

/-- The member for `ExpiresAt` (tag `expires_at,omitempty`). -/
def marshalExpiresAt {V : Type} (codec : Codec V) :
    Option Time → Option (List (String × Json))
  | none => some []
  | some t => (codec.marshalTime t).map (fun s => [("expires_at", Json.str s)])

/-- The member for `ParentID` (tag `parent_id,omitempty`). -/
def marshalParentID : Option String → List (String × Json)
  | none => []
  | some p => [("parent_id", Json.str p)]

/-- The member for `ChildrenIDs` (tag `children_ids,omitempty`). -/
def marshalChildrenIDs (ids : List String) : List (String × Json) :=
  if ids = [] then [] else [("children_ids", Json.arr (ids.map Json.str))]

/-- A `Context` as `Marshal` writes it, `none` for an error. -/
def marshalContext {V : Type} (codec : Codec V) (c : Context V) : Option Json :=
  match marshalData codec c.Data, codec.marshalTime c.CreatedAt,
      codec.marshalTime c.UpdatedAt, marshalExpiresAt codec c.ExpiresAt with
  | some data, some created, some updated, some expires =>
    some (Json.obj ([("id", Json.str c.ID), ("data", data),
        ("metadata", marshalMetadata c.Metadata),
        ("created_at", Json.str created), ("updated_at", Json.str updated)]
      ++ expires ++ marshalParentID c.ParentID ++ marshalChildrenIDs c.ChildrenIDs
      ++ [("source", Json.str c.Source)]))
  | _, _, _, _ => none

/-- Method `SaveContexts`, up to the call of `os.WriteFile`: the document handed to
it (the method then returns what `os.WriteFile` returns), or the error of
`json.MarshalIndent`; and the store after the call. -/
def SaveContexts {V : Type} (codec : Codec V) (cm : ContextManager V) :
    Except Failure Json × ContextManager V :=
  (match mapValues? (marshalContext codec) (sortByKey cm.contexts.entries) with
    | none => Except.error Failure.marshal
    | some kvs => Except.ok (Json.obj kvs), cm)

/-- The zero value of `Context`. -/
def zeroContext {V : Type} (codec : Codec V) : Context V :=
  { ID := "", Data := none, Metadata := none, CreatedAt := codec.zeroTime,
    UpdatedAt := codec.zeroTime, ExpiresAt := none, ParentID := none,
    ChildrenIDs := [], Source := "" }

/-- The fields of `Context`. -/
inductive Field
  | ID
  | Data
  | Metadata
  | CreatedAt
  | UpdatedAt
  | ExpiresAt
  | ParentID
  | ChildrenIDs
  | Source
deriving DecidableEq

/-- The name each field has in JSON, from its tag, in declaration order. -/
def fieldNames : List (String × Field) :=
  [("id", Field.ID), ("data", Field.Data), ("metadata", Field.Metadata),
   ("created_at", Field.CreatedAt), ("updated_at", Field.UpdatedAt),
   ("expires_at", Field.ExpiresAt), ("parent_id", Field.ParentID),
   ("children_ids", Field.ChildrenIDs), ("source", Field.Source)]

/-- The code point a character is folded to when names are compared up to case: a
small ASCII letter becomes the capital, and so do the two other characters whose
case orbit holds an ASCII letter, U+017F (long s) and U+212A (Kelvin sign).  Every
other character is left as it is; its orbit holds no ASCII letter, so this does not
change which keys match a name written in ASCII. -/
def foldRune (c : Char) : Nat :=
  if 97 ≤ c.toNat ∧ c.toNat ≤ 122 then c.toNat - 32
  else if c.toNat = 383 then 83
  else if c.toNat = 8490 then 75
  else c.toNat

/-- A name folded for the comparison up to case. -/
def foldName (s : String) : List Nat := s.data.map foldRune

/-- The field a member with the given key is decoded into: the field of that name,
or else the field whose name is the key up to case; `none` when there is neither. -/
def fieldOf (key : String) : Option Field :=
  match lookupL key fieldNames with
  | some f => some f
  | none =>
    (fieldNames.find? (fun e => decide (foldName e.1 = foldName key))).map Prod.snd

/-- The map a map-typed field holds before an object is decoded into it: the
existing one, or a new one when the field is nil. -/
def mapOrNew {β : Type} : Option (GoMap β) → GoMap β
  | some m => m
  | none => GoMap.empty

/-- What decoding one member does to the value built so far: the member is decoded
(`done`), some JSON value in it has the wrong kind for its place and an
`UnmarshalTypeError` is recorded (`mismatch`), or `Time.UnmarshalJSON` returns an
error and decoding stops (`abort`). -/
inductive FieldResult (α : Type)
  | done (a : α)
  | mismatch (a : α)
  | abort

/-- A JSON value decoded into a string that holds `old`: the string afterwards and
whether a type error was recorded. -/
def intoString (old : String) : Json → String × Bool
  | Json.str s => (s, false)
  | Json.null => (old, false)
  | _ => (old, true)

/-- A JSON value decoded into the string field `ID`. -/
def intoID {V : Type} (c : Context V) : Json → FieldResult (Context V)
  | Json.str s => FieldResult.done { c with ID := s }
  | Json.null => FieldResult.done c
  | _ => FieldResult.mismatch c

/-- A JSON value decoded into the string field `Source`. -/
def intoSource {V : Type} (c : Context V) : Json → FieldResult (Context V)
  | Json.str s => FieldResult.done { c with Source := s }
  | Json.null => FieldResult.done c
  | _ => FieldResult.mismatch c

/-- A JSON value decoded into the field `Data` of type `map[string]interface{}`:
each member of an object is read into a new `interface{}` and stored under its
key. -/
def intoData {V : Type} (codec : Codec V) (c : Context V) : Json → FieldResult (Context V)
  | Json.null => FieldResult.done { c with Data := none }
  | Json.obj kvs =>
    let c1 : Context V := { c with
      Data := some (copyAll (kvs.map (fun e => (e.1, (codec.unmarshalValue e.2).1)))
        (mapOrNew c.Data)) }
    if kvs.any (fun e => (codec.unmarshalValue e.2).2) then FieldResult.mismatch c1
    else FieldResult.done c1
  | _ => FieldResult.mismatch c

/-- A JSON value decoded into the field `Metadata` of type `map[string]string`: each
member of an object is decoded into a new string and stored under its key. -/
def intoMetadata {V : Type} (c : Context V) : Json → FieldResult (Context V)
  | Json.null => FieldResult.done { c with Metadata := none }
  | Json.obj kvs =>
    let c1 : Context V := { c with
      Metadata := some (copyAll (kvs.map (fun e => (e.1, (intoString "" e.2).1)))
        (mapOrNew c.Metadata)) }
    if kvs.any (fun e => (intoString "" e.2).2) then FieldResult.mismatch c1
    else FieldResult.done c1
  | _ => FieldResult.mismatch c

/-- A JSON value decoded into the field `CreatedAt` of type `time.Time`. -/
def intoCreatedAt {V : Type} (codec : Codec V) (c : Context V) :
    Json → FieldResult (Context V)
  | Json.str s =>
    match codec.unmarshalTime s with
    | some t => FieldResult.done { c with CreatedAt := t }
    | none => FieldResult.abort
  | Json.null => FieldResult.done c
  | _ => FieldResult.abort

/-- A JSON value decoded into the field `UpdatedAt` of type `time.Time`. -/
def intoUpdatedAt {V : Type} (codec : Codec V) (c : Context V) :
    Json → FieldResult (Context V)
  | Json.str s =>
    match codec.unmarshalTime s with
    | some t => FieldResult.done { c with UpdatedAt := t }
    | none => FieldResult.abort
  | Json.null => FieldResult.done c
  | _ => FieldResult.abort

/-- A JSON value decoded into the field `ExpiresAt` of type `*time.Time`. -/
def intoExpiresAt {V : Type} (codec : Codec V) (c : Context V) :
    Json → FieldResult (Context V)
  | Json.str s =>
    match codec.unmarshalTime s with
    | some t => FieldResult.done { c with ExpiresAt := some t }
    | none => FieldResult.abort
  | Json.null => FieldResult.done { c with ExpiresAt := none }
  | _ => FieldResult.abort

/-- A JSON value decoded into the field `ParentID` of type `*string`: before a value
that is not `null` is looked at, a nil pointer is set to a new empty string. -/
def intoParentID {V : Type} (c : Context V) : Json → FieldResult (Context V)
  | Json.str s => FieldResult.done { c with ParentID := some s }
  | Json.null => FieldResult.done { c with ParentID := none }
  | _ => FieldResult.mismatch { c with ParentID := some (c.ParentID.getD "") }

/-- The `Context` a member of the table is decoded into, with what the array behind
the slice `ChildrenIDs` holds past the length of the slice (a later array decoded
into the same slice finds these strings in its elements). -/
structure Decoding (V : Type) where
  ctx : Context V
  spare : List String

/-- The elements of a JSON array decoded one by one into the elements of a string
slice whose array holds `slots` (an element past `slots` is new and empty): the
strings afterwards and whether a type error was recorded. -/
def intoElements : List Json → List String → List String × Bool
  | [], _ => ([], false)
  | x :: xs, slots =>
    ((intoString (slots.headD "") x).1 :: (intoElements xs slots.tail).1,
      (intoString (slots.headD "") x).2 || (intoElements xs slots.tail).2)

/-- A JSON value decoded into the field `ChildrenIDs` of type `[]string`: an array
is decoded element by element into the slice, which is then cut to the length of the
array; an array without elements leaves a new empty slice. -/
def intoChildrenIDs {V : Type} (d : Decoding V) : Json → FieldResult (Decoding V)
  | Json.arr xs =>
    let slots := d.ctx.ChildrenIDs ++ d.spare
    let d1 : Decoding V :=
      { ctx := { d.ctx with ChildrenIDs := (intoElements xs slots).1 }
        spare := if xs.isEmpty then [] else slots.drop xs.length }
    if (intoElements xs slots).2 then FieldResult.mismatch d1 else FieldResult.done d1
  | Json.null => FieldResult.done { ctx := { d.ctx with ChildrenIDs := [] }, spare := [] }
  | _ => FieldResult.mismatch d

/-- The result of decoding into a field of the `Context`, as a result on the whole
`Decoding`. -/
def FieldResult.withSpare {V : Type} (spare : List String) :
    FieldResult (Context V) → FieldResult (Decoding V)
  | FieldResult.done c => FieldResult.done { ctx := c, spare := spare }
  | FieldResult.mismatch c => FieldResult.mismatch { ctx := c, spare := spare }
  | FieldResult.abort => FieldResult.abort

/-- A JSON value decoded into the given field. -/
def intoField {V : Type} (codec : Codec V) (d : Decoding V) (j : Json) :
    Field → FieldResult (Decoding V)
  | Field.ID => (intoID d.ctx j).withSpare d.spare
  | Field.Data => (intoData codec d.ctx j).withSpare d.spare
  | Field.Metadata => (intoMetadata d.ctx j).withSpare d.spare
  | Field.CreatedAt => (intoCreatedAt codec d.ctx j).withSpare d.spare
  | Field.UpdatedAt => (intoUpdatedAt codec d.ctx j).withSpare d.spare
  | Field.ExpiresAt => (intoExpiresAt codec d.ctx j).withSpare d.spare
  | Field.ParentID => (intoParentID d.ctx j).withSpare d.spare
  | Field.ChildrenIDs => intoChildrenIDs d j
  | Field.Source => (intoSource d.ctx j).withSpare d.spare

/-- Decoding the member `key: j` of an object into the `Context`: a member whose key
names no field is skipped. -/
def unmarshalField {V : Type} (codec : Codec V) (d : Decoding V) (key : String) (j : Json) :
    FieldResult (Decoding V) :=
  match fieldOf key with
  | some f => intoField codec d j f
  | none => FieldResult.done d

/-- Decoding the members of an object, in order, into the `Context`: the `Context`
reached and whether a type error was recorded; `none` when decoding stopped on the
error of `Time.UnmarshalJSON`. -/
def unmarshalFields {V : Type} (codec : Codec V) :
    List (String × Json) → Decoding V → Bool → Option (Decoding V × Bool)
  | [], d, e => some (d, e)
  | (key, j) :: t, d, e =>
    match unmarshalField codec d key j with
    | FieldResult.done d1 => unmarshalFields codec t d1 e
    | FieldResult.mismatch d1 => unmarshalFields codec t d1 true
    | FieldResult.abort => none

/-- Decoding one member value of the top-level object into a new element of type
`*Context`: the pointer to store (`none` for nil) and whether a type error was
recorded; `none` when decoding stopped on the error of `Time.UnmarshalJSON`.  A value
that is neither an object nor `null` leaves a pointer to a zero `Context`. -/
def unmarshalEntry {V : Type} (codec : Codec V) :
    Json → Option (Option (Context V) × Bool)
  | Json.obj fields =>
    (unmarshalFields codec fields { ctx := zeroContext codec, spare := [] } false).map
      (fun r => (some r.1.ctx, r.2))
  | Json.null => some (none, false)
  | _ => some (some (zeroContext codec), true)

/-- Decoding the members of the top-level object, in order: the pairs stored, and
whether a type error was recorded, `none` when decoding stopped on the error of
`Time.UnmarshalJSON` (the member it stopped in and those after it are not stored). -/
def unmarshalEntries {V : Type} (codec : Codec V) :
    List (String × Json) → List (String × Option (Context V)) × Option Bool
  | [] => ([], some false)
  | (k, j) :: t =>
    match unmarshalEntry codec j with
    | none => ([], none)
    | some (c, e1) =>
      ((k, c) :: (unmarshalEntries codec t).1,
        (unmarshalEntries codec t).2.map (fun e2 => e1 || e2))

/-- What `LoadContexts` returns (`none` for nil) and the table `cm.contexts` it
leaves: `none` for the nil map, and `none` under a key for a nil pointer. -/
structure Loaded (V : Type) where
  err : Option Failure
  contexts : Option (GoMap (Option (Context V)))

/-- The table of a store, as a map of pointers. -/
def ContextManager.pointers {V : Type} (cm : ContextManager V) :
    GoMap (Option (Context V)) :=
  ⟨cm.contexts.entries.map (fun e => (e.1, some e.2)), by
    have h : keysL (cm.contexts.entries.map (fun e => (e.1, some e.2))) =
        keysL cm.contexts.entries := by
      simp [keysL, List.map_map, Function.comp_def]
    rw [h]
    exact cm.contexts.nodup⟩

/-- The call `json.Unmarshal(data, &cm.contexts)` on a well-formed document. -/
def unmarshalTable {V : Type} (codec : Codec V) (cm : ContextManager V) : Json → Loaded V
  | Json.obj kvs =>
    { err := match (unmarshalEntries codec kvs).2 with
        | none => some Failure.timeFormat
        | some true => some Failure.typeMismatch
        | some false => none
      contexts := some (copyAll (unmarshalEntries codec kvs).1 cm.pointers) }
  | Json.null => { err := none, contexts := none }
  | _ => { err := some Failure.typeMismatch, contexts := some cm.pointers }

/-- Method `LoadContexts`; `file` is what `os.ReadFile` returns, `none` for an
error. -/
def LoadContexts {V : Type} (codec : Codec V) (cm : ContextManager V)
    (file : Option FileData) : Loaded V :=
  match file with
  | none => { err := some Failure.readFile, contexts := some cm.pointers }
  | some FileData.malformed =>
    { err := some Failure.invalidJson, contexts := some cm.pointers }
  | some (FileData.document j) => unmarshalTable codec cm j

/-- Two maps that may be nil hold the same: both are nil or neither is, and they
read the same under every key. -/
def sameMap {β : Type} (a b : Option (GoMap β)) : Prop :=
  (a = none ↔ b = none) ∧ ∀ k, index? a k = index? b k

/-- The second context holds what the first holds in the fields `ID`, `Data`,
`Metadata`, `ParentID`, `ChildrenIDs` and `Source` (maps compared key by key). -/
def sameContent {V : Type} (c c' : Context V) : Prop :=
  c'.ID = c.ID ∧ sameMap c'.Data c.Data ∧ sameMap c'.Metadata c.Metadata ∧
  c'.ParentID = c.ParentID ∧ c'.ChildrenIDs = c.ChildrenIDs ∧ c'.Source = c.Source

/-! ### A codec for the examples -/

/-- The number of binary digits of `n`, of which there are at most `fuel`. -/
def bitLength : Nat → Nat → Nat
  | 0, _ => 0
  | fuel + 1, n => if n = 0 then 0 else bitLength fuel (n / 2) + 1

/-- The value `m · 2 ^ e` with the factors two of `m` moved into the exponent, of
which there are at most `fuel`. -/
def oddPart : Nat → Nat → Int → Nat × Int
  | 0, m, e => (m, e)
  | fuel + 1, m, e => if m % 2 = 0 then oddPart fuel (m / 2) (e + 1) else (m, e)

/-- The value `m · 2 ^ e` as a `Json` keeps a number: with an odd mantissa, zero with
mantissa and exponent zero. -/
def normalFloat (m : Nat) (e : Int) : Nat × Int :=
  if m = 0 then (0, 0) else oddPart m m e

/-- The `float64` nearest to the whole number `n`, a tie going to the even mantissa
(for `n` below `2 ^ 1024`, as the magnitude of every `int` is). -/
def float64OfNat (n : Nat) : Nat × Int :=
  if bitLength n n ≤ 53 then normalFloat n 0
  else
    normalFloat
      (if 2 ^ (bitLength n n - 53) < 2 * (n % 2 ^ (bitLength n n - 53)) ∨
          (2 * (n % 2 ^ (bitLength n n - 53)) = 2 ^ (bitLength n n - 53) ∧
            (n / 2 ^ (bitLength n n - 53)) % 2 = 1)
       then n / 2 ^ (bitLength n n - 53) + 1
       else n / 2 ^ (bitLength n n - 53))
      ((bitLength n n - 53 : Nat) : Int)

mutual
/-- Whether a JSON value holds a number out of the range of `float64`. -/
def outOfRange : Json → Bool
  | Json.bigNum => true
  | Json.arr xs => outOfRangeAny xs
  | Json.obj kvs => outOfRangeMember kvs
  | _ => false
/-- Whether a list of JSON values holds a number out of the range of `float64`. -/
def outOfRangeAny : List Json → Bool
  | [] => false
  | x :: xs => outOfRange x || outOfRangeAny xs
/-- Whether the members of an object hold a number out of the range of `float64`. -/
def outOfRangeMember : List (String × Json) → Bool
  | [] => false
  | (_, x) :: t => outOfRange x || outOfRangeMember t
end

mutual
/-- What `Marshal` writes for the value that `Unmarshal` stores in a new
`interface{}` when it reads the given JSON value: `null` for a number out of range
(nothing is stored for it), the keys of an object sorted, a key that occurs twice
with the value read last. -/
def canon : Json → Json
  | Json.num negative m e => Json.num negative (normalFloat m e).1 (normalFloat m e).2
  | Json.bigNum => Json.null
  | Json.arr xs => Json.arr (canonList xs)
  | Json.obj kvs => Json.obj (sortByKey (copyAll (canonMembers kvs) GoMap.empty).entries)
  | j => j
/-- What `Marshal` writes for each value read from a list of JSON values. -/
def canonList : List Json → List Json
  | [] => []
  | x :: xs => canon x :: canonList xs
/-- What `Marshal` writes for each value read from the members of an object. -/
def canonMembers : List (String × Json) → List (String × Json)
  | [] => []
  | (k, x) :: t => (k, canon x) :: canonMembers t
end

/-- Go values held in an `interface{}`: an `int` (`n` within its range), or the value
an `interface{}` holds after `Unmarshal` has read the given JSON value into it, which
is nil, a `bool`, a `float64`, a `string`, a `[]interface{}` or a
`map[string]interface{}`. -/
inductive GoValue
  | int (n : Int)
  | read (j : Json)
  deriving DecidableEq

/-- The whole number a decimal numeral spells: `none` for a text that is not the
decimal numeral of a whole number. -/
def readWhole (s : String) : Option Int :=
  let digits : List Char → Int :=
    fun cs => cs.foldl (fun acc c => acc * 10 + ((c.toNat : Int) - 48)) 0
  let n : Int :=
    match s.data with
    | [] => 0
    | c :: cs => if c.toNat = 45 then -(digits cs) else digits (c :: cs)
  if toString n = s then some n else none

/-- What `encoding/json` does with the values of `GoValue`: an `int` is written as its
decimal numeral, a number whose nearest `float64` is kept in the document; a value
read from JSON is written back as `canon` has it; and every JSON value is read into a
new `interface{}`, with a type error recorded when it holds a number out of range.
The text of a clock reading is not modelled: a reading, an instant on a linear scale,
is written as its decimal numeral in place of the RFC 3339 text, and a string that is
no such numeral is rejected, as `Time.UnmarshalJSON` rejects a string that is not
RFC 3339 text. -/
def goCodec : Codec GoValue :=
  { marshalValue := fun v =>
      match v with
      | GoValue.int n =>
        some (Json.num (decide (n < 0)) (float64OfNat n.natAbs).1 (float64OfNat n.natAbs).2)
      | GoValue.read j => some (canon j)
    unmarshalValue := fun j => (GoValue.read j, outOfRange j)
    marshalTime := fun t => some (toString t)
    unmarshalTime := readWhole
    zeroTime := 0 }

/-! ### Stores and documents of the examples -/

/-- A store whose context `X` holds the Go `int` 1 under the key `n`. -/
def storeInt : ContextManager GoValue :=
  (CreateContext NewContextManager 10 "X"
    (some (GoMap.ofList [("n", GoValue.int 1)])) none "test").2

/-- The image of `storeInt`. -/
def docInt : Json :=
  Json.obj
    [("X", Json.obj [("id", Json.str "X"), ("data", Json.obj [("n", Json.num false 1 0)]),
        ("metadata", Json.null), ("created_at", Json.str "10"),
        ("updated_at", Json.str "10"), ("source", Json.str "test")])]

/-- The context at `X` in `storeInt`. -/
def ctxInt : Context GoValue :=
  { ID := "X", Data := some (GoMap.ofList [("n", GoValue.int 1)]), Metadata := none,
    CreatedAt := 10, UpdatedAt := 10, ExpiresAt := none, ParentID := none,
    ChildrenIDs := [], Source := "test" }

/-- The context at `X` after `storeInt` is saved and loaded: the number is a
`float64`. -/
def ctxIntLoaded : Context GoValue :=
  { ctxInt with Data := some (GoMap.ofList [("n", GoValue.read (Json.num false 1 0))]) }

/-- A store whose numbers are of type `float64`: `A` with data `{n: 1, m: -5}` and
metadata `{k: v}`, and its child `B` with nil data. -/
def storeAB : ContextManager GoValue :=
  let cm := (CreateContext NewContextManager 10 "A"
    (some (GoMap.ofList
      [("n", GoValue.read (Json.num false 1 0)),
       ("m", GoValue.read (Json.num true 5 0))]))
    (some (GoMap.ofList [("k", "v")])) "test").2
  let cm := (CreateContext cm 11 "B" none none "test").2
  (SetParentContext cm "B" "A").2

/-- The context at `A` in `storeAB`. -/
def ctxA : Context GoValue :=
  { ID := "A"
    Data := some (GoMap.ofList
      [("n", GoValue.read (Json.num false 1 0)),
       ("m", GoValue.read (Json.num true 5 0))])
    Metadata := some (GoMap.ofList [("k", "v")])
    CreatedAt := 10, UpdatedAt := 10, ExpiresAt := none, ParentID := none
    ChildrenIDs := ["B"], Source := "test" }

/-- The context at `B` in `storeAB`. -/
def ctxB : Context GoValue :=
  { ID := "B", Data := none, Metadata := none, CreatedAt := 11, UpdatedAt := 11,
    ExpiresAt := none, ParentID := some "A", ChildrenIDs := [], Source := "test" }

/-- The image of `storeAB`. -/
def docAB : Json :=
  Json.obj
    [("A", Json.obj [("id", Json.str "A"),
        ("data", Json.obj [("m", Json.num true 5 0), ("n", Json.num false 1 0)]),
        ("metadata", Json.obj [("k", Json.str "v")]), ("created_at", Json.str "10"),
        ("updated_at", Json.str "10"),
        ("children_ids", Json.arr [Json.str "B"]), ("source", Json.str "test")]),
     ("B", Json.obj [("id", Json.str "B"), ("data", Json.null),
        ("metadata", Json.null), ("created_at", Json.str "11"),
        ("updated_at", Json.str "11"), ("parent_id", Json.str "A"),
        ("source", Json.str "test")])]

/-- The document `{"X": {"id": 5, "source": "web"}}`: the id is a number. -/
def docBadID : Json :=
  Json.obj [("X", Json.obj [("id", Json.num false 5 0), ("source", Json.str "web")])]

/-- The document `{"X": {"id": "X"}, "Y": {"created_at": "soon"}, "Z": {}}`: the
time of `Y` cannot be read. -/
def docBadTime : Json :=
  Json.obj [("X", Json.obj [("id", Json.str "X")]),
    ("Y", Json.obj [("created_at", Json.str "soon")]), ("Z", Json.obj [])]

/-- The document `{"X": {"ID": "X", "note": 1}, "N": null}`: the key `ID` differs
from the name `id` in case, no field is named `note`, and `N` holds `null`. -/
def docXN : Json :=
  Json.obj [("X", Json.obj [("ID", Json.str "X"), ("note", Json.num false 1 0)]),
    ("N", Json.null)]

/-! ## Sequences of store operations, the parent walk and the read lock -/

/-- A call of one of the four methods that write the table, with its arguments (and
the clock reading it takes). -/
inductive StoreOp (V : Type)
  | create (now : Time) (id : String) (data : Option (GoMap V))
      (metadata : Option (GoMap String)) (source : String)
  | update (now : Time) (id : String) (data : Option (GoMap V))
      (metadata : Option (GoMap String))
  | delete (id : String)
  | link (childID parentID : String)

/-- The store after the call. -/
def StoreOp.run {V : Type} : StoreOp V → ContextManager V → ContextManager V
  | StoreOp.create now id data metadata source, cm =>
    (CreateContext cm now id data metadata source).2
  | StoreOp.update now id data metadata, cm => (UpdateContext cm now id data metadata).2
  | StoreOp.delete id, cm => (DeleteContext cm id).2
  | StoreOp.link childID parentID, cm => (SetParentContext cm childID parentID).2

/-- The id a `CreateContext` call writes, `none` for the other calls. -/
def StoreOp.createdID {V : Type} : StoreOp V → Option String
  | StoreOp.create _ id _ _ _ => some id
  | _ => none

/-- The stores reached from the new store by `CreateContext` calls on ids not yet in
the table, `UpdateContext` calls and `SetParentContext` calls. -/
inductive Reachable {V : Type} : ContextManager V → Prop
  | new : Reachable NewContextManager
  | create (cm : ContextManager V) (now : Time) (id : String) (data : Option (GoMap V))
      (metadata : Option (GoMap String)) (source : String) :
      Reachable cm → cm.contexts.get? id = none →
      Reachable (CreateContext cm now id data metadata source).2
  | update (cm : ContextManager V) (now : Time) (id : String) (data : Option (GoMap V))
      (metadata : Option (GoMap String)) :
      Reachable cm → Reachable (UpdateContext cm now id data metadata).2
  | link (cm : ContextManager V) (childID parentID : String) :
      Reachable cm → Reachable (SetParentContext cm childID parentID).2

/-- The id `GetInheritedContext(id)` passes to its nested call: the `ParentID` of the
context at `id`; `none` when `id` is not in the table or its context has no parent. -/
def parentOf {V : Type} (cm : ContextManager V) (id : String) : Option String :=
  match cm.contexts.get? id with
  | none => none
  | some ctx => ctx.ParentID

/-- The id reached from `id` by `n` parent steps, `none` when the walk ends earlier. -/
def ancestor {V : Type} (cm : ContextManager V) : Nat → String → Option String
  | 0, id => some id
  | n + 1, id =>
    match parentOf cm id with
    | none => none
    | some p => ancestor cm n p

/-- A call on the lock `cm.mu`. -/
inductive LockEvent
  | RLock
  | RUnlock
deriving DecidableEq

/-- The calls `GetInheritedContext(id)` makes on `cm.mu`, in order: `RLock` on entry,
the calls of the nested call for the parent, and the deferred `RUnlock` on return;
`none` when `fuel` nested calls do not suffice. -/
def GetInheritedContextLocks {V : Type} :
    Nat → ContextManager V → String → Option (List LockEvent)
  | 0, _, _ => none
  | fuel + 1, cm, id =>
    match cm.contexts.get? id with
    | none => some [LockEvent.RLock, LockEvent.RUnlock]
    | some ctx =>
      match ctx.ParentID with
      | none => some [LockEvent.RLock, LockEvent.RUnlock]
      | some parentID =>
        match GetInheritedContextLocks fuel cm parentID with
        | none => none
        | some inner => some ([LockEvent.RLock] ++ inner ++ [LockEvent.RUnlock])

/-- The largest number of read locks held at once along a list of lock calls,
starting with `held` locks held. -/
def maxHeld : List LockEvent → Nat → Nat
  | [], held => held
  | LockEvent.RLock :: t, held => max (held + 1) (maxHeld t (held + 1))
  | LockEvent.RUnlock :: t, held => maxHeld t (held - 1)

/-! ## The parameter helper of `pkg/firstresonance/helpers.go` -/

/-- What `requiredParam[T]` uses of its type parameter: the assertion `x.(T)` in its
two-result form, the zero value of `T`, and the text `%T` prints for it. -/
structure GoType (T : Type) where
  assert : Value → Option T
  zero : T
  name : String

/-- The type `string`. -/
def stringType : GoType String :=
  { assert := fun v =>
      match v with
      | Value.str s => some s
      | _ => none
    zero := ""
    name := "string" }

/-- Function `requiredParam[T]`; `arguments` is `r.Params.Arguments`. The value and
the error (`none` for nil) returned. -/
def requiredParam {T : Type} [DecidableEq T] (ty : GoType T)
    (arguments : Option (GoMap Value)) (p : String) : T × Option String :=
  match index? arguments p with
  | none => (ty.zero, some ("missing required parameter: " ++ p))
  | some x =>
    match ty.assert x with
    | none => (ty.zero, some ("parameter " ++ p ++ " is not of type " ++ ty.name))
    | some v =>
      if v = ty.zero then (ty.zero, some ("missing required parameter: " ++ p))
      else (v, none)

/-! ## More concrete handlers and requests -/

/-- A client whose calls all succeed. -/
def okClient : Client :=
  { PartsGet := fun id =>
      Except.ok (some { ID := id, Name := "", Description := "", Type_ := "", Status := "" })
    OrdersCreate := fun o => Except.ok (some { o with ID := "o-1" }) }

/-- A handler over `storePC` with the registered model `m1` and the client `okClient`. -/
def handlerOk : ModelHandler Int := RegisterModel (NewModelHandler storePC okClient) "m1"

/-- A `get_part` request of model `m1` without parameters, with the context `P`. -/
def reqGetPartBare : ModelRequest :=
  { ModelID := "m1", Action := "get_part", ContextID := "P", Params := none }

/-- A `create_order` request of model `m1` without parameters, with the context `P`. -/
def reqCreateBare : ModelRequest :=
  { ModelID := "m1", Action := "create_order", ContextID := "P", Params := none }

/-- A `create_order` request whose `customer_id` is the empty string. -/
def reqCreateEmptyCustomer : ModelRequest :=
  { ModelID := "m1", Action := "create_order", ContextID := ""
    Params := some (GoMap.ofList [("order", Value.object
      [("customer_id", Value.str ""), ("items", Value.array [Value.str "bolt"])])]) }

/-- A `create_order` request whose `items` is the empty list. -/
def reqCreateNoItems : ModelRequest :=
  { ModelID := "m1", Action := "create_order", ContextID := ""
    Params := some (GoMap.ofList [("order", Value.object
      [("customer_id", Value.str "acme"), ("items", Value.array [])])]) }

/-! ## Calls of `UpdateContext` in sequence -/

/-- A sequence of `UpdateContext(id, data, nil)` calls, one after the other, each with
its clock reading and its non-nil `data`. -/
def UpdateAll {V : Type} (cm : ContextManager V) (id : String) :
    List (Time × GoMap V) → ContextManager V
  | [] => cm
  | u :: us => UpdateAll (UpdateContext cm u.1 id (some u.2) none).2 id us

/-! ## The invariant of the parent links -/

/-- Every `ParentID` in the table names a context of the table that lists the id of
the child, and every context is stored under its own `ID`. -/
def parentsBacked {V : Type} (cm : ContextManager V) : Prop :=
  (∀ id c p, cm.contexts.get? id = some c → c.ParentID = some p →
    ∃ pc, cm.contexts.get? p = some pc ∧ id ∈ pc.ChildrenIDs) ∧
  ∀ id c, cm.contexts.get? id = some c → c.ID = id

/-! ## Facts about Go maps -/

theorem lookupL_eq_none_iff {β : Type} (k : String) :
    ∀ l : List (String × β), lookupL k l = none ↔ k ∉ keysL l
  | [] => by simp [lookupL, keysL]
  | (k', v') :: t => by
    have ih := lookupL_eq_none_iff k t
    simp only [keysL] at ih
    by_cases hk : k' = k
    · simp [lookupL, keysL, hk]
    · have hk2 : ¬ k = k' := fun e => hk e.symm
      simp [lookupL, keysL, hk, hk2, ih]

theorem lookupL_setL_self {β : Type} (k : String) (v : β) :
    ∀ l : List (String × β), lookupL k (setL k v l) = some v
  | [] => by simp [setL, lookupL]
  | (k', v') :: t => by
    by_cases hk : k' = k
    · simp [setL, lookupL, hk]
    · simp [setL, lookupL, hk, lookupL_setL_self k v t]

theorem lookupL_setL_ne {β : Type} (k k2 : String) (v : β) (h : k2 ≠ k) :
    ∀ l : List (String × β), lookupL k2 (setL k v l) = lookupL k2 l
  | [] => by
    have h2 : ¬ k = k2 := fun e => h e.symm
    simp [setL, lookupL, h2]
  | (k', v') :: t => by
    by_cases hk : k' = k
    · have h2 : ¬ k = k2 := fun e => h e.symm
      have h3 : ¬ k' = k2 := fun e => h (e.symm.trans hk)
      simp [setL, lookupL, hk, h2]
    · by_cases hk2 : k' = k2
      · subst hk2
        simp [setL, lookupL, hk]
      · simp [setL, lookupL, hk, hk2, lookupL_setL_ne k k2 v h t]

theorem length_setL_of_mem {β : Type} (k : String) (v : β) (l : List (String × β))
    (h : k ∈ keysL l) : (setL k v l).length = l.length := by
  have e := congrArg List.length (keysL_setL_of_mem k v l h)
  simpa [keysL] using e

namespace GoMap

theorem get?_empty {β : Type} (k : String) : (empty : GoMap β).get? k = none := rfl

theorem get?_eq_none_iff {β : Type} (m : GoMap β) (k : String) :
    m.get? k = none ↔ k ∉ m.keys :=
  lookupL_eq_none_iff k m.entries

theorem mem_keys_of_get? {β : Type} (m : GoMap β) (k : String) (v : β)
    (h : m.get? k = some v) : k ∈ m.keys := by
  by_contra hk
  rw [(get?_eq_none_iff m k).mpr hk] at h
  exact Option.noConfusion h

theorem get?_set_self {β : Type} (m : GoMap β) (k : String) (v : β) :
    (m.set k v).get? k = some v :=
  lookupL_setL_self k v m.entries

theorem get?_set_ne {β : Type} (m : GoMap β) (k k2 : String) (v : β) (h : k2 ≠ k) :
    (m.set k v).get? k2 = m.get? k2 :=
  lookupL_setL_ne k k2 v h m.entries

theorem keys_set_of_mem {β : Type} (m : GoMap β) (k : String) (v : β) (h : k ∈ m.keys) :
    (m.set k v).keys = m.keys :=
  keysL_setL_of_mem k v m.entries h

theorem len_set_of_mem {β : Type} (m : GoMap β) (k : String) (v : β) (h : k ∈ m.keys) :
    (m.set k v).len = m.len :=
  length_setL_of_mem k v m.entries h

theorem set_get?_self {β : Type} (m : GoMap β) (k : String) (v : β)
    (h : m.get? k = some v) : m.set k v = m := by
  cases m with
  | mk es nd =>
    have key : ∀ l : List (String × β), lookupL k l = some v → setL k v l = l := by
      intro l
      induction l with
      | nil => intro h; simp [lookupL] at h
      | cons a t ih =>
        obtain ⟨k', v'⟩ := a
        intro h
        by_cases hk : k' = k
        · simp only [lookupL, hk, if_true, Option.some.injEq] at h
          simp [setL, hk, h]
        · simp only [lookupL, hk, if_false] at h
          simp [setL, hk, ih h]
    simp only [set, GoMap.mk.injEq]
    exact key es h

end GoMap

/-! ## The two copy loops of `GetInheritedContext` -/

theorem get?_copyAll {V : Type} (k : String) :
    ∀ (src : List (String × V)) (result : GoMap V), (keysL src).Nodup →
      (copyAll src result).get? k = (lookupL k src).or (result.get? k)
  | [], result, _ => by simp [copyAll, lookupL]
  | (k', v') :: t, result, h => by
    have hn : k' ∉ keysL t ∧ (keysL t).Nodup := by
      simpa [keysL] using h
    have ih := get?_copyAll k t (result.set k' v') hn.2
    simp only [copyAll] at ih
    simp only [copyAll, List.foldl_cons, ih]
    by_cases hk : k' = k
    · subst hk
      rw [(lookupL_eq_none_iff k' t).mpr hn.1]
      simp [lookupL, GoMap.get?_set_self]
    · have hk2 : k ≠ k' := fun e => hk e.symm
      simp [lookupL, hk, GoMap.get?_set_ne _ _ _ _ hk2]

theorem get?_copyMissing {V : Type} (k : String) :
    ∀ (src : List (String × V)) (result : GoMap V),
      (copyMissing src result).get? k = (result.get? k).or (lookupL k src)
  | [], result => by simp [copyMissing, lookupL]
  | (k', v') :: t, result => by
    simp only [copyMissing, List.foldl_cons]
    cases hr : result.get? k' with
    | some w =>
      have ih := get?_copyMissing k t result
      simp only [copyMissing] at ih
      simp only [ih]
      by_cases hk : k' = k
      · subst hk
        simp [hr]
      · simp [lookupL, hk]
    | none =>
      have ih := get?_copyMissing k t (result.set k' v')
      simp only [copyMissing] at ih
      simp only [ih]
      by_cases hk : k' = k
      · subst hk
        simp [lookupL, hr, GoMap.get?_set_self]
      · have hk2 : k ≠ k' := fun e => hk e.symm
        simp [lookupL, hk, GoMap.get?_set_ne _ _ _ _ hk2]

theorem get?_copyAll_rangeOf {V : Type} (d : Option (GoMap V)) (k : String) :
    (copyAll (rangeOf d) GoMap.empty).get? k = index? d k := by
  cases d with
  | none => simp [rangeOf, copyAll, index?, GoMap.get?_empty]
  | some m =>
    rw [rangeOf, get?_copyAll k m.entries GoMap.empty m.nodup]
    simp [index?, GoMap.get?, GoMap.empty, lookupL]

/-- What `GetInheritedContext` computes along a finite parent chain: the call returns
with at most one nested call per context of the chain, leaves the store as it was,
and reads every key from the first context of the chain that holds it. -/
theorem GetInheritedContext_chain {V : Type} (cm : ContextManager V) (id : String)
    (cs : List (Context V)) (h : ParentChain cm id cs) :
    ∃ r : GoMap V,
      (∀ fuel, cs.length < fuel → GetInheritedContext fuel cm id = some (r, cm)) ∧
      ∀ k, r.get? k = cs.findSome? (fun c => index? c.Data k) := by
  induction h with
  | absent id hid =>
    refine ⟨GoMap.empty, ?_, fun k => by simp [GoMap.get?_empty]⟩
    intro fuel hf
    obtain ⟨n, rfl⟩ : ∃ n, fuel = n + 1 := ⟨fuel - 1, by omega⟩
    simp [GetInheritedContext, hid]
  | root id c hid hp =>
    refine ⟨copyAll (rangeOf c.Data) GoMap.empty, ?_, ?_⟩
    · intro fuel hf
      obtain ⟨n, rfl⟩ : ∃ n, fuel = n + 1 := ⟨fuel - 1, by omega⟩
      simp [GetInheritedContext, hid, hp]
    · intro k
      rw [get?_copyAll_rangeOf]
      cases hc : index? c.Data k <;> simp [List.findSome?_cons, hc]
  | step id parentID c cs hid hp _ ih =>
    obtain ⟨rp, hrun, hget⟩ := ih
    refine ⟨copyMissing rp.entries (copyAll (rangeOf c.Data) GoMap.empty), ?_, ?_⟩
    · intro fuel hf
      obtain ⟨n, rfl⟩ : ∃ n, fuel = n + 1 := ⟨fuel - 1, by simp at hf; omega⟩
      have hn : cs.length < n := by simp at hf; omega
      simp [GetInheritedContext, hid, hp, hrun n hn]
    · intro k
      rw [get?_copyMissing, get?_copyAll_rangeOf]
      have e : lookupL k rp.entries = cs.findSome? (fun c => index? c.Data k) := hget k
      rw [e]
      cases hc : index? c.Data k <;> simp [List.findSome?_cons, hc]

/-! ## Writes through a stored pointer -/

theorem assign_get?_self {V : Type} (cm : ContextManager V) (id : String)
    (f : Context V → Context V) (c : Context V) (h : cm.contexts.get? id = some c) :
    (cm.assign id f).contexts.get? id = some (f c) := by
  simp [ContextManager.assign, h, GoMap.get?_set_self]

theorem assign_get?_ne {V : Type} (cm : ContextManager V) (id id2 : String)
    (f : Context V → Context V) (h : id2 ≠ id) :
    (cm.assign id f).contexts.get? id2 = cm.contexts.get? id2 := by
  unfold ContextManager.assign
  cases cm.contexts.get? id with
  | none => rfl
  | some c => exact GoMap.get?_set_ne _ _ _ _ h

theorem assign_keys {V : Type} (cm : ContextManager V) (id : String)
    (f : Context V → Context V) :
    (cm.assign id f).contexts.keys = cm.contexts.keys := by
  unfold ContextManager.assign
  cases h : cm.contexts.get? id with
  | none => rfl
  | some c => exact GoMap.keys_set_of_mem _ _ _ (GoMap.mem_keys_of_get? _ _ _ h)

theorem SetParentContext_of_get? {V : Type} (cm : ContextManager V)
    (childID parentID : String) (c p : Context V)
    (hc : cm.contexts.get? childID = some c) (hp : cm.contexts.get? parentID = some p) :
    SetParentContext cm childID parentID =
      (true, (cm.assign childID (fun c => { c with ParentID := some parentID })).assign
        parentID (fun p => { p with ChildrenIDs := p.ChildrenIDs ++ [childID] })) := by
  simp [SetParentContext, hc, hp]

/-- The context written by `UpdateContext` over the stored context `c`. -/
theorem UpdateContext_of_get? {V : Type} (cm : ContextManager V) (now : Time)
    (id : String) (data : Option (GoMap V)) (metadata : Option (GoMap String))
    (c : Context V) (h : cm.contexts.get? id = some c) :
    UpdateContext cm now id data metadata =
      (some { c with
          Data := (match data with | some d => some d | none => c.Data)
          Metadata := (match metadata with | some m => some m | none => c.Metadata)
          UpdatedAt := now },
        ⟨cm.contexts.set id { c with
          Data := (match data with | some d => some d | none => c.Data)
          Metadata := (match metadata with | some m => some m | none => c.Metadata)
          UpdatedAt := now }⟩) := by
  unfold UpdateContext
  rw [h]
  cases data <;> cases metadata <;> rfl

/-! ## Theorems -/

/-- C1: for every store and every id whose parent chain `cs` (id first, then its
parent, and so on) is finite, `GetInheritedContext` returns a map `r` (with any
recursion bound above the chain length, leaving the store alone) such that for every
key `k`: `r` contains `k` iff some context of the chain has `k` in its data, and
`r` maps `k` to `v` iff the nearest context of the chain holding `k`, starting with
`id` itself, holds `v` under `k`. -/
theorem GetInheritedContext_nearest {V : Type} (cm : ContextManager V) (id : String)
    (cs : List (Context V)) (h : ParentChain cm id cs) :
    ∃ r : GoMap V,
      (∀ fuel, cs.length < fuel → GetInheritedContext fuel cm id = some (r, cm)) ∧
      ∀ k,
        ((∃ v, r.get? k = some v) ↔ ∃ c ∈ cs, ∃ v, index? c.Data k = some v) ∧
        ∀ v, r.get? k = some v ↔
          ∃ nearer c farther, cs = nearer ++ c :: farther ∧
            (∀ d ∈ nearer, index? d.Data k = none) ∧ index? c.Data k = some v := by
  obtain ⟨r, hrun, hget⟩ := GetInheritedContext_chain cm id cs h
  refine ⟨r, hrun, fun k => ⟨?_, ?_⟩⟩
  · rw [hget k]
    constructor
    · rintro ⟨v, hv⟩
      obtain ⟨l₁, c, l₂, hl, hc, -⟩ := List.findSome?_eq_some_iff.mp hv
      exact ⟨c, by simp [hl], v, hc⟩
    · rintro ⟨c, hc, v, hv⟩
      cases hf : cs.findSome? (fun c => index? c.Data k) with
      | some w => exact ⟨w, rfl⟩
      | none =>
        have := List.findSome?_eq_none_iff.mp hf c hc
        simp [hv] at this
  · intro v
    rw [hget k, List.findSome?_eq_some_iff]
    constructor
    · rintro ⟨l₁, c, l₂, hl, hc, hn⟩
      exact ⟨l₁, c, l₂, hl, hn, hc⟩
    · rintro ⟨l₁, c, l₂, hl, hn, hc⟩
      exact ⟨l₁, c, l₂, hl, hc, hn⟩

/-- C2: for every store and every id without a stored context, a single call of
`GetInheritedContext` (any positive recursion bound) returns the empty map, and the
store after the call is the store before it. -/
theorem GetInheritedContext_absent {V : Type} (cm : ContextManager V) (id : String)
    (h : cm.contexts.get? id = none) :
    ∀ fuel, GetInheritedContext (fuel + 1) cm id = some (GoMap.empty, cm) := by
  intro fuel
  simp [GetInheritedContext, h]

/-- C3: when the child id or the parent id is not in the table, `SetParentContext`
returns false and the store after the call equals the store before it, so no field
of any context, the existing endpoint included, is modified. -/
theorem SetParentContext_missing {V : Type} (cm : ContextManager V)
    (childID parentID : String)
    (h : cm.contexts.get? childID = none ∨ cm.contexts.get? parentID = none) :
    SetParentContext cm childID parentID = (false, cm) := by
  unfold SetParentContext
  rcases h with h | h
  · rw [h]
  · rw [h]
    cases cm.contexts.get? childID <;> rfl

/-- C4: when both ids are in the table (holding `c` and `p`), `SetParentContext`
returns true; afterwards the child's `ParentID` is `parentID` and the parent's
`ChildrenIDs` is its previous list with `childID` appended at the end; the fields
ID, Data, Metadata, Source, CreatedAt, UpdatedAt and ExpiresAt of both endpoints are
unchanged, as are the child's `ChildrenIDs` and the parent's `ParentID` when the two
ids differ; every context at another id is unchanged and the table has the same
keys. -/
theorem SetParentContext_links {V : Type} (cm : ContextManager V)
    (childID parentID : String) (c p : Context V)
    (hc : cm.contexts.get? childID = some c) (hp : cm.contexts.get? parentID = some p) :
    (SetParentContext cm childID parentID).1 = true ∧
    ∃ c' p',
      (SetParentContext cm childID parentID).2.contexts.get? childID = some c' ∧
      (SetParentContext cm childID parentID).2.contexts.get? parentID = some p' ∧
      c'.ParentID = some parentID ∧
      p'.ChildrenIDs = p.ChildrenIDs ++ [childID] ∧
      (c'.ID = c.ID ∧ c'.Data = c.Data ∧ c'.Metadata = c.Metadata ∧ c'.Source = c.Source ∧
        c'.CreatedAt = c.CreatedAt ∧ c'.UpdatedAt = c.UpdatedAt ∧
        c'.ExpiresAt = c.ExpiresAt) ∧
      (p'.ID = p.ID ∧ p'.Data = p.Data ∧ p'.Metadata = p.Metadata ∧ p'.Source = p.Source ∧
        p'.CreatedAt = p.CreatedAt ∧ p'.UpdatedAt = p.UpdatedAt ∧
        p'.ExpiresAt = p.ExpiresAt) ∧
      (childID ≠ parentID → c'.ChildrenIDs = c.ChildrenIDs ∧ p'.ParentID = p.ParentID) ∧
      (∀ id, id ≠ childID → id ≠ parentID →
        (SetParentContext cm childID parentID).2.contexts.get? id = cm.contexts.get? id) ∧
      (SetParentContext cm childID parentID).2.contexts.keys = cm.contexts.keys := by
  rw [SetParentContext_of_get? cm childID parentID c p hc hp]
  refine ⟨rfl, ?_⟩
  have h1 := assign_get?_self cm childID (fun c => { c with ParentID := some parentID }) c hc
  have hother : ∀ id, id ≠ childID → id ≠ parentID →
      ((cm.assign childID (fun c => { c with ParentID := some parentID })).assign
        parentID (fun p => { p with ChildrenIDs := p.ChildrenIDs ++ [childID] })).contexts.get? id
        = cm.contexts.get? id := by
    intro id h1 h2
    rw [assign_get?_ne _ _ _ _ h2, assign_get?_ne _ _ _ _ h1]
  have hkeys : ((cm.assign childID (fun c => { c with ParentID := some parentID })).assign
        parentID (fun p => { p with ChildrenIDs := p.ChildrenIDs ++ [childID] })).contexts.keys
        = cm.contexts.keys := by
    rw [assign_keys, assign_keys]
  by_cases he : childID = parentID
  · subst he
    have hcp : c = p := Option.some.inj (hc.symm.trans hp)
    subst hcp
    have h2 := assign_get?_self _ childID
      (fun p => { p with ChildrenIDs := p.ChildrenIDs ++ [childID] }) _ h1
    exact ⟨_, _, h2, h2, rfl, rfl, ⟨rfl, rfl, rfl, rfl, rfl, rfl, rfl⟩,
      ⟨rfl, rfl, rfl, rfl, rfl, rfl, rfl⟩, fun hne => absurd rfl hne, hother, hkeys⟩
  · have hpc : parentID ≠ childID := fun e => he e.symm
    have h1p : (cm.assign childID (fun c => { c with ParentID := some parentID })).contexts.get?
        parentID = some p := by
      rw [assign_get?_ne _ _ _ _ hpc]; exact hp
    have h2 := assign_get?_self _ parentID
      (fun p => { p with ChildrenIDs := p.ChildrenIDs ++ [childID] }) _ h1p
    have h3 : ((cm.assign childID (fun c => { c with ParentID := some parentID })).assign
        parentID (fun p => { p with ChildrenIDs := p.ChildrenIDs ++ [childID] })).contexts.get?
        childID = some { c with ParentID := some parentID } := by
      rw [assign_get?_ne _ _ _ _ he]; exact h1
    exact ⟨_, _, h3, h2, rfl, rfl, ⟨rfl, rfl, rfl, rfl, rfl, rfl, rfl⟩,
      ⟨rfl, rfl, rfl, rfl, rfl, rfl, rfl⟩, fun _ => ⟨rfl, rfl⟩, hother, hkeys⟩

/-- C5: immediately after `CreateContext` with id `X`, `GetContext X` reports found
and returns the context that was created: its ID is `X`, its CreatedAt equals its
UpdatedAt, and its Data, Metadata and Source are the supplied ones. -/
theorem CreateContext_then_GetContext {V : Type} (cm : ContextManager V) (now : Time)
    (X : String) (data : Option (GoMap V)) (metadata : Option (GoMap String))
    (source : String) :
    ∃ c, (GetContext (CreateContext cm now X data metadata source).2 X).1 = some c ∧
      c = (CreateContext cm now X data metadata source).1 ∧
      c.ID = X ∧ c.CreatedAt = c.UpdatedAt ∧
      c.Data = data ∧ c.Metadata = metadata ∧ c.Source = source :=
  ⟨_, GoMap.get?_set_self _ _ _, rfl, rfl, rfl, rfl, rfl, rfl⟩

/-- C6: `CreateContext` returns a context for every input, and over a store that
already holds a context at `X` it overwrites: afterwards the table holds exactly one
entry at `X`, the returned one, carrying the supplied data, metadata and source
with no parent and no children whatever the prior entry held; the number of entries
is unchanged and every entry at another id is unchanged. -/
theorem CreateContext_overwrites {V : Type} (cm : ContextManager V) (now : Time)
    (X : String) (d : Option (GoMap V)) (m : Option (GoMap String)) (s : String)
    (old : Context V) (h : cm.contexts.get? X = some old) :
    (CreateContext cm now X d m s).1 =
      { ID := X, Data := d, Metadata := m, CreatedAt := now, UpdatedAt := now,
        ExpiresAt := none, ParentID := none, ChildrenIDs := [], Source := s } ∧
    (CreateContext cm now X d m s).2.contexts.get? X = some (CreateContext cm now X d m s).1 ∧
    (CreateContext cm now X d m s).2.contexts.keys.count X = 1 ∧
    (CreateContext cm now X d m s).2.contexts.len = cm.contexts.len ∧
    ∀ Y, Y ≠ X →
      (CreateContext cm now X d m s).2.contexts.get? Y = cm.contexts.get? Y := by
  have hmem := GoMap.mem_keys_of_get? _ _ _ h
  refine ⟨rfl, GoMap.get?_set_self _ _ _, ?_, GoMap.len_set_of_mem _ _ _ hmem,
    fun Y hY => GoMap.get?_set_ne _ _ _ _ hY⟩
  have hk : (CreateContext cm now X d m s).2.contexts.keys = cm.contexts.keys :=
    GoMap.keys_set_of_mem _ _ _ hmem
  rw [hk]
  exact List.count_eq_one_of_mem cm.contexts.nodup hmem

/-- C7, as amended: on an existing id `UpdateContext` reports found and sets
UpdatedAt to the clock reading of the call whatever data and metadata are supplied
(nil included); with nil metadata the stored metadata is unchanged; the new UpdatedAt
is strictly later than the previous one exactly when the clock reading is. -/
theorem UpdateContext_sets_UpdatedAt {V : Type} (cm : ContextManager V) (now : Time)
    (X : String) (data : Option (GoMap V)) (metadata : Option (GoMap String))
    (c : Context V) (h : cm.contexts.get? X = some c) :
    ∃ c', (UpdateContext cm now X data metadata).1 = some c' ∧
      (UpdateContext cm now X data metadata).2.contexts.get? X = some c' ∧
      c'.UpdatedAt = now ∧
      (metadata = none → c'.Metadata = c.Metadata) ∧
      (c.UpdatedAt < c'.UpdatedAt ↔ c.UpdatedAt < now) := by
  rw [UpdateContext_of_get? cm now X data metadata c h]
  refine ⟨_, rfl, GoMap.get?_set_self _ _ _, rfl, ?_, Iff.rfl⟩
  rintro rfl
  rfl

/-- C8: for an id that is not in the table `UpdateContext` returns not found and the
store after the call equals the store before it; no entry appears at that id. -/
theorem UpdateContext_absent {V : Type} (cm : ContextManager V) (now : Time)
    (X : String) (data : Option (GoMap V)) (metadata : Option (GoMap String))
    (h : cm.contexts.get? X = none) :
    UpdateContext cm now X data metadata = (none, cm) ∧
    (UpdateContext cm now X data metadata).2.contexts.get? X = none := by
  have e : UpdateContext cm now X data metadata = (none, cm) := by
    simp [UpdateContext, h]
  rw [e]
  exact ⟨rfl, h⟩

/-- C9: on an existing id `UpdateContext` replaces and never merges: a supplied
(non-nil) data map becomes the stored data exactly, so a key missing from it is
missing afterwards; likewise a supplied metadata map; a nil argument leaves its own
field as it was, whatever the other argument is. -/
theorem UpdateContext_replaces_wholesale {V : Type} (cm : ContextManager V) (now : Time)
    (X : String) (data : Option (GoMap V)) (metadata : Option (GoMap String))
    (c : Context V) (h : cm.contexts.get? X = some c) :
    ∃ c', (UpdateContext cm now X data metadata).1 = some c' ∧
      (UpdateContext cm now X data metadata).2.contexts.get? X = some c' ∧
      (∀ d, data = some d →
        c'.Data = some d ∧ ∀ k, d.get? k = none → index? c'.Data k = none) ∧
      (data = none → c'.Data = c.Data) ∧
      (∀ m, metadata = some m →
        c'.Metadata = some m ∧ ∀ k, m.get? k = none → index? c'.Metadata k = none) ∧
      (metadata = none → c'.Metadata = c.Metadata) := by
  rw [UpdateContext_of_get? cm now X data metadata c h]
  refine ⟨_, rfl, GoMap.get?_set_self _ _ _, ?_, ?_, ?_, ?_⟩
  · rintro d rfl
    exact ⟨rfl, fun k hk => hk⟩
  · rintro rfl
    rfl
  · rintro m rfl
    exact ⟨rfl, fun k hk => hk⟩
  · rintro rfl
    rfl

/-- C10, as amended: on an existing id `UpdateContext` replaces the stored data with
the supplied map if and only if the supplied map is not nil: an empty map that is
not nil replaces the stored data with the empty map, and only nil leaves the stored
data as it was. -/
theorem UpdateContext_data_iff_not_nil {V : Type} (cm : ContextManager V) (now : Time)
    (X : String) (data : Option (GoMap V)) (metadata : Option (GoMap String))
    (c : Context V) (h : cm.contexts.get? X = some c) :
    ∃ c', (UpdateContext cm now X data metadata).2.contexts.get? X = some c' ∧
      (data ≠ none → c'.Data = data) ∧
      (data = some GoMap.empty → c'.Data = some GoMap.empty) ∧
      (data = none → c'.Data = c.Data) := by
  rw [UpdateContext_of_get? cm now X data metadata c h]
  refine ⟨_, GoMap.get?_set_self _ _ _, ?_, ?_, ?_⟩
  · intro hd
    cases data with
    | none => exact absurd rfl hd
    | some d => rfl
  · rintro rfl
    rfl
  · rintro rfl
    rfl

/-! ## The theorems at concrete stores -/

theorem storeTwo_get?_P : storeTwo.contexts.get? "P" = some ctxP0 := by decide

theorem storeTwo_get?_C : storeTwo.contexts.get? "C" = some ctxC0 := by decide

theorem storePC_get?_P : storePC.contexts.get? "P" = some ctxP := by decide

theorem storePC_get?_C : storePC.contexts.get? "C" = some ctxC := by decide

theorem storePC_get?_Z : storePC.contexts.get? "Z" = none := by decide

/-- Inheritance shadowing: with parent `P` `{a:1, b:2}` and child `C` `{b:9}` the
inherited context of `C` is `{a:1, b:9}`, key by key. -/
theorem GetInheritedContext_shadowing :
    ∃ r : GoMap Int, GetInheritedContext 2 storePC "C" = some (r, storePC) ∧
      ∀ k, r.get? k = (GoMap.ofList [("a", 1), ("b", 9)]).get? k := by
  refine ⟨⟨[("b", 9), ("a", 1)], by decide⟩, by decide, ?_⟩
  intro k
  simp only [GoMap.get?, GoMap.ofList, GoMap.set, GoMap.empty, List.foldl, setL, lookupL]
  by_cases ha : "a" = k
  · subst ha; decide
  · by_cases hb : "b" = k
    · subst hb; decide
    · simp [ha, hb, lookupL]

/-- Three-level inheritance: `G` `{x:1}`, `P` `{y:2}`, `C` `{z:3}` in a chain give
`{x:1, y:2, z:3}` for `C`, key by key. -/
theorem GetInheritedContext_three_levels :
    ∃ r : GoMap Int, GetInheritedContext 3 storeGPC "C" = some (r, storeGPC) ∧
      ∀ k, r.get? k = (GoMap.ofList [("x", 1), ("y", 2), ("z", 3)]).get? k := by
  refine ⟨⟨[("z", 3), ("y", 2), ("x", 1)], by decide⟩, by decide, ?_⟩
  intro k
  simp only [GoMap.get?, GoMap.ofList, GoMap.set, GoMap.empty, List.foldl, setL, lookupL]
  by_cases hx : "x" = k
  · subst hx; decide
  · by_cases hy : "y" = k
    · subst hy; decide
    · by_cases hz : "z" = k
      · subst hz; decide
      · simp [hx, hy, hz, lookupL]

/-- C1 at the store `storePC` and the id `C`, whose chain is `C`, `P`. -/
theorem GetInheritedContext_nearest_witness :
    ParentChain storePC "C" [ctxC, ctxP] ∧
    ∃ r : GoMap Int,
      (∀ fuel, [ctxC, ctxP].length < fuel →
        GetInheritedContext fuel storePC "C" = some (r, storePC)) ∧
      ∀ k,
        ((∃ v, r.get? k = some v) ↔ ∃ c ∈ [ctxC, ctxP], ∃ v, index? c.Data k = some v) ∧
        ∀ v, r.get? k = some v ↔
          ∃ nearer c farther, [ctxC, ctxP] = nearer ++ c :: farther ∧
            (∀ d ∈ nearer, index? d.Data k = none) ∧ index? c.Data k = some v :=
  have h : ParentChain storePC "C" [ctxC, ctxP] :=
    ParentChain.step "C" "P" ctxC [ctxP] storePC_get?_C rfl
      (ParentChain.root "P" ctxP storePC_get?_P rfl)
  ⟨h, GetInheritedContext_nearest storePC "C" [ctxC, ctxP] h⟩

/-- C2 at the store `storePC` and the id `Z`, which it does not hold. -/
theorem GetInheritedContext_absent_witness :
    storePC.contexts.get? "Z" = none ∧
    ∀ fuel, GetInheritedContext (fuel + 1) storePC "Z" = some (GoMap.empty, storePC) :=
  ⟨storePC_get?_Z, GetInheritedContext_absent storePC "Z" storePC_get?_Z⟩

/-- C3 at the store `storePC` with the existing child `C` and the missing parent `Z`. -/
theorem SetParentContext_missing_witness :
    (storePC.contexts.get? "C" = none ∨ storePC.contexts.get? "Z" = none) ∧
    SetParentContext storePC "C" "Z" = (false, storePC) :=
  ⟨Or.inr storePC_get?_Z, SetParentContext_missing storePC "C" "Z" (Or.inr storePC_get?_Z)⟩

/-- C4 at the store `storeTwo` with child `C` and parent `P`. -/
theorem SetParentContext_links_witness :
    (storeTwo.contexts.get? "C" = some ctxC0 ∧ storeTwo.contexts.get? "P" = some ctxP0) ∧
    (SetParentContext storeTwo "C" "P").1 = true ∧
    ∃ c' p',
      (SetParentContext storeTwo "C" "P").2.contexts.get? "C" = some c' ∧
      (SetParentContext storeTwo "C" "P").2.contexts.get? "P" = some p' ∧
      c'.ParentID = some "P" ∧
      p'.ChildrenIDs = ctxP0.ChildrenIDs ++ ["C"] ∧
      (c'.ID = ctxC0.ID ∧ c'.Data = ctxC0.Data ∧ c'.Metadata = ctxC0.Metadata ∧
        c'.Source = ctxC0.Source ∧ c'.CreatedAt = ctxC0.CreatedAt ∧
        c'.UpdatedAt = ctxC0.UpdatedAt ∧ c'.ExpiresAt = ctxC0.ExpiresAt) ∧
      (p'.ID = ctxP0.ID ∧ p'.Data = ctxP0.Data ∧ p'.Metadata = ctxP0.Metadata ∧
        p'.Source = ctxP0.Source ∧ p'.CreatedAt = ctxP0.CreatedAt ∧
        p'.UpdatedAt = ctxP0.UpdatedAt ∧ p'.ExpiresAt = ctxP0.ExpiresAt) ∧
      ("C" ≠ "P" → c'.ChildrenIDs = ctxC0.ChildrenIDs ∧ p'.ParentID = ctxP0.ParentID) ∧
      (∀ id, id ≠ "C" → id ≠ "P" →
        (SetParentContext storeTwo "C" "P").2.contexts.get? id = storeTwo.contexts.get? id) ∧
      (SetParentContext storeTwo "C" "P").2.contexts.keys = storeTwo.contexts.keys :=
  ⟨⟨storeTwo_get?_C, storeTwo_get?_P⟩,
    SetParentContext_links storeTwo "C" "P" ctxC0 ctxP0 storeTwo_get?_C storeTwo_get?_P⟩

/-- C6 at the store `storePC`, creating again at `P`, which has the child `C`. -/
theorem CreateContext_overwrites_witness :
    storePC.contexts.get? "P" = some ctxP ∧
    (CreateContext storePC 20 "P" (some (GoMap.ofList [("q", 7)])) none "other").1 =
      { ID := "P", Data := some (GoMap.ofList [("q", 7)]), Metadata := none,
        CreatedAt := 20, UpdatedAt := 20, ExpiresAt := none, ParentID := none,
        ChildrenIDs := [], Source := "other" } ∧
    (CreateContext storePC 20 "P" (some (GoMap.ofList [("q", 7)])) none
        "other").2.contexts.get? "P" =
      some (CreateContext storePC 20 "P" (some (GoMap.ofList [("q", 7)])) none "other").1 ∧
    (CreateContext storePC 20 "P" (some (GoMap.ofList [("q", 7)])) none
        "other").2.contexts.keys.count "P" = 1 ∧
    (CreateContext storePC 20 "P" (some (GoMap.ofList [("q", 7)])) none
        "other").2.contexts.len = storePC.contexts.len ∧
    ∀ Y, Y ≠ "P" →
      (CreateContext storePC 20 "P" (some (GoMap.ofList [("q", 7)])) none
        "other").2.contexts.get? Y = storePC.contexts.get? Y :=
  ⟨storePC_get?_P,
    CreateContext_overwrites storePC 20 "P" (some (GoMap.ofList [("q", 7)])) none "other"
      ctxP storePC_get?_P⟩

/-- C7, as stated, fails at `storePC`: `P` was last updated at time 10, and an update
made while the clock still reads 10 leaves UpdatedAt at 10, not strictly later. -/
theorem UpdateContext_UpdatedAt_not_later :
    storePC.contexts.get? "P" = some ctxP ∧
    (UpdateContext storePC 10 "P" (some (GoMap.ofList [("q", 7)])) none).1 =
      some { ctxP with Data := some (GoMap.ofList [("q", 7)]) } ∧
    ¬ (ctxP.UpdatedAt <
        ({ ctxP with Data := some (GoMap.ofList [("q", 7)]) } : Context Int).UpdatedAt) :=
  ⟨storePC_get?_P, by decide, by decide⟩

/-- C7, as amended, at `storePC`: an update of `P` at time 20 with nil metadata. -/
theorem UpdateContext_sets_UpdatedAt_witness :
    storePC.contexts.get? "P" = some ctxP ∧
    ∃ c', (UpdateContext storePC 20 "P" (some (GoMap.ofList [("q", 7)])) none).1 = some c' ∧
      (UpdateContext storePC 20 "P" (some (GoMap.ofList [("q", 7)])) none).2.contexts.get? "P"
        = some c' ∧
      c'.UpdatedAt = 20 ∧
      ((none : Option (GoMap String)) = none → c'.Metadata = ctxP.Metadata) ∧
      (ctxP.UpdatedAt < c'.UpdatedAt ↔ ctxP.UpdatedAt < 20) :=
  ⟨storePC_get?_P,
    UpdateContext_sets_UpdatedAt storePC 20 "P" (some (GoMap.ofList [("q", 7)])) none ctxP
      storePC_get?_P⟩

/-- C8 at the store `storePC` and the id `Z`, which it does not hold. -/
theorem UpdateContext_absent_witness :
    storePC.contexts.get? "Z" = none ∧
    UpdateContext storePC 20 "Z" (some (GoMap.ofList [("q", 7)])) none = (none, storePC) ∧
    (UpdateContext storePC 20 "Z" (some (GoMap.ofList [("q", 7)])) none).2.contexts.get? "Z"
      = none :=
  ⟨storePC_get?_Z,
    UpdateContext_absent storePC 20 "Z" (some (GoMap.ofList [("q", 7)])) none storePC_get?_Z⟩

/-- C9 at `storePC`: an update of `P` with data `{q:7}` and nil metadata. -/
theorem UpdateContext_replaces_wholesale_witness :
    storePC.contexts.get? "P" = some ctxP ∧
    ∃ c', (UpdateContext storePC 20 "P" (some (GoMap.ofList [("q", 7)])) none).1 = some c' ∧
      (UpdateContext storePC 20 "P" (some (GoMap.ofList [("q", 7)])) none).2.contexts.get? "P"
        = some c' ∧
      (∀ d, some (GoMap.ofList [("q", 7)]) = some d →
        c'.Data = some d ∧ ∀ k, d.get? k = none → index? c'.Data k = none) ∧
      (some (GoMap.ofList [("q", (7 : Int))]) = none → c'.Data = ctxP.Data) ∧
      (∀ m, (none : Option (GoMap String)) = some m →
        c'.Metadata = some m ∧ ∀ k, m.get? k = none → index? c'.Metadata k = none) ∧
      ((none : Option (GoMap String)) = none → c'.Metadata = ctxP.Metadata) :=
  ⟨storePC_get?_P,
    UpdateContext_replaces_wholesale storePC 20 "P" (some (GoMap.ofList [("q", 7)])) none
      ctxP storePC_get?_P⟩

/-- C10, as stated, fails at `storePC`: `P` holds `{a:1, b:2}`, and an update that
supplies the empty map (not nil) leaves `P` with the empty map, not with its
previous data. -/
theorem UpdateContext_empty_data_replaces :
    storePC.contexts.get? "P" = some ctxP ∧
    ctxP.Data = some (GoMap.ofList [("a", 1), ("b", 2)]) ∧
    (UpdateContext storePC 20 "P" (some GoMap.empty) none).2.contexts.get? "P" =
      some { ctxP with Data := some GoMap.empty, UpdatedAt := 20 } ∧
    ({ ctxP with Data := some GoMap.empty, UpdatedAt := 20 } : Context Int).Data
      ≠ ctxP.Data :=
  ⟨storePC_get?_P, rfl, by decide, by decide⟩

/-- C10, as amended, at `storePC`: an update of `P` that supplies the empty map. -/
theorem UpdateContext_data_iff_not_nil_witness :
    storePC.contexts.get? "P" = some ctxP ∧
    ∃ c', (UpdateContext storePC 20 "P" (some GoMap.empty) none).2.contexts.get? "P"
        = some c' ∧
      (some (GoMap.empty : GoMap Int) ≠ none → c'.Data = some GoMap.empty) ∧
      (some (GoMap.empty : GoMap Int) = some GoMap.empty → c'.Data = some GoMap.empty) ∧
      (some (GoMap.empty : GoMap Int) = none → c'.Data = ctxP.Data) :=
  ⟨storePC_get?_P,
    UpdateContext_data_iff_not_nil storePC 20 "P" (some GoMap.empty) none ctxP
      storePC_get?_P⟩

/-! ## Deletion, dangling parents and listing by source -/

theorem GoMap_ext {β : Type} (a b : GoMap β) (h : a.entries = b.entries) : a = b := by
  cases a
  cases b
  simp only [GoMap.mk.injEq]
  exact h

theorem lookupL_deleteL_self {β : Type} (k : String) :
    ∀ l : List (String × β), lookupL k (deleteL k l) = none
  | [] => rfl
  | (k', v') :: t => by
    by_cases hk : k' = k
    · simp [deleteL, hk, lookupL_deleteL_self k t]
    · simp [deleteL, lookupL, hk, lookupL_deleteL_self k t]

theorem lookupL_deleteL_ne {β : Type} (k k2 : String) (h : k2 ≠ k) :
    ∀ l : List (String × β), lookupL k2 (deleteL k l) = lookupL k2 l
  | [] => rfl
  | (k', v') :: t => by
    by_cases hk : k' = k
    · have h3 : ¬ k = k2 := fun e => h e.symm
      simp [deleteL, lookupL, hk, h3, lookupL_deleteL_ne k k2 h t]
    · by_cases hk2 : k' = k2
      · subst hk2
        simp [deleteL, lookupL, hk]
      · simp [deleteL, lookupL, hk, hk2, lookupL_deleteL_ne k k2 h t]

theorem deleteL_of_not_mem {β : Type} (k : String) :
    ∀ l : List (String × β), k ∉ keysL l → deleteL k l = l
  | [], _ => rfl
  | (k', v') :: t, h => by
    simp only [keysL, List.map_cons, List.mem_cons, not_or] at h
    have hk : ¬ k' = k := fun e => h.1 e.symm
    simp [deleteL, hk, deleteL_of_not_mem k t h.2]

theorem length_deleteL_of_mem {β : Type} (k : String) :
    ∀ l : List (String × β), (keysL l).Nodup → k ∈ keysL l →
      (deleteL k l).length + 1 = l.length
  | [], _, h => by simp [keysL] at h
  | (k', v') :: t, hn, h => by
    have hn2 : k' ∉ keysL t ∧ (keysL t).Nodup := by simpa [keysL] using hn
    by_cases hk : k' = k
    · subst hk
      simp [deleteL, deleteL_of_not_mem k' t hn2.1]
    · have ht : k ∈ keysL t := by
        simp only [keysL, List.map_cons, List.mem_cons] at h
        rcases h with h | h
        · exact absurd h.symm hk
        · exact h
      simp [deleteL, hk, length_deleteL_of_mem k t hn2.2 ht]

theorem setL_of_not_mem {β : Type} (k : String) (v : β) :
    ∀ l : List (String × β), k ∉ keysL l → setL k v l = l ++ [(k, v)]
  | [], _ => rfl
  | (k', v') :: t, h => by
    simp only [keysL, List.map_cons, List.mem_cons, not_or] at h
    have hk : ¬ k' = k := fun e => h.1 e.symm
    simp [setL, hk, setL_of_not_mem k v t h.2]

theorem entries_copyAll {V : Type} :
    ∀ (src : List (String × V)) (result : GoMap V),
      (copyAll src result).entries = src.foldl (fun l e => setL e.1 e.2 l) result.entries
  | [], _ => rfl
  | e :: t, result => by
    have ih := entries_copyAll t (result.set e.1 e.2)
    simp only [copyAll] at ih
    simp only [copyAll, List.foldl_cons, ih]
    rfl

theorem foldl_setL_fresh {V : Type} :
    ∀ (src acc : List (String × V)), (keysL (acc ++ src)).Nodup →
      src.foldl (fun l e => setL e.1 e.2 l) acc = acc ++ src
  | [], acc, _ => by simp
  | (k, v) :: t, acc, h => by
    have hk : k ∉ keysL acc := by
      intro hmem
      have h2 : (keysL acc ++ k :: keysL t).Nodup := by simpa [keysL] using h
      exact (List.nodup_append.mp h2).2.2 hmem (List.mem_cons_self k _) 
    have h3 : (keysL ((acc ++ [(k, v)]) ++ t)).Nodup := by simpa using h
    simp only [List.foldl_cons]
    rw [setL_of_not_mem k v acc hk, foldl_setL_fresh t (acc ++ [(k, v)]) h3]
    simp

/-- Copying a map into the empty map gives the map back. -/
theorem copyAll_rangeOf_entries {V : Type} (d : Option (GoMap V)) :
    (copyAll (rangeOf d) GoMap.empty).entries = rangeOf d := by
  rw [entries_copyAll]
  cases d with
  | none => rfl
  | some m =>
    have h := foldl_setL_fresh m.entries [] (by simpa using m.nodup)
    simpa [rangeOf, GoMap.empty] using h

theorem foldl_collect {α β : Type} (p : α → Prop) [DecidablePred p] (f : α → β) :
    ∀ (l : List α) (acc : List β),
      l.foldl (fun result e => if p e then result ++ [f e] else result) acc
        = acc ++ (l.filter (fun e => decide (p e))).map f
  | [], acc => by simp
  | e :: t, acc => by
    simp only [List.foldl_cons]
    by_cases h : p e
    · simp [h, foldl_collect p f t]
    · simp [h, foldl_collect p f t]

theorem lookupL_of_mem {β : Type} (k : String) (v : β) :
    ∀ l : List (String × β), (keysL l).Nodup → (k, v) ∈ l → lookupL k l = some v
  | [], _, h => by simp at h
  | (k', v') :: t, hn, h => by
    have hn2 : k' ∉ keysL t ∧ (keysL t).Nodup := by simpa [keysL] using hn
    simp only [List.mem_cons, Prod.mk.injEq] at h
    rcases h with ⟨h1, h2⟩ | h
    · subst h1; subst h2
      simp [lookupL]
    · have hk : ¬ k' = k := by
        intro e
        subst e
        exact hn2.1 (List.mem_map.mpr ⟨(k', v), h, rfl⟩)
      simp [lookupL, hk, lookupL_of_mem k v t hn2.2 h]

theorem mem_of_lookupL {β : Type} (k : String) (v : β) :
    ∀ l : List (String × β), lookupL k l = some v → (k, v) ∈ l
  | [], h => by simp [lookupL] at h
  | (k', v') :: t, h => by
    by_cases hk : k' = k
    · subst hk
      simp only [lookupL, if_true, Option.some.injEq] at h
      simp [h]
    · simp only [lookupL, hk, if_false] at h
      exact List.mem_cons_of_mem _ (mem_of_lookupL k v t h)

theorem DeleteContext_of_get? {V : Type} (cm : ContextManager V) (id : String)
    (c : Context V) (h : cm.contexts.get? id = some c) :
    DeleteContext cm id = (true, ⟨cm.contexts.delete id⟩) := by
  simp [DeleteContext, h]

theorem DeleteContext_get?_ne {V : Type} (cm : ContextManager V) (id y : String)
    (h : y ≠ id) : (DeleteContext cm id).2.contexts.get? y = cm.contexts.get? y := by
  unfold DeleteContext
  cases cm.contexts.get? id with
  | none => rfl
  | some c => exact lookupL_deleteL_ne id y h cm.contexts.entries

/-- C11: `DeleteContext` returns true exactly when the id is in the table. When it
is, the entry is gone afterwards (`GetContext` reports not found) and the table has
one entry fewer; when it is not, the call returns false and the store is unchanged. -/
theorem DeleteContext_iff_present {V : Type} (cm : ContextManager V) (id : String) :
    ((DeleteContext cm id).1 = true ↔ ∃ c, cm.contexts.get? id = some c) ∧
    (∀ c, cm.contexts.get? id = some c →
      (DeleteContext cm id).1 = true ∧
      (GetContext (DeleteContext cm id).2 id).1 = none ∧
      (DeleteContext cm id).2.contexts.len + 1 = cm.contexts.len) ∧
    (cm.contexts.get? id = none → DeleteContext cm id = (false, cm)) := by
  refine ⟨?_, ?_, ?_⟩
  · cases h : cm.contexts.get? id with
    | none => simp [DeleteContext, h]
    | some c => simp [DeleteContext, h]
  · intro c h
    rw [DeleteContext_of_get? cm id c h]
    exact ⟨rfl, lookupL_deleteL_self id cm.contexts.entries,
      length_deleteL_of_mem id cm.contexts.entries cm.contexts.nodup
        (GoMap.mem_keys_of_get? _ _ _ h)⟩
  · intro h
    simp [DeleteContext, h]

/-- C12: `DeleteContext` does not cascade: every context at another id is unchanged
in every field. In particular a context at another id that lists the deleted id
among its `ChildrenIDs` still does, and a context at another id whose `ParentID`
names the deleted id is still in the table and still names it. -/
theorem DeleteContext_no_cascade {V : Type} (cm : ContextManager V) (id : String) :
    (∀ y, y ≠ id → (DeleteContext cm id).2.contexts.get? y = cm.contexts.get? y) ∧
    (∀ y p, y ≠ id → cm.contexts.get? y = some p → id ∈ p.ChildrenIDs →
      ∃ p', (DeleteContext cm id).2.contexts.get? y = some p' ∧ id ∈ p'.ChildrenIDs ∧
        p' = p) ∧
    (∀ y c, y ≠ id → cm.contexts.get? y = some c → c.ParentID = some id →
      ∃ c', (DeleteContext cm id).2.contexts.get? y = some c' ∧ c'.ParentID = some id ∧
        c' = c) := by
  refine ⟨fun y hy => DeleteContext_get?_ne cm id y hy, ?_, ?_⟩
  · intro y p hy hp hmem
    exact ⟨p, by rw [DeleteContext_get?_ne cm id y hy]; exact hp, hmem, rfl⟩
  · intro y c hy hc hpar
    exact ⟨c, by rw [DeleteContext_get?_ne cm id y hy]; exact hc, hpar, rfl⟩

/-- C13: when the context `c` at `id` names a parent that is not in the table,
`GetInheritedContext` returns (two nested calls suffice) and the map it returns
holds exactly the pairs of `c`'s own data; the store is unchanged. -/
theorem GetInheritedContext_dangling_parent {V : Type} (cm : ContextManager V)
    (id parentID : String) (c : Context V)
    (hc : cm.contexts.get? id = some c) (hp : c.ParentID = some parentID)
    (hd : cm.contexts.get? parentID = none) :
    ∃ r : GoMap V,
      (∀ fuel, GetInheritedContext (fuel + 2) cm id = some (r, cm)) ∧
      r.entries = rangeOf c.Data ∧
      ∀ k, r.get? k = index? c.Data k := by
  refine ⟨copyAll (rangeOf c.Data) GoMap.empty, ?_, copyAll_rangeOf_entries c.Data,
    fun k => get?_copyAll_rangeOf c.Data k⟩
  intro fuel
  simp [GetInheritedContext, hc, hp, hd, copyMissing, GoMap.empty]

/-- C14: `GetContextsBySource` leaves the store unchanged and returns the contexts
stored at a duplicate-free list of ids, namely the ids whose context has the given
source: each such context once, and no context with another source. Visiting the
table in another order gives the same contexts in another order. -/
theorem GetContextsBySource_exact {V : Type} (cm : ContextManager V) (source : String) :
    (GetContextsBySource cm source).2 = cm ∧
    (∃ ids : List String, ids.Nodup ∧
      (∀ id, id ∈ ids ↔ ∃ c, cm.contexts.get? id = some c ∧ c.Source = source) ∧
      (GetContextsBySource cm source).1.map some = ids.map cm.contexts.get?) ∧
    (∀ c ∈ (GetContextsBySource cm source).1, c.Source = source) ∧
    (∀ visit : List (String × Context V), visit.Perm cm.contexts.entries →
      (visit.foldl (fun result e => if e.2.Source = source then result ++ [e.2] else result)
        []).Perm (GetContextsBySource cm source).1) := by
  have hres : (GetContextsBySource cm source).1 =
      (cm.contexts.entries.filter (fun e => decide (e.2.Source = source))).map Prod.snd := by
    simp only [GetContextsBySource]
    rw [foldl_collect (fun e : String × Context V => e.2.Source = source) Prod.snd]
    simp
  have hsub : ∀ e ∈ cm.contexts.entries.filter (fun e => decide (e.2.Source = source)),
      e ∈ cm.contexts.entries ∧ e.2.Source = source := by
    intro e he
    simpa using List.mem_filter.mp he
  refine ⟨rfl, ⟨keysL (cm.contexts.entries.filter (fun e => decide (e.2.Source = source))),
    ?_, ?_, ?_⟩, ?_, ?_⟩
  · exact List.Nodup.sublist
      (List.Sublist.map Prod.fst (List.filter_sublist cm.contexts.entries)) cm.contexts.nodup
  · intro id
    constructor
    · intro hid
      obtain ⟨e, he, rfl⟩ := List.mem_map.mp hid
      obtain ⟨hmem, hsrc⟩ := hsub e he
      exact ⟨e.2, lookupL_of_mem e.1 e.2 _ cm.contexts.nodup hmem, hsrc⟩
    · rintro ⟨c, hc, hsrc⟩
      have hmem := mem_of_lookupL id c _ hc
      exact List.mem_map.mpr ⟨(id, c), List.mem_filter.mpr ⟨hmem, by simpa using hsrc⟩, rfl⟩
  · rw [hres]
    simp only [keysL, List.map_map]
    apply List.map_congr_left
    intro e he
    obtain ⟨hmem, -⟩ := hsub e he
    exact (lookupL_of_mem e.1 e.2 _ cm.contexts.nodup hmem).symm
  · intro c hcmem
    rw [hres] at hcmem
    obtain ⟨e, he, rfl⟩ := List.mem_map.mp hcmem
    exact (hsub e he).2
  · intro visit hperm
    rw [hres, foldl_collect (fun e : String × Context V => e.2.Source = source) Prod.snd]
    simpa using (hperm.filter _).map Prod.snd

/-! ## The dispatcher -/

theorem isRegistered_NewModelHandler {V : Type} (cm : ContextManager V) (client : Client)
    (modelID : String) : (NewModelHandler cm client).isRegistered modelID = false := rfl

theorem isRegistered_RegisterModel_self {V : Type} (h : ModelHandler V) (modelID : String) :
    (RegisterModel h modelID).isRegistered modelID = true := by
  simp [ModelHandler.isRegistered, RegisterModel, GoMap.get?_set_self]

theorem isRegistered_RegisterModel_ne {V : Type} (h : ModelHandler V)
    (modelID other : String) (hne : other ≠ modelID) :
    (RegisterModel h modelID).isRegistered other = h.isRegistered other := by
  simp [ModelHandler.isRegistered, RegisterModel, GoMap.get?_set_ne _ _ _ _ hne]

theorem resolveContext_returns {V : Type} (h : ModelHandler V) (req : ModelRequest)
    (cs : List (Context V))
    (hctx : req.ContextID = "" ∨ ParentChain h.contextManager req.ContextID cs) :
    ∃ ctxData calls,
      (∀ fuel, cs.length < fuel →
        resolveContext fuel h req = some (ctxData, h.contextManager, calls)) ∧
      ∀ c ∈ calls, c = Call.GetInheritedContext req.ContextID := by
  by_cases he : req.ContextID = ""
  · exact ⟨none, [], fun fuel _ => by simp [resolveContext, he], by simp⟩
  · have hch : ParentChain h.contextManager req.ContextID cs := by
      rcases hctx with h1 | h1
      · exact absurd h1 he
      · exact h1
    obtain ⟨r, hrun, -⟩ := GetInheritedContext_chain h.contextManager req.ContextID cs hch
    refine ⟨some r, [Call.GetInheritedContext req.ContextID], ?_, by simp⟩
    intro fuel hf
    simp [resolveContext, he, hrun fuel hf]

theorem handleGetPart_result {V : Type} (h : ModelHandler V) (req : ModelRequest) :
    (handleGetPart h req).2.1 = none ∧
    ∃ r, (handleGetPart h req).1 = some r ∧
      (∀ c ∈ (handleGetPart h req).2.2, ∃ id, c = Call.PartsGet id) ∧
      (∀ id msg, Call.PartsGet id ∈ (handleGetPart h req).2.2 →
        h.frClient.PartsGet id = Except.error msg →
        r.Success = false ∧ r.Error = "failed to get part: " ++ msg) := by
  unfold handleGetPart
  split
  · exact ⟨rfl, _, rfl, by simp, by simp⟩
  · rename_i partID hp
    split
    · rename_i err hg
      refine ⟨rfl, _, rfl, by simp, ?_⟩
      intro id msg hmem hcall
      simp only [List.mem_singleton, Call.PartsGet.injEq] at hmem
      subst hmem
      rw [hg] at hcall
      cases hcall
      exact ⟨rfl, rfl⟩
    · rename_i part hg
      refine ⟨rfl, _, rfl, by simp, ?_⟩
      intro id msg hmem hcall
      simp only [List.mem_singleton, Call.PartsGet.injEq] at hmem
      subst hmem
      rw [hg] at hcall
      cases hcall

theorem handleCreateOrder_result {V : Type} (h : ModelHandler V) (req : ModelRequest) :
    (handleCreateOrder h req).2.1 = none ∧
    ∃ r, (handleCreateOrder h req).1 = some r ∧
      (∀ c ∈ (handleCreateOrder h req).2.2, ∃ o, c = Call.OrdersCreate o) ∧
      (∀ o msg, Call.OrdersCreate o ∈ (handleCreateOrder h req).2.2 →
        h.frClient.OrdersCreate o = Except.error msg →
        r.Success = false ∧ r.Error = "failed to create order: " ++ msg) := by
  unfold handleCreateOrder
  split
  · exact ⟨rfl, _, rfl, by simp, by simp⟩
  · split
    · exact ⟨rfl, _, rfl, by simp, by simp⟩
    · split
      · exact ⟨rfl, _, rfl, by simp, by simp⟩
      · simp only []
        split
        · rename_i err hg
          refine ⟨rfl, _, rfl, by simp, ?_⟩
          intro o msg hmem hcall
          simp only [List.mem_singleton, Call.OrdersCreate.injEq] at hmem
          subst hmem
          rw [hg] at hcall
          cases hcall
          exact ⟨rfl, rfl⟩
        · rename_i created hg
          refine ⟨rfl, _, rfl, by simp, ?_⟩
          intro o msg hmem hcall
          simp only [List.mem_singleton, Call.OrdersCreate.injEq] at hmem
          subst hmem
          rw [hg] at hcall
          cases hcall

/-- C18: for a request whose model id is not registered, `HandleRequest` returns the
error `model <id> not registered` and no response, whatever the action, the context
id and the parameters are, and it makes no call: neither to the client nor to the
context store, which it leaves as it was. -/
theorem HandleRequest_unregistered {V : Type} (h : ModelHandler V) (req : ModelRequest)
    (hu : h.isRegistered req.ModelID = false) :
    ∀ fuel, HandleRequest fuel h req =
      some { resp := none
             err := some ("model " ++ req.ModelID ++ " not registered")
             calls := []
             contextManager := h.contextManager } := by
  intro fuel
  simp [HandleRequest, hu]

/-- With a string under `part_id`, `handleGetPart` calls `Parts.Get` with it and wraps
the error of a failed call. -/
theorem handleGetPart_valid {V : Type} (h : ModelHandler V) (req : ModelRequest)
    (s : String) (hp : index? req.Params "part_id" = some (Value.str s)) :
    (handleGetPart h req).2.2 = [Call.PartsGet s] ∧
    ∀ msg, h.frClient.PartsGet s = Except.error msg →
      (handleGetPart h req).1 = some (failure ("failed to get part: " ++ msg)) := by
  unfold handleGetPart
  simp only [hp, asString]
  cases hg : h.frClient.PartsGet s with
  | error err =>
    refine ⟨rfl, fun msg hm => ?_⟩
    cases hm
    rfl
  | ok part =>
    refine ⟨rfl, fun msg hm => ?_⟩
    cases hm

/-- With an object under `order` that has a string under `customer_id` and an array
under `items`, `handleCreateOrder` calls `Orders.Create` with the order built from
them and wraps the error of a failed call. -/
theorem handleCreateOrder_valid {V : Type} (h : ModelHandler V) (req : ModelRequest)
    (kvs : List (String × Value)) (s : String) (xs : List Value)
    (ho : index? req.Params "order" = some (Value.object kvs))
    (hc : lookupL "customer_id" kvs = some (Value.str s))
    (hi : lookupL "items" kvs = some (Value.array xs)) :
    ∃ o : Order, o.ID = "" ∧ o.CustomerID = s ∧ o.Items = xs ∧
      o.Priority = (asString (lookupL "priority" kvs)).getD "" ∧
      o.DueDate = (asString (lookupL "due_date" kvs)).getD "" ∧
      o.Status = (asString (lookupL "status" kvs)).getD "" ∧
      (handleCreateOrder h req).2.2 = [Call.OrdersCreate o] ∧
      ∀ msg, h.frClient.OrdersCreate o = Except.error msg →
        (handleCreateOrder h req).1 =
          some (failure ("failed to create order: " ++ msg)) := by
  have hos : asObject (index? req.Params "order") = some kvs := by rw [ho]; rfl
  have hcs : asString (lookupL "customer_id" kvs) = some s := by rw [hc]; rfl
  have his : asArray (lookupL "items" kvs) = some xs := by rw [hi]; rfl
  refine ⟨{ ID := "", CustomerID := s, Items := xs
            Priority := (asString (lookupL "priority" kvs)).getD ""
            DueDate := (asString (lookupL "due_date" kvs)).getD ""
            Status := (asString (lookupL "status" kvs)).getD "" },
    rfl, rfl, rfl, rfl, rfl, rfl, ?_⟩
  unfold handleCreateOrder
  simp only [hos, hcs, his]
  cases asString (lookupL "priority" kvs) <;>
  cases asString (lookupL "due_date" kvs) <;>
  cases asString (lookupL "status" kvs) <;>
  · simp only [Option.getD]
    split
    · rename_i err hg
      refine ⟨rfl, fun msg hm => ?_⟩
      rw [hg] at hm
      cases hm
      rfl
    · rename_i created hg
      refine ⟨rfl, fun msg hm => ?_⟩
      rw [hg] at hm
      cases hm

/-- C19: for a request whose context id is empty or has a finite parent chain (an id
missing from the store has the empty chain), `HandleRequest` returns, and it returns
an error exactly when the model id is not registered. For a registered model it
returns a response and no error, whatever the action, the parameters and the client's
answers are; when the client call it made failed, the response has `Success` false
and an `Error` that ends with the client's error message. The client is called: for
`get_part` with a string under `part_id`, `Parts.Get` with that string, and for
`create_order` with an object under `order` holding a string under `customer_id` and
an array under `items`, `Orders.Create` with the order built from the object; when
that call fails with `msg`, the response is the failure `failed to get part: msg`,
respectively `failed to create order: msg`. -/
theorem HandleRequest_error_iff_unregistered {V : Type} (h : ModelHandler V)
    (req : ModelRequest) (cs : List (Context V))
    (hctx : req.ContextID = "" ∨ ParentChain h.contextManager req.ContextID cs) :
    ∃ d : Dispatched V,
      (∀ fuel, cs.length < fuel → HandleRequest fuel h req = some d) ∧
      (d.err ≠ none ↔ h.isRegistered req.ModelID = false) ∧
      (h.isRegistered req.ModelID = true →
        d.err = none ∧ ∃ r, d.resp = some r ∧
          (∀ id msg, Call.PartsGet id ∈ d.calls →
            h.frClient.PartsGet id = Except.error msg →
            r.Success = false ∧ ∃ front, r.Error = front ++ msg) ∧
          (∀ o msg, Call.OrdersCreate o ∈ d.calls →
            h.frClient.OrdersCreate o = Except.error msg →
            r.Success = false ∧ ∃ front, r.Error = front ++ msg) ∧
          (∀ s, req.Action = "get_part" →
            index? req.Params "part_id" = some (Value.str s) →
            Call.PartsGet s ∈ d.calls ∧
            ∀ msg, h.frClient.PartsGet s = Except.error msg →
              r = { Success := false, Data := none,
                    Error := "failed to get part: " ++ msg }) ∧
          (∀ kvs s xs, req.Action = "create_order" →
            index? req.Params "order" = some (Value.object kvs) →
            lookupL "customer_id" kvs = some (Value.str s) →
            lookupL "items" kvs = some (Value.array xs) →
            ∃ o : Order, o.ID = "" ∧ o.CustomerID = s ∧ o.Items = xs ∧
              o.Priority = (asString (lookupL "priority" kvs)).getD "" ∧
              o.DueDate = (asString (lookupL "due_date" kvs)).getD "" ∧
              o.Status = (asString (lookupL "status" kvs)).getD "" ∧
              Call.OrdersCreate o ∈ d.calls ∧
              ∀ msg, h.frClient.OrdersCreate o = Except.error msg →
                r = { Success := false, Data := none,
                      Error := "failed to create order: " ++ msg })) := by
  cases hreg : h.isRegistered req.ModelID with
  | false =>
    exact ⟨_, fun fuel _ => HandleRequest_unregistered h req hreg fuel, by simp, by simp⟩
  | true =>
    obtain ⟨ctxData, calls, hres, hcalls⟩ := resolveContext_returns h req cs hctx
    by_cases ha : req.Action = "get_part"
    · obtain ⟨herr, r, hr, honly, hfail⟩ := handleGetPart_result h req
      refine ⟨{ resp := (handleGetPart h req).1, err := (handleGetPart h req).2.1,
                calls := calls ++ (handleGetPart h req).2.2,
                contextManager := h.contextManager }, ?_, ?_, ?_⟩
      · intro fuel hf
        simp [HandleRequest, hreg, hres fuel hf, ha]
      · simp [herr]
      · intro _
        refine ⟨herr, r, hr, ?_, ?_, ?_, ?_⟩
        · intro id msg hmem hcall
          rcases List.mem_append.mp hmem with h1 | h1
          · exact Call.noConfusion (hcalls _ h1)
          · exact ⟨(hfail id msg h1 hcall).1, _, (hfail id msg h1 hcall).2⟩
        · intro o msg hmem _
          rcases List.mem_append.mp hmem with h1 | h1
          · exact Call.noConfusion (hcalls _ h1)
          · obtain ⟨id, hid⟩ := honly _ h1
            exact Call.noConfusion hid
        · intro s _ hp
          obtain ⟨hc1, hc2⟩ := handleGetPart_valid h req s hp
          refine ⟨List.mem_append.mpr (Or.inr (by rw [hc1]; exact List.mem_singleton.mpr rfl)),
            fun msg hm => ?_⟩
          have h3 := hc2 msg hm
          rw [hr] at h3
          exact Option.some.inj h3
        · intro kvs s xs hb
          rw [ha] at hb
          exact absurd hb (by decide)
    · by_cases hb : req.Action = "create_order"
      · obtain ⟨herr, r, hr, honly, hfail⟩ := handleCreateOrder_result h req
        refine ⟨{ resp := (handleCreateOrder h req).1, err := (handleCreateOrder h req).2.1,
                  calls := calls ++ (handleCreateOrder h req).2.2,
                  contextManager := h.contextManager }, ?_, ?_, ?_⟩
        · intro fuel hf
          simp [HandleRequest, hreg, hres fuel hf, ha, hb]
        · simp [herr]
        · intro _
          refine ⟨herr, r, hr, ?_, ?_, ?_, ?_⟩
          · intro id msg hmem _
            rcases List.mem_append.mp hmem with h1 | h1
            · exact Call.noConfusion (hcalls _ h1)
            · obtain ⟨o, ho⟩ := honly _ h1
              exact Call.noConfusion ho
          · intro o msg hmem hcall
            rcases List.mem_append.mp hmem with h1 | h1
            · exact Call.noConfusion (hcalls _ h1)
            · exact ⟨(hfail o msg h1 hcall).1, _, (hfail o msg h1 hcall).2⟩
          · intro s hga
            exact absurd hga ha
          · intro kvs s xs _ ho hc hi
            obtain ⟨o, o1, o2, o3, o4, o5, o6, hc1, hc2⟩ :=
              handleCreateOrder_valid h req kvs s xs ho hc hi
            refine ⟨o, o1, o2, o3, o4, o5, o6,
              List.mem_append.mpr (Or.inr (by rw [hc1]; exact List.mem_singleton.mpr rfl)),
              fun msg hm => ?_⟩
            have h3 := hc2 msg hm
            rw [hr] at h3
            exact Option.some.inj h3
      · refine ⟨{ resp := some (failure ("unknown action: " ++ req.Action)), err := none,
                  calls := calls, contextManager := h.contextManager }, ?_, by simp, ?_⟩
        · intro fuel hf
          simp [HandleRequest, hreg, hres fuel hf, ha, hb]
        · intro _
          refine ⟨rfl, _, rfl, ?_, ?_, ?_, ?_⟩
          · intro id msg hmem _
            exact Call.noConfusion (hcalls _ hmem)
          · intro o msg hmem _
            exact Call.noConfusion (hcalls _ hmem)
          · intro s hga
            exact absurd hga ha
          · intro kvs s xs hgb
            exact absurd hgb hb

/-- C20, as amended: for a registered model, an action name other than `get_part`
and `create_order`, and a context id that is empty or has a finite parent chain,
`HandleRequest` returns no error and the response with `Success` false, no `Data`
and `Error` equal to `unknown action: ` followed by the name; it calls the client
not at all (its only call, if any, is the one to the context store) and leaves the
store unchanged. -/
theorem HandleRequest_unknown_action {V : Type} (h : ModelHandler V)
    (req : ModelRequest) (cs : List (Context V))
    (hreg : h.isRegistered req.ModelID = true)
    (ha : req.Action ≠ "get_part") (hb : req.Action ≠ "create_order")
    (hctx : req.ContextID = "" ∨ ParentChain h.contextManager req.ContextID cs) :
    ∃ d : Dispatched V,
      (∀ fuel, cs.length < fuel → HandleRequest fuel h req = some d) ∧
      d.err = none ∧
      d.resp = some { Success := false, Data := none,
                      Error := "unknown action: " ++ req.Action } ∧
      (∀ c ∈ d.calls, c = Call.GetInheritedContext req.ContextID) ∧
      d.contextManager = h.contextManager := by
  obtain ⟨ctxData, calls, hres, hcalls⟩ := resolveContext_returns h req cs hctx
  refine ⟨{ resp := some (failure ("unknown action: " ++ req.Action)), err := none,
            calls := calls, contextManager := h.contextManager }, ?_, rfl, rfl, hcalls, rfl⟩
  intro fuel hf
  simp [HandleRequest, hreg, hres fuel hf, ha, hb]

/-! ## Deletion, listing and dispatch at concrete stores -/

theorem storeDangling_get?_C : storeDangling.contexts.get? "C" = some ctxC := by decide

theorem storeDangling_get?_P : storeDangling.contexts.get? "P" = none := by decide

theorem storeSelf_get?_P : storeSelf.contexts.get? "P" = some ctxSelf := by decide

theorem storePC_chain_C : ParentChain storePC "C" [ctxC, ctxP] :=
  ParentChain.step "C" "P" ctxC [ctxP] storePC_get?_C rfl
    (ParentChain.root "P" ctxP storePC_get?_P rfl)

theorem storePC_chain_P : ParentChain storePC "P" [ctxP] :=
  ParentChain.root "P" ctxP storePC_get?_P rfl

/-- On a context that is its own parent `GetInheritedContext` exhausts every bound. -/
theorem GetInheritedContext_storeSelf :
    ∀ fuel, GetInheritedContext fuel storeSelf "P" = none
  | 0 => rfl
  | fuel + 1 => by
    have hp : ctxSelf.ParentID = some "P" := rfl
    simp [GetInheritedContext, storeSelf_get?_P, hp, GetInheritedContext_storeSelf fuel]

/-- C11 at the store `storePC`: deleting `P`, which it holds, and `Z`, which it does
not hold. -/
theorem DeleteContext_iff_present_witness :
    (storePC.contexts.get? "P" = some ctxP ∧
      (DeleteContext storePC "P").1 = true ∧
      (GetContext (DeleteContext storePC "P").2 "P").1 = none ∧
      (DeleteContext storePC "P").2.contexts.len + 1 = storePC.contexts.len) ∧
    (storePC.contexts.get? "Z" = none ∧ DeleteContext storePC "Z" = (false, storePC)) :=
  ⟨⟨storePC_get?_P, (DeleteContext_iff_present storePC "P").2.1 ctxP storePC_get?_P⟩,
    ⟨storePC_get?_Z, (DeleteContext_iff_present storePC "Z").2.2 storePC_get?_Z⟩⟩

/-- C12 at the store `storePC`: after deleting the parent `P` the child `C` still
names `P`, and after deleting the child `C` the parent `P` still lists `C`. -/
theorem DeleteContext_no_cascade_witness :
    (∃ c', (DeleteContext storePC "P").2.contexts.get? "C" = some c' ∧
      c'.ParentID = some "P" ∧ c' = ctxC) ∧
    (∃ p', (DeleteContext storePC "C").2.contexts.get? "P" = some p' ∧
      "C" ∈ p'.ChildrenIDs ∧ p' = ctxP) :=
  ⟨(DeleteContext_no_cascade storePC "P").2.2 "C" ctxC (by decide) storePC_get?_C rfl,
    (DeleteContext_no_cascade storePC "C").2.1 "P" ctxP (by decide) storePC_get?_P
      (by decide)⟩

/-- C13 at the store obtained by Create `P`, Create `C`, link `C` to `P`, Delete `P`. -/
theorem GetInheritedContext_dangling_parent_witness :
    (storeDangling.contexts.get? "C" = some ctxC ∧ ctxC.ParentID = some "P" ∧
      storeDangling.contexts.get? "P" = none) ∧
    ∃ r : GoMap Int,
      (∀ fuel, GetInheritedContext (fuel + 2) storeDangling "C" = some (r, storeDangling)) ∧
      r.entries = rangeOf ctxC.Data ∧
      ∀ k, r.get? k = index? ctxC.Data k :=
  ⟨⟨storeDangling_get?_C, rfl, storeDangling_get?_P⟩,
    GetInheritedContext_dangling_parent storeDangling "C" "P" ctxC storeDangling_get?_C rfl
      storeDangling_get?_P⟩

/-- C14 at the store `storePC` and the source `test`, visiting the table in reverse. -/
theorem GetContextsBySource_exact_witness :
    (storePC.contexts.entries.reverse.foldl
      (fun result e => if e.2.Source = "test" then result ++ [e.2] else result) []).Perm
      (GetContextsBySource storePC "test").1 :=
  (GetContextsBySource_exact storePC "test").2.2.2 storePC.contexts.entries.reverse
    (List.reverse_perm _)

/-- C18 at the handler `handlerPC`, where only `m1` is registered, for model `m2`. -/
theorem HandleRequest_unregistered_witness :
    handlerPC.isRegistered reqUnregistered.ModelID = false ∧
    ∀ fuel, HandleRequest fuel handlerPC reqUnregistered =
      some { resp := none
             err := some ("model " ++ reqUnregistered.ModelID ++ " not registered")
             calls := []
             contextManager := handlerPC.contextManager } :=
  ⟨by decide, HandleRequest_unregistered handlerPC reqUnregistered (by decide)⟩

/-- C19 at the handler `handlerPC`: a `get_part` request of the registered model `m1`
with context `C`, whose chain is `C`, `P`; the client fails with `offline`, and the
response is the failure `failed to get part: offline`. -/
theorem HandleRequest_error_iff_unregistered_witness :
    (reqGetPart.ContextID = "" ∨
      ParentChain handlerPC.contextManager reqGetPart.ContextID [ctxC, ctxP]) ∧
    HandleRequest 3 handlerPC reqGetPart =
      some { resp := some { Success := false, Data := none,
                            Error := "failed to get part: offline" }
             err := none
             calls := [Call.GetInheritedContext "C", Call.PartsGet "p-1"]
             contextManager := storePC } ∧
    ∃ d : Dispatched Int,
      (∀ fuel, [ctxC, ctxP].length < fuel → HandleRequest fuel handlerPC reqGetPart = some d) ∧
      (d.err ≠ none ↔ handlerPC.isRegistered reqGetPart.ModelID = false) ∧
      (handlerPC.isRegistered reqGetPart.ModelID = true →
        d.err = none ∧ ∃ r, d.resp = some r ∧
          (∀ id msg, Call.PartsGet id ∈ d.calls →
            handlerPC.frClient.PartsGet id = Except.error msg →
            r.Success = false ∧ ∃ front, r.Error = front ++ msg) ∧
          (∀ o msg, Call.OrdersCreate o ∈ d.calls →
            handlerPC.frClient.OrdersCreate o = Except.error msg →
            r.Success = false ∧ ∃ front, r.Error = front ++ msg) ∧
          (∀ s, reqGetPart.Action = "get_part" →
            index? reqGetPart.Params "part_id" = some (Value.str s) →
            Call.PartsGet s ∈ d.calls ∧
            ∀ msg, handlerPC.frClient.PartsGet s = Except.error msg →
              r = { Success := false, Data := none,
                    Error := "failed to get part: " ++ msg }) ∧
          (∀ kvs s xs, reqGetPart.Action = "create_order" →
            index? reqGetPart.Params "order" = some (Value.object kvs) →
            lookupL "customer_id" kvs = some (Value.str s) →
            lookupL "items" kvs = some (Value.array xs) →
            ∃ o : Order, o.ID = "" ∧ o.CustomerID = s ∧ o.Items = xs ∧
              o.Priority = (asString (lookupL "priority" kvs)).getD "" ∧
              o.DueDate = (asString (lookupL "due_date" kvs)).getD "" ∧
              o.Status = (asString (lookupL "status" kvs)).getD "" ∧
              Call.OrdersCreate o ∈ d.calls ∧
              ∀ msg, handlerPC.frClient.OrdersCreate o = Except.error msg →
                r = { Success := false, Data := none,
                      Error := "failed to create order: " ++ msg })) :=
  ⟨Or.inr storePC_chain_C, by rfl,
    HandleRequest_error_iff_unregistered handlerPC reqGetPart [ctxC, ctxP]
      (Or.inr storePC_chain_C)⟩

/-- C20, as stated, fails at the handler `handlerSelf`: the model `m1` is registered
and the action `foo` is unknown, but the context `P` is its own parent, so
`GetInheritedContext` never returns and neither does `HandleRequest`. -/
theorem HandleRequest_unknown_action_no_return :
    handlerSelf.isRegistered reqUnknown.ModelID = true ∧
    reqUnknown.Action ≠ "get_part" ∧ reqUnknown.Action ≠ "create_order" ∧
    handlerSelf.contextManager.contexts.get? reqUnknown.ContextID = some ctxSelf ∧
    ctxSelf.ParentID = some reqUnknown.ContextID ∧
    ∀ fuel, HandleRequest fuel handlerSelf reqUnknown = none :=
  ⟨by decide, by decide, by decide, storeSelf_get?_P, rfl, fun fuel => by
    have hreg : handlerSelf.isRegistered reqUnknown.ModelID = true := by decide
    have hctx : reqUnknown.ContextID = "P" := rfl
    have hcm : handlerSelf.contextManager = storeSelf := rfl
    simp [HandleRequest, hreg, resolveContext, hctx, hcm, GetInheritedContext_storeSelf fuel]⟩

/-- C20, as amended, at the handler `handlerPC`: the unknown action `foo` with the
context `P`, whose chain is `P` alone. -/
theorem HandleRequest_unknown_action_witness :
    (handlerPC.isRegistered reqUnknown.ModelID = true ∧
      reqUnknown.Action ≠ "get_part" ∧ reqUnknown.Action ≠ "create_order" ∧
      (reqUnknown.ContextID = "" ∨
        ParentChain handlerPC.contextManager reqUnknown.ContextID [ctxP])) ∧
    ∃ d : Dispatched Int,
      (∀ fuel, [ctxP].length < fuel → HandleRequest fuel handlerPC reqUnknown = some d) ∧
      d.err = none ∧
      d.resp = some { Success := false, Data := none,
                      Error := "unknown action: " ++ reqUnknown.Action } ∧
      (∀ c ∈ d.calls, c = Call.GetInheritedContext reqUnknown.ContextID) ∧
      d.contextManager = handlerPC.contextManager :=
  ⟨⟨by decide, by decide, by decide, Or.inr storePC_chain_P⟩,
    HandleRequest_unknown_action handlerPC reqUnknown [ctxP] (by decide) (by decide)
      (by decide) (Or.inr storePC_chain_P)⟩

/-! ## Persistence -/

/-- After the loop `for k, v := range src { result[k] = v }` a key is present when it
is a key of `src` or was present before. -/
theorem copyAll_isSome {β : Type} (k : String) :
    ∀ (src : List (String × β)) (result : GoMap β),
      ((copyAll src result).get? k).isSome = true ↔
        k ∈ keysL src ∨ (result.get? k).isSome = true
  | [], result => by simp [copyAll, keysL]
  | (k', v') :: t, result => by
    have ih := copyAll_isSome k t (result.set k' v')
    simp only [copyAll] at ih
    simp only [copyAll, List.foldl_cons, ih, keysL, List.map_cons, List.mem_cons]
    by_cases hk : k = k'
    · subst hk
      simp [GoMap.get?_set_self]
    · rw [GoMap.get?_set_ne _ _ _ _ hk]
      simp [hk, or_comm]

theorem copyAll_get?_of_not_mem {β : Type} (k : String) :
    ∀ (src : List (String × β)) (result : GoMap β), k ∉ keysL src →
      (copyAll src result).get? k = result.get? k
  | [], _, _ => rfl
  | (k', v') :: t, result, h => by
    simp only [keysL, List.map_cons, List.mem_cons, not_or] at h
    have ih := copyAll_get?_of_not_mem k t (result.set k' v') h.2
    simp only [copyAll] at ih
    simp only [copyAll, List.foldl_cons, ih]
    exact GoMap.get?_set_ne _ _ _ _ h.1

theorem lookupL_map_value {β γ : Type} (g : β → γ) (k : String) :
    ∀ l : List (String × β),
      lookupL k (l.map (fun e => (e.1, g e.2))) = (lookupL k l).map g
  | [] => rfl
  | (k', v) :: t => by
    by_cases hk : k' = k
    · simp [lookupL, hk]
    · simp [lookupL, hk, lookupL_map_value g k t]

theorem keysL_map_value {β γ : Type} (g : β → γ) (l : List (String × β)) :
    keysL (l.map (fun e => (e.1, g e.2))) = keysL l := by
  simp [keysL, List.map_map, Function.comp_def]

/-- The pointer the table of a store holds under an id. -/
theorem pointers_get? {V : Type} (cm : ContextManager V) (id : String) :
    cm.pointers.get? id = (cm.contexts.get? id).map some :=
  lookupL_map_value some id cm.contexts.entries

/-- When decoding was not stopped, every member of the object was stored. -/
theorem keysL_unmarshalEntries {V : Type} (codec : Codec V) :
    ∀ (kvs : List (String × Json)) (e : Bool),
      (unmarshalEntries codec kvs).2 = some e →
      keysL (unmarshalEntries codec kvs).1 = keysL kvs
  | [], _, _ => rfl
  | (k, j) :: t, e, h => by
    simp only [unmarshalEntries] at h ⊢
    cases h1 : unmarshalEntry codec j with
    | none => simp [h1] at h
    | some ce =>
      simp only [h1, Option.map_eq_some'] at h ⊢
      obtain ⟨e2, he2, -⟩ := h
      have ih := keysL_unmarshalEntries codec t e2 he2
      simp only [keysL] at ih
      simp [keysL, ih]

/-- Only members of the object are stored. -/
theorem mem_keysL_unmarshalEntries {V : Type} (codec : Codec V) (id : String) :
    ∀ kvs : List (String × Json),
      id ∈ keysL (unmarshalEntries codec kvs).1 → id ∈ keysL kvs
  | [], h => by simp [unmarshalEntries, keysL] at h
  | (k, j) :: t, h => by
    simp only [unmarshalEntries] at h
    cases h1 : unmarshalEntry codec j with
    | none => simp [h1, keysL] at h
    | some ce =>
      simp only [h1, keysL, List.map_cons, List.mem_cons] at h
      rcases h with h | h
      · simp [keysL, h]
      · have ih := mem_keysL_unmarshalEntries codec id t h
        simp only [keysL] at ih
        simp [keysL, ih]

/-- When decoding was stopped, it was stopped in some member, and what was stored is
what decoding the members before that one stores. -/
theorem unmarshalEntries_stopped {V : Type} (codec : Codec V) :
    ∀ kvs : List (String × Json), (unmarshalEntries codec kvs).2 = none →
      ∃ before k j after, kvs = before ++ (k, j) :: after ∧
        unmarshalEntry codec j = none ∧
        (unmarshalEntries codec before).1 = (unmarshalEntries codec kvs).1 ∧
        (unmarshalEntries codec before).2 ≠ none
  | [], h => by simp [unmarshalEntries] at h
  | (k, j) :: t, h => by
    cases h1 : unmarshalEntry codec j with
    | none =>
      refine ⟨[], k, j, t, rfl, h1, ?_, ?_⟩
      · simp [unmarshalEntries, h1]
      · simp [unmarshalEntries]
    | some ce =>
      simp only [unmarshalEntries, h1, Option.map_eq_none'] at h
      obtain ⟨before, k2, j2, after, hk, hj, h3, h4⟩ := unmarshalEntries_stopped codec t h
      refine ⟨(k, j) :: before, k2, j2, after, by simp [hk], hj, ?_, ?_⟩
      · simp [unmarshalEntries, h1, h3]
      · simp only [unmarshalEntries, h1, ne_eq, Option.map_eq_none']
        exact h4

/-- What decoding an object into the table leaves: a table that is not nil, in which
the ids that are not keys of the object have the pointers they had. -/
theorem unmarshalTable_obj {V : Type} (codec : Codec V) (cm : ContextManager V)
    (kvs : List (String × Json)) :
    (unmarshalTable codec cm (Json.obj kvs)).contexts =
      some (copyAll (unmarshalEntries codec kvs).1 cm.pointers) ∧
    ∀ id, id ∉ keysL kvs →
      (copyAll (unmarshalEntries codec kvs).1 cm.pointers).get? id =
        (cm.contexts.get? id).map some := by
  refine ⟨rfl, fun id hid => ?_⟩
  rw [copyAll_get?_of_not_mem id _ _ (fun h => hid (mem_keysL_unmarshalEntries codec id kvs h)),
    pointers_get?]

/-- C16, as amended: when the file cannot be read, is not well-formed JSON, or holds
a JSON value that is neither an object nor `null`, `LoadContexts` returns an error
and leaves the table as it was. When the file holds an object, the table is written
to member by member and an error does not undo it: the ids that are not keys of the
object keep their contexts; the error returned, if any, is a type error or the error
of a time that cannot be read; with a type error every key of the object is in the
table; with the error of a time, the table is the one that loading the members before
the failing member leaves, and loading these alone returns no such error. -/
theorem LoadContexts_error_cases {V : Type} (codec : Codec V) (cm : ContextManager V) :
    LoadContexts codec cm none =
      { err := some Failure.readFile, contexts := some cm.pointers } ∧
    LoadContexts codec cm (some FileData.malformed) =
      { err := some Failure.invalidJson, contexts := some cm.pointers } ∧
    (∀ j, j ≠ Json.null → (∀ kvs, j ≠ Json.obj kvs) →
      LoadContexts codec cm (some (FileData.document j)) =
        { err := some Failure.typeMismatch, contexts := some cm.pointers }) ∧
    (∀ kvs, ∃ m,
      (LoadContexts codec cm (some (FileData.document (Json.obj kvs)))).contexts = some m ∧
      (∀ id, id ∉ keysL kvs → m.get? id = (cm.contexts.get? id).map some) ∧
      ((LoadContexts codec cm (some (FileData.document (Json.obj kvs)))).err = none ∨
        (LoadContexts codec cm (some (FileData.document (Json.obj kvs)))).err =
          some Failure.typeMismatch ∨
        (LoadContexts codec cm (some (FileData.document (Json.obj kvs)))).err =
          some Failure.timeFormat) ∧
      ((LoadContexts codec cm (some (FileData.document (Json.obj kvs)))).err =
          some Failure.typeMismatch →
        ∀ id, id ∈ keysL kvs → (m.get? id).isSome = true) ∧
      ((LoadContexts codec cm (some (FileData.document (Json.obj kvs)))).err =
          some Failure.timeFormat →
        ∃ before k j after, kvs = before ++ (k, j) :: after ∧
          unmarshalEntry codec j = none ∧
          (LoadContexts codec cm (some (FileData.document (Json.obj before)))).contexts =
            some m ∧
          (LoadContexts codec cm (some (FileData.document (Json.obj before)))).err ≠
            some Failure.timeFormat)) := by
  refine ⟨rfl, rfl, ?_, ?_⟩
  · intro j hn ho
    cases j with
    | null => exact absurd rfl hn
    | obj kvs => exact absurd rfl (ho kvs)
    | bool b => rfl
    | num s d e => rfl
    | bigNum => rfl
    | str s => rfl
    | arr xs => rfl
  · intro kvs
    refine ⟨copyAll (unmarshalEntries codec kvs).1 cm.pointers, rfl,
      (unmarshalTable_obj codec cm kvs).2, ?_, ?_, ?_⟩
    · simp only [LoadContexts, unmarshalTable]
      cases (unmarshalEntries codec kvs).2 with
      | none => simp
      | some e => cases e <;> simp
    · intro herr id hid
      simp only [LoadContexts, unmarshalTable] at herr
      cases h2 : (unmarshalEntries codec kvs).2 with
      | none => simp [h2] at herr
      | some e =>
        rw [copyAll_isSome, keysL_unmarshalEntries codec kvs e h2]
        exact Or.inl hid
    · intro herr
      simp only [LoadContexts, unmarshalTable] at herr
      cases h2 : (unmarshalEntries codec kvs).2 with
      | some e => cases e <;> simp [h2] at herr
      | none =>
        obtain ⟨before, k, j, after, hk, hj, h3, h4⟩ := unmarshalEntries_stopped codec kvs h2
        refine ⟨before, k, j, after, hk, hj, ?_, ?_⟩
        · simp only [LoadContexts, unmarshalTable, h3]
        · simp only [LoadContexts, unmarshalTable]
          cases h5 : (unmarshalEntries codec before).2 with
          | none => exact absurd h5 h4
          | some e => cases e <;> simp

/-- C17, as amended: `LoadContexts` merges the file into the table. When it returns
no error, either the file holds `null` and the table is left nil, or the file holds
an object, and afterwards the keys of the table are the ids held before together with
the keys of the object; an id that is not a key of the object still has its context,
unchanged. -/
theorem LoadContexts_merges {V : Type} (codec : Codec V) (cm : ContextManager V)
    (file : Option FileData) (h : (LoadContexts codec cm file).err = none) :
    (file = some (FileData.document Json.null) ∧
      (LoadContexts codec cm file).contexts = none) ∨
    ∃ kvs m, file = some (FileData.document (Json.obj kvs)) ∧
      (LoadContexts codec cm file).contexts = some m ∧
      (∀ id, (m.get? id).isSome = true ↔
        (cm.contexts.get? id).isSome = true ∨ id ∈ keysL kvs) ∧
      (∀ id, id ∉ keysL kvs → m.get? id = (cm.contexts.get? id).map some) := by
  cases file with
  | none => simp [LoadContexts] at h
  | some fd =>
    cases fd with
    | malformed => simp [LoadContexts] at h
    | document j =>
      cases j with
      | null => exact Or.inl ⟨rfl, rfl⟩
      | bool b => simp [LoadContexts, unmarshalTable] at h
      | num s d e => simp [LoadContexts, unmarshalTable] at h
      | bigNum => simp [LoadContexts, unmarshalTable] at h
      | str s => simp [LoadContexts, unmarshalTable] at h
      | arr xs => simp [LoadContexts, unmarshalTable] at h
      | obj kvs =>
        refine Or.inr ⟨kvs, copyAll (unmarshalEntries codec kvs).1 cm.pointers, rfl, rfl,
          fun id => ?_, (unmarshalTable_obj codec cm kvs).2⟩
        simp only [LoadContexts, unmarshalTable] at h
        cases h2 : (unmarshalEntries codec kvs).2 with
        | none => simp [h2] at h
        | some e =>
          rw [copyAll_isSome, keysL_unmarshalEntries codec kvs e h2, pointers_get?, or_comm]
          simp

/-! ### The round trip -/

theorem sortByKey_perm {β : Type} (l : List (String × β)) : (sortByKey l).Perm l :=
  List.perm_insertionSort _ l

theorem keysL_perm {β : Type} {l1 l2 : List (String × β)} (h : l1.Perm l2) :
    (keysL l1).Perm (keysL l2) :=
  h.map Prod.fst

theorem nodup_keysL_sortByKey {β : Type} (l : List (String × β)) (h : (keysL l).Nodup) :
    (keysL (sortByKey l)).Nodup :=
  (keysL_perm (sortByKey_perm l)).nodup_iff.mpr h

theorem lookupL_perm {β : Type} {l1 l2 : List (String × β)} (h : l1.Perm l2)
    (hn : (keysL l1).Nodup) (k : String) : lookupL k l1 = lookupL k l2 := by
  have hn2 : (keysL l2).Nodup := (keysL_perm h).nodup_iff.mp hn
  cases h1 : lookupL k l1 with
  | none =>
    have hk : k ∉ keysL l1 := (lookupL_eq_none_iff k l1).mp h1
    have hk2 : k ∉ keysL l2 := fun hm => hk ((keysL_perm h).mem_iff.mpr hm)
    exact ((lookupL_eq_none_iff k l2).mpr hk2).symm
  | some v =>
    have hm := mem_of_lookupL k v l1 h1
    exact (lookupL_of_mem k v l2 hn2 (h.mem_iff.mp hm)).symm

theorem lookupL_sortByKey {β : Type} (l : List (String × β)) (h : (keysL l).Nodup)
    (k : String) : lookupL k (sortByKey l) = lookupL k l :=
  lookupL_perm (sortByKey_perm l) (nodup_keysL_sortByKey l h) k

theorem keysL_mapValues? {β γ : Type} (f : β → Option γ) :
    ∀ (l : List (String × β)) (r : List (String × γ)),
      mapValues? f l = some r → keysL r = keysL l
  | [], r, h => by
    simp only [mapValues?, Option.some.injEq] at h
    rw [← h]
    rfl
  | (k, v) :: t, r, h => by
    simp only [mapValues?] at h
    cases h1 : f v with
    | none => simp [h1] at h
    | some j =>
      cases h2 : mapValues? f t with
      | none => simp [h1, h2] at h
      | some r2 =>
        simp only [h1, h2, Option.some.injEq] at h
        rw [← h]
        have ih := keysL_mapValues? f t r2 h2
        simp only [keysL] at ih
        simp [keysL, ih]

theorem lookupL_mapValues? {β γ : Type} (f : β → Option γ) (k : String) :
    ∀ (l : List (String × β)) (r : List (String × γ)),
      mapValues? f l = some r → lookupL k r = (lookupL k l).bind f
  | [], r, h => by
    simp only [mapValues?, Option.some.injEq] at h
    rw [← h]
    rfl
  | (k', v) :: t, r, h => by
    simp only [mapValues?] at h
    cases h1 : f v with
    | none => simp [h1] at h
    | some j =>
      cases h2 : mapValues? f t with
      | none => simp [h1, h2] at h
      | some r2 =>
        simp only [h1, h2, Option.some.injEq] at h
        rw [← h]
        by_cases hk : k' = k
        · simp [lookupL, hk, h1]
        · simp [lookupL, hk, lookupL_mapValues? f k t r2 h2]

/-- Every pair that `mapValues?` produces comes from a pair of the list. -/
theorem mem_mapValues? {β γ : Type} (f : β → Option γ) :
    ∀ (l : List (String × β)) (r : List (String × γ)),
      mapValues? f l = some r → ∀ k j, (k, j) ∈ r → ∃ v, (k, v) ∈ l ∧ f v = some j
  | [], r, h, k, j, hm => by
    simp only [mapValues?, Option.some.injEq] at h
    rw [← h] at hm
    cases hm
  | (k', v) :: t, r, h, k, j, hm => by
    simp only [mapValues?] at h
    cases h1 : f v with
    | none => simp [h1] at h
    | some j1 =>
      cases h2 : mapValues? f t with
      | none => simp [h1, h2] at h
      | some r2 =>
        simp only [h1, h2, Option.some.injEq] at h
        rw [← h] at hm
        rcases List.mem_cons.mp hm with e | hm2
        · simp only [Prod.mk.injEq] at e
          exact ⟨v, by simp [e.1], by rw [h1, e.2]⟩
        · obtain ⟨v2, hv2, hf⟩ := mem_mapValues? f t r2 h2 k j hm2
          exact ⟨v2, List.mem_cons_of_mem _ hv2, hf⟩

theorem intoElements_map_str :
    ∀ (ids slots : List String), intoElements (ids.map Json.str) slots = (ids, false)
  | [], _ => rfl
  | s :: t, slots => by
    simp [intoElements, intoString, intoElements_map_str t slots.tail]

theorem get?_copyAll_empty {β : Type} (src : List (String × β)) (h : (keysL src).Nodup)
    (k : String) : (copyAll src GoMap.empty).get? k = lookupL k src := by
  rw [get?_copyAll k src GoMap.empty h]
  simp [GoMap.get?_empty]

theorem intoData_marshalData {V : Type} (codec : Codec V) (c : Context V)
    (d : Option (GoMap V)) (j : Json) (hm : marshalData codec d = some j)
    (hV : ∀ k v jv, index? d k = some v → codec.marshalValue v = some jv →
      codec.unmarshalValue jv = (v, false))
    (hc : c.Data = none) :
    ∃ d', intoData codec c j = FieldResult.done { c with Data := d' } ∧ sameMap d' d := by
  cases d with
  | none =>
    simp only [marshalData, Option.some.injEq] at hm
    subst hm
    exact ⟨none, rfl, Iff.rfl, fun k => rfl⟩
  | some m =>
    simp only [marshalData, Option.map_eq_some'] at hm
    obtain ⟨kvs, hkvs, rfl⟩ := hm
    have hback : ∀ k jv, (k, jv) ∈ kvs → ∃ v, lookupL k m.entries = some v ∧
        codec.unmarshalValue jv = (v, false) := by
      intro k jv hmem
      obtain ⟨v, hv, hf⟩ := mem_mapValues? _ _ _ hkvs k jv hmem
      have hv2 : (k, v) ∈ m.entries := (sortByKey_perm m.entries).mem_iff.mp hv
      have hl := lookupL_of_mem k v _ m.nodup hv2
      exact ⟨v, hl, hV k v jv (by simp [index?, GoMap.get?, hl]) hf⟩
    have hany : kvs.any (fun e => (codec.unmarshalValue e.2).2) = false := by
      rw [List.any_eq_false]
      intro e he
      obtain ⟨v, -, hv⟩ := hback e.1 e.2 he
      simp [hv]
    refine ⟨_, by simp only [intoData, hany]; rfl, by simp, ?_⟩
    intro k
    have hkeys : keysL kvs = keysL (sortByKey m.entries) :=
      keysL_mapValues? _ _ _ hkvs
    have hnd : (keysL (kvs.map (fun e => (e.1, (codec.unmarshalValue e.2).1)))).Nodup := by
      rw [keysL_map_value (fun j => (codec.unmarshalValue j).1) kvs, hkeys]
      exact nodup_keysL_sortByKey m.entries m.nodup
    simp only [index?, hc, mapOrNew]
    rw [get?_copyAll_empty _ hnd k,
      lookupL_map_value (fun j => (codec.unmarshalValue j).1) k kvs]
    cases hl : lookupL k kvs with
    | none =>
      have h1 : k ∉ keysL kvs := (lookupL_eq_none_iff k kvs).mp hl
      rw [hkeys] at h1
      have h2 : k ∉ keysL m.entries :=
        fun hm => h1 ((keysL_perm (sortByKey_perm m.entries)).mem_iff.mpr hm)
      simp [GoMap.get?, (lookupL_eq_none_iff k m.entries).mpr h2]
    | some jv =>
      obtain ⟨v, hv, hb⟩ := hback k jv (mem_of_lookupL k jv kvs hl)
      simp [GoMap.get?, hv, hb]

theorem intoMetadata_marshalMetadata {V : Type} (c : Context V)
    (md : Option (GoMap String)) (hc : c.Metadata = none) :
    ∃ md', intoMetadata c (marshalMetadata md) =
        FieldResult.done { c with Metadata := md' } ∧
      sameMap md' md := by
  cases md with
  | none => exact ⟨none, rfl, Iff.rfl, fun k => rfl⟩
  | some m =>
    have hany : ((sortByKey m.entries).map (fun e => (e.1, Json.str e.2))).any
        (fun e => (intoString "" e.2).2) = false := by
      rw [List.any_eq_false]
      intro e he
      obtain ⟨a, -, rfl⟩ := List.mem_map.mp he
      simp [intoString]
    have hmap : ((sortByKey m.entries).map (fun e => (e.1, Json.str e.2))).map
        (fun e => (e.1, (intoString "" e.2).1)) = sortByKey m.entries := by
      simp [List.map_map, Function.comp_def, intoString]
    refine ⟨some (copyAll (sortByKey m.entries) (mapOrNew c.Metadata)), ?_, by simp, ?_⟩
    · simp only [intoMetadata, marshalMetadata, hany, hmap]
      rfl
    · intro k
      simp only [index?, hc, mapOrNew]
      rw [get?_copyAll_empty _ (nodup_keysL_sortByKey m.entries m.nodup) k,
        lookupL_sortByKey m.entries m.nodup k]
      rfl

theorem unmarshalFields_append {V : Type} (codec : Codec V) :
    ∀ (l1 l2 : List (String × Json)) (d : Decoding V) (e : Bool),
      unmarshalFields codec (l1 ++ l2) d e =
        (unmarshalFields codec l1 d e).bind (fun r => unmarshalFields codec l2 r.1 r.2)
  | [], l2, d, e => rfl
  | (key, j) :: t, l2, d, e => by
    simp only [List.cons_append, unmarshalFields]
    cases unmarshalField codec d key j with
    | done d1 => exact unmarshalFields_append codec t l2 d1 e
    | mismatch d1 => exact unmarshalFields_append codec t l2 d1 true
    | abort => rfl

theorem marshalExpiresAt_some {V : Type} (codec : Codec V) (t : Time)
    (ex : List (String × Json)) (h : marshalExpiresAt codec (some t) = some ex) :
    ∃ s, codec.marshalTime t = some s ∧ ex = [("expires_at", Json.str s)] := by
  simp only [marshalExpiresAt, Option.map_eq_some'] at h
  obtain ⟨s, hs, rfl⟩ := h
  exact ⟨s, hs, rfl⟩

theorem unmarshalFields_expires {V : Type} (codec : Codec V) (c : Context V) (e : Bool)
    (x : Option Time) (ex rest : List (String × Json))
    (h : marshalExpiresAt codec x = some ex)
    (hT : ∀ t s, x = some t → codec.marshalTime t = some s →
      ∃ t', codec.unmarshalTime s = some t') :
    ∃ x', unmarshalFields codec (ex ++ rest) { ctx := c, spare := [] } e =
      unmarshalFields codec rest { ctx := { c with ExpiresAt := x' }, spare := [] } e := by
  cases x with
  | none =>
    simp only [marshalExpiresAt, Option.some.injEq] at h
    subst h
    exact ⟨c.ExpiresAt, rfl⟩
  | some t =>
    obtain ⟨s, hs, rfl⟩ := marshalExpiresAt_some codec t ex h
    obtain ⟨t', ht'⟩ := hT t s rfl hs
    refine ⟨some t', ?_⟩
    have e1 : unmarshalField codec { ctx := c, spare := [] } "expires_at" (Json.str s) =
        FieldResult.done { ctx := { c with ExpiresAt := some t' }, spare := [] } := by
      show (intoExpiresAt codec c (Json.str s)).withSpare [] = _
      simp only [intoExpiresAt, ht']
      rfl
    simp only [List.cons_append, List.nil_append, unmarshalFields, e1]
    rfl

theorem unmarshalFields_parent {V : Type} (codec : Codec V) (c : Context V) (e : Bool)
    (p : Option String) (rest : List (String × Json)) (hc : c.ParentID = none) :
    unmarshalFields codec (marshalParentID p ++ rest) { ctx := c, spare := [] } e =
      unmarshalFields codec rest { ctx := { c with ParentID := p }, spare := [] } e := by
  cases p with
  | none =>
    have : ({ c with ParentID := none } : Context V) = c := by
      cases c
      simp only [Context.mk.injEq] at hc ⊢
      simp_all
    rw [this]
    rfl
  | some s =>
    have e1 : unmarshalField codec { ctx := c, spare := [] } "parent_id" (Json.str s) =
        FieldResult.done { ctx := { c with ParentID := some s }, spare := [] } := rfl
    simp only [marshalParentID, List.cons_append, List.nil_append, unmarshalFields, e1]
    rfl

theorem unmarshalFields_children {V : Type} (codec : Codec V) (c : Context V) (e : Bool)
    (ids : List String) (rest : List (String × Json)) (hc : c.ChildrenIDs = []) :
    unmarshalFields codec (marshalChildrenIDs ids ++ rest) { ctx := c, spare := [] } e =
      unmarshalFields codec rest { ctx := { c with ChildrenIDs := ids }, spare := [] } e := by
  by_cases h : ids = []
  · subst h
    have : ({ c with ChildrenIDs := [] } : Context V) = c := by
      cases c
      simp_all
    rw [this]
    simp [marshalChildrenIDs]
  · have hne : (ids.map Json.str).isEmpty = false := by
      cases ids with
      | nil => exact absurd rfl h
      | cons a t => rfl
    have e1 : unmarshalField codec { ctx := c, spare := [] } "children_ids"
        (Json.arr (ids.map Json.str)) =
        FieldResult.done { ctx := { c with ChildrenIDs := ids }, spare := [] } := by
      show intoChildrenIDs { ctx := c, spare := [] } (Json.arr (ids.map Json.str)) = _
      simp only [intoChildrenIDs, intoElements_map_str, hne, hc]
      simp
    simp only [marshalChildrenIDs, h, if_false, List.cons_append, List.nil_append,
      unmarshalFields, e1]

theorem unmarshalFields_cons_done {V : Type} (codec : Codec V) (d d1 : Decoding V)
    (key : String) (j : Json) (t : List (String × Json)) (e : Bool)
    (h : unmarshalField codec d key j = FieldResult.done d1) :
    unmarshalFields codec ((key, j) :: t) d e = unmarshalFields codec t d1 e := by
  simp only [unmarshalFields, h]

/-- Reading back what `Marshal` wrote for one context. -/
theorem unmarshalEntry_marshalContext {V : Type} (codec : Codec V) (c : Context V)
    (j : Json) (hm : marshalContext codec c = some j)
    (hT : ∀ t s, (t = c.CreatedAt ∨ t = c.UpdatedAt ∨ c.ExpiresAt = some t) →
      codec.marshalTime t = some s → ∃ t', codec.unmarshalTime s = some t')
    (hV : ∀ k v jv, index? c.Data k = some v → codec.marshalValue v = some jv →
      codec.unmarshalValue jv = (v, false)) :
    ∃ c', unmarshalEntry codec j = some (some c', false) ∧ sameContent c c' := by
  unfold marshalContext at hm
  cases h1 : marshalData codec c.Data with
  | none => simp [h1] at hm
  | some dj =>
    cases h2 : codec.marshalTime c.CreatedAt with
    | none => simp [h1, h2] at hm
    | some s1 =>
      cases h3 : codec.marshalTime c.UpdatedAt with
      | none => simp [h1, h2, h3] at hm
      | some s2 =>
        cases h4 : marshalExpiresAt codec c.ExpiresAt with
        | none => simp [h1, h2, h3, h4] at hm
        | some ex =>
          simp only [h1, h2, h3, h4, Option.some.injEq] at hm
          subst hm
          obtain ⟨t1, ht1⟩ := hT _ _ (Or.inl rfl) h2
          obtain ⟨t2, ht2⟩ := hT _ _ (Or.inr (Or.inl rfl)) h3
          let zt := codec.zeroTime
          let c1 : Context V := ⟨c.ID, none, none, zt, zt, none, none, [], ""⟩
          obtain ⟨d', hd, hsd⟩ := intoData_marshalData codec c1 c.Data dj h1 hV rfl
          let c2 : Context V := ⟨c.ID, d', none, zt, zt, none, none, [], ""⟩
          obtain ⟨md', hmd, hsm⟩ := intoMetadata_marshalMetadata c2 c.Metadata rfl
          let c3 : Context V := ⟨c.ID, d', md', zt, zt, none, none, [], ""⟩
          let c4 : Context V := ⟨c.ID, d', md', t1, zt, none, none, [], ""⟩
          let c5 : Context V := ⟨c.ID, d', md', t1, t2, none, none, [], ""⟩
          let tail1 := marshalParentID c.ParentID ++
            (marshalChildrenIDs c.ChildrenIDs ++ [("source", Json.str c.Source)])
          obtain ⟨x', hx⟩ := unmarshalFields_expires codec c5 false c.ExpiresAt ex tail1 h4
            (fun t s ht hs => hT t s (Or.inr (Or.inr ht)) hs)
          let c6 : Context V := ⟨c.ID, d', md', t1, t2, x', none, [], ""⟩
          let c7 : Context V := ⟨c.ID, d', md', t1, t2, x', c.ParentID, [], ""⟩
          let c8 : Context V := ⟨c.ID, d', md', t1, t2, x', c.ParentID, c.ChildrenIDs, ""⟩
          let c9 : Context V :=
            ⟨c.ID, d', md', t1, t2, x', c.ParentID, c.ChildrenIDs, c.Source⟩
          have e1 : unmarshalField codec ⟨zeroContext codec, []⟩ "id" (Json.str c.ID)
              = FieldResult.done ⟨c1, []⟩ := rfl
          have e2 : unmarshalField codec ⟨c1, []⟩ "data" dj = FieldResult.done ⟨c2, []⟩ := by
            show (intoData codec c1 dj).withSpare [] = _
            rw [hd]
            rfl
          have e3 : unmarshalField codec ⟨c2, []⟩ "metadata" (marshalMetadata c.Metadata)
              = FieldResult.done ⟨c3, []⟩ := by
            show (intoMetadata c2 (marshalMetadata c.Metadata)).withSpare [] = _
            rw [hmd]
            rfl
          have e4 : unmarshalField codec ⟨c3, []⟩ "created_at" (Json.str s1)
              = FieldResult.done ⟨c4, []⟩ := by
            show (intoCreatedAt codec c3 (Json.str s1)).withSpare [] = _
            simp only [intoCreatedAt, ht1]
            rfl
          have e5 : unmarshalField codec ⟨c4, []⟩ "updated_at" (Json.str s2)
              = FieldResult.done ⟨c5, []⟩ := by
            show (intoUpdatedAt codec c4 (Json.str s2)).withSpare [] = _
            simp only [intoUpdatedAt, ht2]
            rfl
          have e6 : unmarshalFields codec (ex ++ tail1) ⟨c5, []⟩ false
              = unmarshalFields codec tail1 ⟨c6, []⟩ false := hx
          have e7 : unmarshalFields codec tail1 ⟨c6, []⟩ false
              = unmarshalFields codec
                  (marshalChildrenIDs c.ChildrenIDs ++ [("source", Json.str c.Source)])
                  ⟨c7, []⟩ false :=
            unmarshalFields_parent codec c6 false c.ParentID _ rfl
          have e8 : unmarshalFields codec
                (marshalChildrenIDs c.ChildrenIDs ++ [("source", Json.str c.Source)])
                ⟨c7, []⟩ false
              = unmarshalFields codec [("source", Json.str c.Source)] ⟨c8, []⟩ false :=
            unmarshalFields_children codec c7 false c.ChildrenIDs _ rfl
          have e9 : unmarshalFields codec [("source", Json.str c.Source)] ⟨c8, []⟩ false
              = some (⟨c9, []⟩, false) := rfl
          refine ⟨c9, ?_, rfl, hsd, hsm, rfl, rfl, rfl⟩
          simp only [unmarshalEntry, List.cons_append, List.nil_append, List.append_assoc]
          rw [unmarshalFields_cons_done codec _ ⟨c1, []⟩ _ _ _ _ e1,
            unmarshalFields_cons_done codec _ ⟨c2, []⟩ _ _ _ _ e2,
            unmarshalFields_cons_done codec _ ⟨c3, []⟩ _ _ _ _ e3,
            unmarshalFields_cons_done codec _ ⟨c4, []⟩ _ _ _ _ e4,
            unmarshalFields_cons_done codec _ ⟨c5, []⟩ _ _ _ _ e5,
            e6.trans (e7.trans (e8.trans e9))]
          rfl

theorem unmarshalEntries_marshalContext {V : Type} (codec : Codec V) :
    ∀ (l : List (String × Context V)) (kvs : List (String × Json)),
      mapValues? (marshalContext codec) l = some kvs →
      (∀ k c, (k, c) ∈ l →
        (∀ t s, (t = c.CreatedAt ∨ t = c.UpdatedAt ∨ c.ExpiresAt = some t) →
          codec.marshalTime t = some s → ∃ t', codec.unmarshalTime s = some t') ∧
        ∀ key v jv, index? c.Data key = some v →
          codec.marshalValue v = some jv → codec.unmarshalValue jv = (v, false)) →
      (unmarshalEntries codec kvs).2 = some false ∧
        keysL (unmarshalEntries codec kvs).1 = keysL l ∧
        ∀ k c, lookupL k l = some c →
          ∃ c', lookupL k (unmarshalEntries codec kvs).1 = some (some c') ∧
            sameContent c c'
  | [], kvs, h, _ => by
    simp only [mapValues?, Option.some.injEq] at h
    subst h
    exact ⟨rfl, rfl, fun k c hl => by simp [lookupL] at hl⟩
  | (k0, c0) :: t, kvs, h, hV => by
    simp only [mapValues?] at h
    cases h1 : marshalContext codec c0 with
    | none => simp [h1] at h
    | some j0 =>
      cases h2 : mapValues? (marshalContext codec) t with
      | none => simp [h1, h2] at h
      | some r =>
        simp only [h1, h2, Option.some.injEq] at h
        subst h
        obtain ⟨c0', hc0, hs0⟩ := unmarshalEntry_marshalContext codec c0 j0 h1
          (hV k0 c0 (List.mem_cons_self _ _)).1 (hV k0 c0 (List.mem_cons_self _ _)).2
        obtain ⟨hp, hk, hl⟩ := unmarshalEntries_marshalContext codec t r h2
          (fun k c hm => hV k c (List.mem_cons_of_mem _ hm))
        refine ⟨by simp [unmarshalEntries, hc0, hp], ?_, ?_⟩
        · simp only [keysL] at hk
          simp [unmarshalEntries, hc0, keysL, hk]
        · intro k c hlk
          by_cases hkk : k0 = k
          · simp only [lookupL, hkk, if_true, Option.some.injEq] at hlk
            subst hlk
            exact ⟨c0', by simp [unmarshalEntries, hc0, lookupL, hkk], hs0⟩
          · simp only [lookupL, hkk, if_false] at hlk
            obtain ⟨c', hc', hs'⟩ := hl k c hlk
            exact ⟨c', by simp [unmarshalEntries, hc0, lookupL, hkk, hc'], hs'⟩

/-- C15, as amended: when `SaveContexts` produces a document, every clock reading of
the table can be read again from what was written for it, and every data value of
the table is read back from what `Marshal` wrote for it as the same value, without a
type error, then `LoadContexts` of that document into a new store returns no error
and leaves a table with the same ids, none of them with a nil pointer, in which every
context has the same ID, Data, Metadata, ParentID and ChildrenIDs (and Source), maps
being compared key by key; `SaveContexts` leaves the store as it was.  Strings are
those of `String`: valid UTF-8. -/
theorem SaveContexts_LoadContexts_round_trip {V : Type} (codec : Codec V)
    (cm : ContextManager V) (doc : Json)
    (hsave : (SaveContexts codec cm).1 = Except.ok doc)
    (hT : ∀ id c t s, cm.contexts.get? id = some c →
      (t = c.CreatedAt ∨ t = c.UpdatedAt ∨ c.ExpiresAt = some t) →
      codec.marshalTime t = some s → ∃ t', codec.unmarshalTime s = some t')
    (hV : ∀ id c k v jv, cm.contexts.get? id = some c → index? c.Data k = some v →
      codec.marshalValue v = some jv → codec.unmarshalValue jv = (v, false)) :
    (SaveContexts codec cm).2 = cm ∧
    ∃ m, LoadContexts codec NewContextManager (some (FileData.document doc)) =
        { err := none, contexts := some m } ∧
      (∀ id, m.get? id = none ↔ cm.contexts.get? id = none) ∧
      ∀ id c, cm.contexts.get? id = some c →
        ∃ c', m.get? id = some (some c') ∧ sameContent c c' := by
  refine ⟨rfl, ?_⟩
  simp only [SaveContexts] at hsave
  cases hmv : mapValues? (marshalContext codec) (sortByKey cm.contexts.entries) with
  | none => simp [hmv] at hsave
  | some kvs =>
    simp only [hmv, Except.ok.injEq] at hsave
    subst hsave
    have hnd := nodup_keysL_sortByKey cm.contexts.entries cm.contexts.nodup
    obtain ⟨hp, hk, hl⟩ := unmarshalEntries_marshalContext codec
      (sortByKey cm.contexts.entries) kvs hmv (by
        intro k c hm
        have hm2 : (k, c) ∈ cm.contexts.entries :=
          (sortByKey_perm cm.contexts.entries).mem_iff.mp hm
        have hg : cm.contexts.get? k = some c := lookupL_of_mem k c _ cm.contexts.nodup hm2
        exact ⟨fun t s ht hs => hT k c t s hg ht hs,
          fun key v jv hi hmar => hV k c key v jv hg hi hmar⟩)
    have hndp : (keysL (unmarshalEntries codec kvs).1).Nodup := by rw [hk]; exact hnd
    have hempty : (NewContextManager : ContextManager V).pointers = GoMap.empty := rfl
    refine ⟨copyAll (unmarshalEntries codec kvs).1 GoMap.empty, ?_, ?_, ?_⟩
    · simp only [LoadContexts, unmarshalTable, hp, hempty]
    · intro id
      rw [get?_copyAll_empty _ hndp id, lookupL_eq_none_iff, hk, GoMap.get?_eq_none_iff]
      exact not_congr (keysL_perm (sortByKey_perm cm.contexts.entries)).mem_iff
    · intro id c hc
      have hc2 : lookupL id (sortByKey cm.contexts.entries) = some c := by
        rw [lookupL_sortByKey cm.contexts.entries cm.contexts.nodup id]
        exact hc
      obtain ⟨c', hc', hs⟩ := hl id c hc2
      exact ⟨c', by rw [get?_copyAll_empty _ hndp id]; exact hc', hs⟩

/-! ### Persistence at concrete stores -/

theorem storeAB_get?_A : storeAB.contexts.get? "A" = some ctxA := by decide

theorem storeAB_get?_B : storeAB.contexts.get? "B" = some ctxB := by decide

/-- The contexts of `storeAB`. -/
theorem storeAB_cases (id : String) (c : Context GoValue)
    (h : storeAB.contexts.get? id = some c) : c = ctxA ∨ c = ctxB := by
  have hm := mem_of_lookupL id c storeAB.contexts.entries h
  have he : storeAB.contexts.entries = [("A", ctxA), ("B", ctxB)] := by decide
  rw [he] at hm
  simp only [List.mem_cons, Prod.mk.injEq, List.mem_singleton, List.not_mem_nil,
    or_false] at hm
  rcases hm with h1 | h1
  · exact Or.inl h1.2
  · exact Or.inr h1.2

/-- C15, as stated, fails at `storeInt`, whose context `X` holds the Go `int` 1:
`SaveContexts` writes the number 1, which `LoadContexts` reads as a `float64`, so the
data of `X` in the new store is not the data it had. -/
theorem SaveContexts_LoadContexts_int_to_float64 :
    (SaveContexts goCodec storeInt).1 = Except.ok docInt ∧
    LoadContexts goCodec NewContextManager (some (FileData.document docInt)) =
      { err := none, contexts := some (GoMap.ofList [("X", some ctxIntLoaded)]) } ∧
    storeInt.contexts.get? "X" = some ctxInt ∧
    (GoMap.ofList [("X", some ctxIntLoaded)]).get? "X" = some (some ctxIntLoaded) ∧
    index? ctxInt.Data "n" = some (GoValue.int 1) ∧
    index? ctxIntLoaded.Data "n" = some (GoValue.read (Json.num false 1 0)) ∧
    ¬ sameContent ctxInt ctxIntLoaded :=
  ⟨by rfl, by rfl, by decide, by decide, by decide, by decide, fun h => by
    have h1 := h.2.1.2 "n"
    have h2 : index? ctxIntLoaded.Data "n" = some (GoValue.read (Json.num false 1 0)) := by decide
    have h3 : index? ctxInt.Data "n" = some (GoValue.int 1) := by decide
    rw [h2, h3] at h1
    exact absurd h1 (by decide)⟩

/-- C15, as amended, at `storeAB`, whose data are the `float64`s 1 and -5. -/
theorem SaveContexts_LoadContexts_round_trip_witness :
    ((SaveContexts goCodec storeAB).1 = Except.ok docAB ∧
      (∀ id c t s, storeAB.contexts.get? id = some c →
        (t = c.CreatedAt ∨ t = c.UpdatedAt ∨ c.ExpiresAt = some t) →
        goCodec.marshalTime t = some s → ∃ t', goCodec.unmarshalTime s = some t') ∧
      (∀ id c k v jv, storeAB.contexts.get? id = some c → index? c.Data k = some v →
        goCodec.marshalValue v = some jv → goCodec.unmarshalValue jv = (v, false))) ∧
    ((SaveContexts goCodec storeAB).2 = storeAB ∧
      ∃ m, LoadContexts goCodec NewContextManager (some (FileData.document docAB)) =
          { err := none, contexts := some m } ∧
        (∀ id, m.get? id = none ↔ storeAB.contexts.get? id = none) ∧
        ∀ id c, storeAB.contexts.get? id = some c →
          ∃ c', m.get? id = some (some c') ∧ sameContent c c') :=
  have hT : ∀ id c t s, storeAB.contexts.get? id = some c →
      (t = c.CreatedAt ∨ t = c.UpdatedAt ∨ c.ExpiresAt = some t) →
      goCodec.marshalTime t = some s → ∃ t', goCodec.unmarshalTime s = some t' := by
    intro id c t s hc ht hs
    have hs2 : s = toString t := by
      simp only [goCodec, Option.some.injEq] at hs
      exact hs.symm
    rcases storeAB_cases id c hc with rfl | rfl
    · have h10 : t = 10 := by
        rcases ht with h | h | h
        · exact h
        · exact h
        · cases h
      subst h10
      subst hs2
      exact ⟨10, by decide⟩
    · have h11 : t = 11 := by
        rcases ht with h | h | h
        · exact h
        · exact h
        · cases h
      subst h11
      subst hs2
      exact ⟨11, by decide⟩
  have hV : ∀ id c k v jv, storeAB.contexts.get? id = some c → index? c.Data k = some v →
      goCodec.marshalValue v = some jv → goCodec.unmarshalValue jv = (v, false) := by
    intro id c k v jv hc hi hm
    rcases storeAB_cases id c hc with rfl | rfl
    · have hmem := mem_of_lookupL k v _ hi
      have he : (GoMap.ofList
        [("n", GoValue.read (Json.num false 1 0)),
         ("m", GoValue.read (Json.num true 5 0))]).entries
          =
            [("n", GoValue.read (Json.num false 1 0)),
             ("m", GoValue.read (Json.num true 5 0))] := by decide
      rw [he] at hmem
      simp only [List.mem_cons, Prod.mk.injEq, List.mem_singleton, List.not_mem_nil,
        or_false] at hmem
      rcases hmem with h1 | h1
      · obtain ⟨-, rfl⟩ := h1
        simp only [goCodec, Option.some.injEq] at hm
        subst hm
        decide
      · obtain ⟨-, rfl⟩ := h1
        simp only [goCodec, Option.some.injEq] at hm
        subst hm
        decide
    · cases hi
  ⟨⟨by rfl, hT, hV⟩,
    SaveContexts_LoadContexts_round_trip goCodec storeAB docAB (by rfl) hT hV⟩

/-- C16, as stated, fails at `storeAB` and the file `{"X": {"id": 5, "source":
"web"}}`, however data values and times are written and read: `LoadContexts` returns
a type error, and the table now holds a context at `X`, which it did not hold
before. -/
theorem LoadContexts_error_after_store :
    storeAB.contexts.get? "X" = none ∧
    ∀ codec : Codec GoValue,
      (LoadContexts codec storeAB (some (FileData.document docBadID))).err =
        some Failure.typeMismatch ∧
      ∃ m, (LoadContexts codec storeAB (some (FileData.document docBadID))).contexts =
          some m ∧
        m.get? "X" = some (some { zeroContext codec with Source := "web" }) ∧
        m ≠ storeAB.pointers :=
  ⟨by decide, fun codec =>
    ⟨rfl,
      GoMap.ofList [("A", some ctxA), ("B", some ctxB),
        ("X", some { zeroContext codec with Source := "web" })],
      rfl, rfl, fun h => by
        have h1 : (GoMap.ofList [("A", some ctxA), ("B", some ctxB),
            ("X", some { zeroContext codec with Source := "web" })]).get? "X" =
            some (some { zeroContext codec with Source := "web" }) := rfl
        have h0 : storeAB.pointers.get? "X" = none := by decide
        rw [h, h0] at h1
        cases h1⟩⟩

/-- C16, as amended, at `storeAB` and the document `docBadTime`: the time of the
member `Y` cannot be read, so the call returns that error with `X` stored and `Y` and
`Z` not, as after loading `{"X": {"id": "X"}}`; `A` is unchanged. -/
theorem LoadContexts_error_cases_witness :
    (LoadContexts goCodec storeAB (some (FileData.document docBadTime))).err =
      some Failure.timeFormat ∧
    (LoadContexts goCodec storeAB (some (FileData.document docBadTime))).contexts =
      some (GoMap.ofList [("A", some ctxA), ("B", some ctxB),
        ("X", some { zeroContext goCodec with ID := "X" })]) ∧
    ∃ m, (LoadContexts goCodec storeAB (some (FileData.document docBadTime))).contexts =
        some m ∧
      (∀ id, id ∉ ["X", "Y", "Z"] → m.get? id = (storeAB.contexts.get? id).map some) ∧
      ∃ before k j after,
        [("X", Json.obj [("id", Json.str "X")]),
          ("Y", Json.obj [("created_at", Json.str "soon")]), ("Z", Json.obj [])] =
          before ++ (k, j) :: after ∧
        unmarshalEntry goCodec j = none ∧
        (LoadContexts goCodec storeAB (some (FileData.document (Json.obj before)))).contexts =
          some m ∧
        (LoadContexts goCodec storeAB (some (FileData.document (Json.obj before)))).err ≠
          some Failure.timeFormat :=
  ⟨by rfl, by rfl,
    match (LoadContexts_error_cases goCodec storeAB).2.2.2
      [("X", Json.obj [("id", Json.str "X")]),
        ("Y", Json.obj [("created_at", Json.str "soon")]), ("Z", Json.obj [])] with
    | ⟨m, h1, h2, _, _, h5⟩ => ⟨m, h1, h2, h5 (by rfl)⟩⟩

/-- C17, as stated, fails at `storeAB` and the file `{}`, however data values and
times are written and read: `LoadContexts` returns no error, the object has no key,
and `A` and `B` are still in the table. -/
theorem LoadContexts_keeps_old_entries :
    (∀ codec : Codec GoValue,
      LoadContexts codec storeAB (some (FileData.document (Json.obj []))) =
        { err := none, contexts := some storeAB.pointers }) ∧
    "A" ∉ keysL ([] : List (String × Json)) ∧
    storeAB.pointers.get? "A" = some (some ctxA) ∧
    storeAB.pointers.get? "B" = some (some ctxB) :=
  ⟨fun _ => rfl, by decide, by decide, by decide⟩

/-- C17, as amended, at `storeAB`: loading the document `docXN` returns no error and
adds the keys `X` and `N` (the latter with a nil pointer) to `A` and `B`, which keep
their contexts; loading `null` returns no error and leaves the table nil. -/
theorem LoadContexts_merges_witness :
    ((LoadContexts goCodec storeAB (some (FileData.document docXN))).err = none ∧
      (LoadContexts goCodec storeAB (some (FileData.document Json.null))).err = none) ∧
    (LoadContexts goCodec storeAB (some (FileData.document docXN))).contexts =
      some (GoMap.ofList [("A", some ctxA), ("B", some ctxB),
        ("X", some { zeroContext goCodec with ID := "X" }), ("N", none)]) ∧
    ((some (FileData.document docXN) = some (FileData.document Json.null) ∧
        (LoadContexts goCodec storeAB (some (FileData.document docXN))).contexts = none) ∨
      ∃ kvs m, some (FileData.document docXN) = some (FileData.document (Json.obj kvs)) ∧
        (LoadContexts goCodec storeAB (some (FileData.document docXN))).contexts = some m ∧
        (∀ id, (m.get? id).isSome = true ↔
          (storeAB.contexts.get? id).isSome = true ∨ id ∈ keysL kvs) ∧
        (∀ id, id ∉ keysL kvs → m.get? id = (storeAB.contexts.get? id).map some)) ∧
    ((some (FileData.document Json.null) = some (FileData.document Json.null) ∧
        (LoadContexts goCodec storeAB (some (FileData.document Json.null))).contexts =
          none) ∨
      ∃ kvs m, some (FileData.document Json.null) =
          some (FileData.document (Json.obj kvs)) ∧
        (LoadContexts goCodec storeAB (some (FileData.document Json.null))).contexts =
          some m ∧
        (∀ id, (m.get? id).isSome = true ↔
          (storeAB.contexts.get? id).isSome = true ∨ id ∈ keysL kvs) ∧
        (∀ id, id ∉ keysL kvs → m.get? id = (storeAB.contexts.get? id).map some)) :=
  ⟨⟨by rfl, by rfl⟩, by rfl,
    LoadContexts_merges goCodec storeAB (some (FileData.document docXN)) (by rfl),
    LoadContexts_merges goCodec storeAB (some (FileData.document Json.null)) (by rfl)⟩

/-! ## What the writing methods do to each entry -/

theorem assign_get? {V : Type} (cm : ContextManager V) (id y : String)
    (f : Context V → Context V) :
    (cm.assign id f).contexts.get? y =
      if y = id then (cm.contexts.get? y).map f else cm.contexts.get? y := by
  by_cases h : y = id
  · subst h
    cases hc : cm.contexts.get? y with
    | none => simp [ContextManager.assign, hc]
    | some c => simp [assign_get?_self cm y f c hc]
  · simp [h, assign_get?_ne cm id y f h]

/-- The contexts after `SetParentContext` when both ids are in the table: the one at
`childID` has its `ParentID` set, the one at `parentID` has `childID` appended to its
`ChildrenIDs`, and nothing else changes. -/
theorem SetParentContext_get? {V : Type} (cm : ContextManager V)
    (childID parentID : String) (c p : Context V)
    (hc : cm.contexts.get? childID = some c) (hp : cm.contexts.get? parentID = some p)
    (y : String) :
    (cm.contexts.get? y = none →
      (SetParentContext cm childID parentID).2.contexts.get? y = none) ∧
    ∀ x, cm.contexts.get? y = some x →
      ∃ x', (SetParentContext cm childID parentID).2.contexts.get? y = some x' ∧
        x'.ParentID = (if y = childID then some parentID else x.ParentID) ∧
        x'.ChildrenIDs =
          (if y = parentID then x.ChildrenIDs ++ [childID] else x.ChildrenIDs) ∧
        x'.ID = x.ID := by
  rw [SetParentContext_of_get? cm childID parentID c p hc hp]
  simp only [assign_get?]
  by_cases h1 : y = parentID
  · subst h1
    by_cases h2 : y = childID
    · subst h2
      simp [hc]
    · simp [h2, hp]
  · by_cases h2 : y = childID
    · subst h2
      simp [h1, hc]
    · simp only [h1, h2, if_false]
      exact ⟨fun h => h, fun x hx => ⟨x, hx, rfl, rfl, rfl⟩⟩

theorem SetParentContext_fst {V : Type} (cm : ContextManager V)
    (childID parentID : String) (c p : Context V)
    (hc : cm.contexts.get? childID = some c) (hp : cm.contexts.get? parentID = some p) :
    (SetParentContext cm childID parentID).1 = true := by
  rw [SetParentContext_of_get? cm childID parentID c p hc hp]

theorem SetParentContext_of_missing {V : Type} (cm : ContextManager V)
    (childID parentID : String)
    (h : cm.contexts.get? childID = none ∨ cm.contexts.get? parentID = none) :
    SetParentContext cm childID parentID = (false, cm) := by
  unfold SetParentContext
  rcases h with h | h
  · rw [h]
  · rw [h]
    cases cm.contexts.get? childID <;> rfl

theorem UpdateContext_get? {V : Type} (cm : ContextManager V) (now : Time) (X : String)
    (data : Option (GoMap V)) (metadata : Option (GoMap String)) (y : String) :
    ∃ f : Context V → Context V,
      (∀ x, (f x).ParentID = x.ParentID ∧ (f x).ChildrenIDs = x.ChildrenIDs ∧
        (f x).ID = x.ID) ∧
      (UpdateContext cm now X data metadata).2.contexts.get? y =
        (cm.contexts.get? y).map f := by
  cases hX : cm.contexts.get? X with
  | none =>
    refine ⟨id, fun x => ⟨rfl, rfl, rfl⟩, ?_⟩
    simp [UpdateContext, hX]
  | some cx =>
    rw [UpdateContext_of_get? cm now X data metadata cx hX]
    by_cases hy : y = X
    · subst hy
      refine ⟨fun c => { c with
          Data := (match data with | some d => some d | none => c.Data)
          Metadata := (match metadata with | some m => some m | none => c.Metadata)
          UpdatedAt := now }, fun x => ⟨rfl, rfl, rfl⟩, ?_⟩
      rw [GoMap.get?_set_self, hX]
      rfl
    · refine ⟨id, fun x => ⟨rfl, rfl, rfl⟩, ?_⟩
      simp [GoMap.get?_set_ne _ _ _ _ hy]

/-- C23, as amended: for each call of `CreateContext`, `UpdateContext`, `DeleteContext`
or `SetParentContext` and each id that is in the table before and after it, the
`ChildrenIDs` held at the id before the call is a prefix of the one held after it,
unless the call is a `CreateContext` on that very id, which leaves the id with no
`ChildrenIDs`. -/
theorem ChildrenIDs_extended {V : Type} (op : StoreOp V) (cm : ContextManager V)
    (id : String) (c c' : Context V)
    (h1 : cm.contexts.get? id = some c) (h2 : (op.run cm).contexts.get? id = some c') :
    (op.createdID ≠ some id → c.ChildrenIDs <+: c'.ChildrenIDs) ∧
    (op.createdID = some id → c'.ChildrenIDs = []) := by
  cases op with
  | create now X data metadata source =>
    simp only [StoreOp.run, CreateContext] at h2
    simp only [StoreOp.createdID, ne_eq, Option.some.injEq]
    by_cases hX : X = id
    · subst hX
      rw [GoMap.get?_set_self] at h2
      cases h2
      exact ⟨fun h => absurd rfl h, fun _ => rfl⟩
    · rw [GoMap.get?_set_ne _ _ _ _ (fun e => hX e.symm), h1] at h2
      cases h2
      exact ⟨fun _ => List.prefix_refl _, fun h => absurd h hX⟩
  | update now X data metadata =>
    obtain ⟨f, hf, hget⟩ := UpdateContext_get? cm now X data metadata id
    simp only [StoreOp.run] at h2
    rw [hget, h1] at h2
    cases h2
    refine ⟨fun _ => ?_, fun h => by simp [StoreOp.createdID] at h⟩
    rw [(hf c).2.1]
  | delete X =>
    simp only [StoreOp.run] at h2
    refine ⟨fun _ => ?_, fun h => by simp [StoreOp.createdID] at h⟩
    by_cases hX : id = X
    · subst hX
      rw [DeleteContext_of_get? cm id c h1] at h2
      have : (cm.contexts.delete id).get? id = none :=
        lookupL_deleteL_self id cm.contexts.entries
      rw [this] at h2
      cases h2
    · rw [DeleteContext_get?_ne cm X id hX, h1] at h2
      cases h2
      exact List.prefix_refl _
  | link childID parentID =>
    simp only [StoreOp.run] at h2
    refine ⟨fun _ => ?_, fun h => by simp [StoreOp.createdID] at h⟩
    cases hc : cm.contexts.get? childID with
    | none =>
      rw [SetParentContext_of_missing cm childID parentID (Or.inl hc), h1] at h2
      cases h2
      exact List.prefix_refl _
    | some cc =>
      cases hp : cm.contexts.get? parentID with
      | none =>
        rw [SetParentContext_of_missing cm childID parentID (Or.inr hp), h1] at h2
        cases h2
        exact List.prefix_refl _
      | some pp =>
        obtain ⟨x', hx', -, hch, -⟩ :=
          (SetParentContext_get? cm childID parentID cc pp hc hp id).2 c h1
        rw [hx'] at h2
        cases h2
        rw [hch]
        by_cases ha : id = parentID
        · simp [ha]
        · simp [ha]

/-- C29: in every store reached from the new store by `CreateContext` calls on ids
not yet in the table, `UpdateContext` calls and `SetParentContext` calls, a context
with `ParentID` `p` has its parent `p` in the table, and the parent's `ChildrenIDs`
list the child's id (which is also the child's `ID`). -/
theorem Reachable_parentsBacked {V : Type} (cm : ContextManager V) (h : Reachable cm) :
    (∀ id c p, cm.contexts.get? id = some c → c.ParentID = some p →
      ∃ pc, cm.contexts.get? p = some pc ∧ id ∈ pc.ChildrenIDs ∧ c.ID ∈ pc.ChildrenIDs) ∧
    ∀ id c, cm.contexts.get? id = some c → c.ID = id := by
  have key : parentsBacked cm := by
    induction h with
    | new =>
      exact ⟨fun id c p hc => by simp [NewContextManager, GoMap.get?_empty] at hc,
        fun id c hc => by simp [NewContextManager, GoMap.get?_empty] at hc⟩
    | create cm now X data metadata source _ hfresh ih =>
      obtain ⟨ih1, ih2⟩ := ih
      have hget : ∀ y, y ≠ X →
          (CreateContext cm now X data metadata source).2.contexts.get? y
            = cm.contexts.get? y := fun y hy => GoMap.get?_set_ne _ _ _ _ hy
      have hself : (CreateContext cm now X data metadata source).2.contexts.get? X
          = some (CreateContext cm now X data metadata source).1 :=
        GoMap.get?_set_self _ _ _
      refine ⟨?_, ?_⟩
      · intro id c p hc hpar
        by_cases hid : id = X
        · subst hid
          rw [hself] at hc
          cases hc
          cases hpar
        · rw [hget id hid] at hc
          obtain ⟨pc, hpc, hmem⟩ := ih1 id c p hc hpar
          have hpX : p ≠ X := by
            intro e
            subst e
            rw [hfresh] at hpc
            cases hpc
          exact ⟨pc, by rw [hget p hpX]; exact hpc, hmem⟩
      · intro id c hc
        by_cases hid : id = X
        · subst hid
          rw [hself] at hc
          cases hc
          rfl
        · rw [hget id hid] at hc
          exact ih2 id c hc
    | update cm now X data metadata _ ih =>
      obtain ⟨ih1, ih2⟩ := ih
      refine ⟨?_, ?_⟩
      · intro id c p hc hpar
        obtain ⟨f, hf, hget⟩ := UpdateContext_get? cm now X data metadata id
        rw [hget] at hc
        cases h0 : cm.contexts.get? id with
        | none => simp [h0] at hc
        | some c0 =>
          simp only [h0, Option.map_some', Option.some.injEq] at hc
          subst hc
          rw [(hf c0).1] at hpar
          obtain ⟨pc, hpc, hmem⟩ := ih1 id c0 p h0 hpar
          obtain ⟨g, hg, hgetp⟩ := UpdateContext_get? cm now X data metadata p
          exact ⟨g pc, by rw [hgetp, hpc]; rfl, by rw [(hg pc).2.1]; exact hmem⟩
      · intro id c hc
        obtain ⟨f, hf, hget⟩ := UpdateContext_get? cm now X data metadata id
        rw [hget] at hc
        cases h0 : cm.contexts.get? id with
        | none => simp [h0] at hc
        | some c0 =>
          simp only [h0, Option.map_some', Option.some.injEq] at hc
          subst hc
          rw [(hf c0).2.2]
          exact ih2 id c0 h0
    | link cm childID parentID _ ih =>
      obtain ⟨ih1, ih2⟩ := ih
      cases hc : cm.contexts.get? childID with
      | none =>
        rw [SetParentContext_of_missing cm childID parentID (Or.inl hc)]
        exact ⟨ih1, ih2⟩
      | some cc =>
        cases hp : cm.contexts.get? parentID with
        | none =>
          rw [SetParentContext_of_missing cm childID parentID (Or.inr hp)]
          exact ⟨ih1, ih2⟩
        | some pp =>
          have hget := SetParentContext_get? cm childID parentID cc pp hc hp
          refine ⟨?_, ?_⟩
          · intro id c p hcid hpar
            cases h0 : cm.contexts.get? id with
            | none =>
              rw [(hget id).1 h0] at hcid
              cases hcid
            | some c0 =>
              obtain ⟨x', hx', hpx, -, -⟩ := (hget id).2 c0 h0
              rw [hx'] at hcid
              cases hcid
              rw [hpx] at hpar
              by_cases hch : id = childID
              · simp only [hch, if_true, Option.some.injEq] at hpar
                subst hpar
                obtain ⟨p', hp', -, hcp, -⟩ := (hget parentID).2 pp hp
                refine ⟨p', hp', ?_⟩
                rw [hcp, hch]
                simp
              · simp only [hch, if_false] at hpar
                obtain ⟨pc, hpc, hmem⟩ := ih1 id c0 p h0 hpar
                obtain ⟨p', hp', -, hcp, -⟩ := (hget p).2 pc hpc
                refine ⟨p', hp', ?_⟩
                rw [hcp]
                by_cases hb : p = parentID
                · simp [hb, hmem]
                · simp [hb, hmem]
          · intro id c hcid
            cases h0 : cm.contexts.get? id with
            | none =>
              rw [(hget id).1 h0] at hcid
              cases hcid
            | some c0 =>
              obtain ⟨x', hx', -, -, hid⟩ := (hget id).2 c0 h0
              rw [hx'] at hcid
              cases hcid
              rw [hid]
              exact ih2 id c0 h0
  refine ⟨?_, key.2⟩
  intro id c p hc hpar
  obtain ⟨pc, hpc, hmem⟩ := key.1 id c p hc hpar
  exact ⟨pc, hpc, hmem, by rw [key.2 id c hc]; exact hmem⟩

/-- C27: `SetParentContext` checks for no cycle. For a store containing `X`,
`SetParentContext(X, X)` returns true and leaves `X` its own parent and in its own
`ChildrenIDs`; for a store containing distinct `A` and `B`, `SetParentContext(A, B)`
followed by `SetParentContext(B, A)` both return true and leave `B` the parent of `A`
and `A` the parent of `B`. -/
theorem SetParentContext_builds_cycles {V : Type} (cm : ContextManager V) :
    (∀ X c, cm.contexts.get? X = some c →
      (SetParentContext cm X X).1 = true ∧
      ∃ c', (SetParentContext cm X X).2.contexts.get? X = some c' ∧
        c'.ParentID = some X ∧ X ∈ c'.ChildrenIDs) ∧
    (∀ A B a b, A ≠ B → cm.contexts.get? A = some a → cm.contexts.get? B = some b →
      (SetParentContext cm A B).1 = true ∧
      (SetParentContext (SetParentContext cm A B).2 B A).1 = true ∧
      ∃ a' b',
        (SetParentContext (SetParentContext cm A B).2 B A).2.contexts.get? A = some a' ∧
        (SetParentContext (SetParentContext cm A B).2 B A).2.contexts.get? B = some b' ∧
        a'.ParentID = some B ∧ b'.ParentID = some A) := by
  refine ⟨?_, ?_⟩
  · intro X c hc
    obtain ⟨c', hc', hpar, hch, -⟩ := (SetParentContext_get? cm X X c c hc hc X).2 c hc
    refine ⟨SetParentContext_fst cm X X c c hc hc, c', hc', ?_, ?_⟩
    · simpa using hpar
    · rw [hch]
      simp
  · intro A B a b hAB ha hb
    obtain ⟨a1, ha1, hpa1, -, -⟩ := (SetParentContext_get? cm A B a b ha hb A).2 a ha
    obtain ⟨b1, hb1, -, -, -⟩ := (SetParentContext_get? cm A B a b ha hb B).2 b hb
    obtain ⟨a2, ha2, hpa2, -, -⟩ :=
      (SetParentContext_get? (SetParentContext cm A B).2 B A b1 a1 hb1 ha1 A).2 a1 ha1
    obtain ⟨b2, hb2, hpb2, -, -⟩ :=
      (SetParentContext_get? (SetParentContext cm A B).2 B A b1 a1 hb1 ha1 B).2 b1 hb1
    refine ⟨SetParentContext_fst cm A B a b ha hb,
      SetParentContext_fst _ B A b1 a1 hb1 ha1, a2, b2, ha2, hb2, ?_, ?_⟩
    · rw [hpa2, hpa1]
      simp [hAB]
    · rw [hpb2]
      simp

/-- C30: `SetParentContext` never removes a link. For a store containing `C`, `P` and
`Q` with `P ≠ Q`, after `SetParentContext(C, P)` and then `SetParentContext(C, Q)`
(both return true) the `ParentID` of `C` is `Q` while `C` is still in the
`ChildrenIDs` of `P`; and each call of `SetParentContext(C, P)` on a store containing
both puts one more `C` into the `ChildrenIDs` of `P`, so two calls put two. -/
theorem SetParentContext_keeps_stale_links {V : Type} (cm : ContextManager V) :
    (∀ C P Q c p q, P ≠ Q → cm.contexts.get? C = some c → cm.contexts.get? P = some p →
      cm.contexts.get? Q = some q →
      (SetParentContext cm C P).1 = true ∧
      (SetParentContext (SetParentContext cm C P).2 C Q).1 = true ∧
      ∃ c' p',
        (SetParentContext (SetParentContext cm C P).2 C Q).2.contexts.get? C = some c' ∧
        (SetParentContext (SetParentContext cm C P).2 C Q).2.contexts.get? P = some p' ∧
        c'.ParentID = some Q ∧ C ∈ p'.ChildrenIDs) ∧
    (∀ C P c p, cm.contexts.get? C = some c → cm.contexts.get? P = some p →
      (∃ p1, (SetParentContext cm C P).2.contexts.get? P = some p1 ∧
        p1.ChildrenIDs.count C = p.ChildrenIDs.count C + 1) ∧
      (∃ p2, (SetParentContext (SetParentContext cm C P).2 C P).2.contexts.get? P = some p2 ∧
        p2.ChildrenIDs.count C = p.ChildrenIDs.count C + 2)) := by
  refine ⟨?_, ?_⟩
  · intro C P Q c p q hPQ hc hp hq
    obtain ⟨c1, hc1, -, -, -⟩ := (SetParentContext_get? cm C P c p hc hp C).2 c hc
    obtain ⟨p1, hp1, -, hch1, -⟩ := (SetParentContext_get? cm C P c p hc hp P).2 p hp
    obtain ⟨q1, hq1, -, -, -⟩ := (SetParentContext_get? cm C P c p hc hp Q).2 q hq
    obtain ⟨c2, hc2, hpar2, -, -⟩ :=
      (SetParentContext_get? (SetParentContext cm C P).2 C Q c1 q1 hc1 hq1 C).2 c1 hc1
    obtain ⟨p2, hp2, -, hch2, -⟩ :=
      (SetParentContext_get? (SetParentContext cm C P).2 C Q c1 q1 hc1 hq1 P).2 p1 hp1
    refine ⟨SetParentContext_fst cm C P c p hc hp,
      SetParentContext_fst _ C Q c1 q1 hc1 hq1, c2, p2, hc2, hp2, ?_, ?_⟩
    · simpa using hpar2
    · rw [hch2, hch1]
      simp [hPQ]
  · intro C P c p hc hp
    obtain ⟨c1, hc1, -, -, -⟩ := (SetParentContext_get? cm C P c p hc hp C).2 c hc
    obtain ⟨p1, hp1, -, hch1, -⟩ := (SetParentContext_get? cm C P c p hc hp P).2 p hp
    obtain ⟨p2, hp2, -, hch2, -⟩ :=
      (SetParentContext_get? (SetParentContext cm C P).2 C P c1 p1 hc1 hp1 P).2 p1 hp1
    have e1 : p1.ChildrenIDs.count C = p.ChildrenIDs.count C + 1 := by
      rw [hch1]
      simp
    refine ⟨⟨p1, hp1, e1⟩, p2, hp2, ?_⟩
    rw [hch2]
    simp [e1]

/-! ## Termination of `GetInheritedContext` and its use of the read lock -/

theorem ancestor_add {V : Type} (cm : ContextManager V) :
    ∀ (a b : Nat) (id : String),
      ancestor cm (a + b) id = (ancestor cm a id).bind (ancestor cm b)
  | 0, b, id => by simp [ancestor]
  | a + 1, b, id => by
    have e : a + 1 + b = (a + b) + 1 := by omega
    rw [e]
    simp only [ancestor]
    cases parentOf cm id with
    | none => rfl
    | some p => exact ancestor_add cm a b p

theorem ancestor_none_mono {V : Type} (cm : ContextManager V) (n m : Nat) (id : String)
    (h : ancestor cm n id = none) (hnm : n ≤ m) : ancestor cm m id = none := by
  obtain ⟨t, rfl⟩ : ∃ t, m = n + t := ⟨m - n, by omega⟩
  rw [ancestor_add, h]
  rfl

theorem ParentChain_of_ancestor_none {V : Type} (cm : ContextManager V) :
    ∀ (n : Nat) (id : String), ancestor cm n id = none → ∃ cs, ParentChain cm id cs
  | 0, id, h => by simp [ancestor] at h
  | n + 1, id, h => by
    simp only [ancestor, parentOf] at h
    cases hc : cm.contexts.get? id with
    | none => exact ⟨[], ParentChain.absent id hc⟩
    | some c =>
      cases hp : c.ParentID with
      | none => exact ⟨[c], ParentChain.root id c hc hp⟩
      | some p =>
        simp only [hc, hp] at h
        obtain ⟨cs, hcs⟩ := ParentChain_of_ancestor_none cm n p h
        exact ⟨c :: cs, ParentChain.step id p c cs hc hp hcs⟩

theorem ancestor_none_of_ParentChain {V : Type} (cm : ContextManager V) (id : String)
    (cs : List (Context V)) (h : ParentChain cm id cs) :
    ancestor cm (cs.length + 1) id = none := by
  induction h with
  | absent id hid => simp [ancestor, parentOf, hid]
  | root id c hid hp => simp [ancestor, parentOf, hid, hp]
  | step id parentID c cs hid hp _ ih =>
    simp only [List.length_cons, ancestor, parentOf, hid, hp]
    exact ih

theorem ancestor_none_of_returns {V : Type} (cm : ContextManager V) :
    ∀ (fuel : Nat) (id : String) (r : GoMap V × ContextManager V),
      GetInheritedContext fuel cm id = some r → ancestor cm fuel id = none
  | 0, id, r, h => by simp [GetInheritedContext] at h
  | fuel + 1, id, r, h => by
    simp only [ancestor, parentOf]
    cases hc : cm.contexts.get? id with
    | none => rfl
    | some c =>
      cases hp : c.ParentID with
      | none => simp only [hp]
      | some p =>
        simp only [GetInheritedContext, hc, hp] at h
        cases hr : GetInheritedContext fuel cm p with
        | none => simp [hr] at h
        | some r2 =>
          simp only [hp]
          exact ancestor_none_of_returns cm fuel p r2 hr

theorem ancestor_cycle {V : Type} (cm : ContextManager V) (d : Nat) (x : String)
    (h : ancestor cm d x = some x) : ∀ k, ancestor cm (k * d) x = some x
  | 0 => by simp [ancestor]
  | k + 1 => by
    have e : (k + 1) * d = k * d + d := by ring
    rw [e, ancestor_add, ancestor_cycle cm d x h k]
    exact h

/-- C26: `GetInheritedContext(id)` returns (for some bound on the nested calls) if and
only if the parent chain from `id` is finite, that is, the walk along `ParentID`
reaches a context without parent or an id missing from the table after some number of
steps; and when the walk comes back to an id it has been at, no bound on the nested
calls produces a result. -/
theorem GetInheritedContext_returns_iff_finite {V : Type} (cm : ContextManager V)
    (id : String) :
    ((∃ fuel r, GetInheritedContext fuel cm id = some r) ↔ ∃ cs, ParentChain cm id cs) ∧
    ((∃ cs, ParentChain cm id cs) ↔ ∃ n, ancestor cm n id = none) ∧
    (∀ i j x, i < j → ancestor cm i id = some x → ancestor cm j id = some x →
      ∀ fuel, GetInheritedContext fuel cm id = none) := by
  refine ⟨⟨?_, ?_⟩, ⟨?_, ?_⟩, ?_⟩
  · rintro ⟨fuel, r, hr⟩
    exact ParentChain_of_ancestor_none cm fuel id (ancestor_none_of_returns cm fuel id r hr)
  · rintro ⟨cs, hcs⟩
    obtain ⟨r, hrun, -⟩ := GetInheritedContext_chain cm id cs hcs
    exact ⟨cs.length + 1, (r, cm), hrun _ (Nat.lt_succ_self _)⟩
  · rintro ⟨cs, hcs⟩
    exact ⟨cs.length + 1, ancestor_none_of_ParentChain cm id cs hcs⟩
  · rintro ⟨n, hn⟩
    exact ParentChain_of_ancestor_none cm n id hn
  · intro i j x hij hi hj fuel
    cases hr : GetInheritedContext fuel cm id with
    | none => rfl
    | some r =>
      exfalso
      have hnone := ancestor_none_of_returns cm fuel id r hr
      obtain ⟨d, rfl⟩ : ∃ d, j = i + d := ⟨j - i, by omega⟩
      have hd : ancestor cm d x = some x := by
        rw [ancestor_add, hi] at hj
        exact hj
      have hpos : 0 < d := by omega
      have hbig : fuel ≤ i + fuel * d := by
        have : fuel * 1 ≤ fuel * d := Nat.mul_le_mul_left fuel hpos
        omega
      have h1 := ancestor_none_mono cm fuel (i + fuel * d) id hnone hbig
      rw [ancestor_add, hi] at h1
      have h2 := ancestor_cycle cm d x hd fuel
      simp only [Option.some_bind] at h1
      rw [h2] at h1
      cases h1

/-- When the context at `id` has a parent, a call of `GetInheritedContext(id)` that
returns has taken the read lock a second time before releasing it. -/
theorem GetInheritedContextLocks_nested {V : Type} (cm : ContextManager V)
    (id parentID : String) (c : Context V) (fuel : Nat) (tr : List LockEvent)
    (hc : cm.contexts.get? id = some c) (hp : c.ParentID = some parentID)
    (h : GetInheritedContextLocks fuel cm id = some tr) :
    ∃ rest, tr = LockEvent.RLock :: LockEvent.RLock :: rest := by
  cases fuel with
  | zero => simp [GetInheritedContextLocks] at h
  | succ n =>
    simp only [GetInheritedContextLocks, hc, hp] at h
    cases hi : GetInheritedContextLocks n cm parentID with
    | none => simp [hi] at h
    | some inner =>
      simp only [hi, Option.some.injEq] at h
      subst h
      cases n with
      | zero => simp [GetInheritedContextLocks] at hi
      | succ m =>
        simp only [GetInheritedContextLocks] at hi
        cases hq : cm.contexts.get? parentID with
        | none =>
          simp only [hq, Option.some.injEq] at hi
          subst hi
          exact ⟨_, rfl⟩
        | some q =>
          cases hqp : q.ParentID with
          | none =>
            simp only [hq, hqp, Option.some.injEq] at hi
            subst hi
            exact ⟨_, rfl⟩
          | some g =>
            simp only [hq, hqp] at hi
            cases hg : GetInheritedContextLocks m cm g with
            | none => simp [hg] at hi
            | some inner2 =>
              simp only [hg, Option.some.injEq] at hi
              subst hi
              exact ⟨_, rfl⟩

/-- C25 fails on the code: at the store `storePC`, where `C` has the parent `P`, the
call `GetInheritedContext("C")` takes the read lock, takes it again in the nested call
for `P` while still holding it, and only then releases twice. -/
theorem GetInheritedContext_relocks :
    GetInheritedContextLocks 2 storePC "C" =
      some [LockEvent.RLock, LockEvent.RLock, LockEvent.RUnlock, LockEvent.RUnlock] ∧
    maxHeld [LockEvent.RLock, LockEvent.RLock, LockEvent.RUnlock, LockEvent.RUnlock] 0 = 2 ∧
    (GetInheritedContext 2 storePC "C").isSome = true := by
  refine ⟨by decide, by decide, by decide⟩

/-! ## The parameter helper -/

theorem requiredParam_absent {T : Type} [DecidableEq T] (ty : GoType T)
    (arguments : Option (GoMap Value)) (p : String) (h : index? arguments p = none) :
    requiredParam ty arguments p = (ty.zero, some ("missing required parameter: " ++ p)) := by
  simp [requiredParam, h]

theorem requiredParam_wrong_type {T : Type} [DecidableEq T] (ty : GoType T)
    (arguments : Option (GoMap Value)) (p : String) (x : Value)
    (h : index? arguments p = some x) (ha : ty.assert x = none) :
    requiredParam ty arguments p =
      (ty.zero, some ("parameter " ++ p ++ " is not of type " ++ ty.name)) := by
  simp [requiredParam, h, ha]

theorem requiredParam_zero {T : Type} [DecidableEq T] (ty : GoType T)
    (arguments : Option (GoMap Value)) (p : String) (x : Value)
    (h : index? arguments p = some x) (ha : ty.assert x = some ty.zero) :
    requiredParam ty arguments p = (ty.zero, some ("missing required parameter: " ++ p)) := by
  simp [requiredParam, h, ha]

theorem requiredParam_ok {T : Type} [DecidableEq T] (ty : GoType T)
    (arguments : Option (GoMap Value)) (p : String) (x : Value) (v : T)
    (h : index? arguments p = some x) (ha : ty.assert x = some v) (hv : v ≠ ty.zero) :
    requiredParam ty arguments p = (v, none) := by
  simp [requiredParam, h, ha, hv]

/-- C28: `requiredParam[T](request, p)` returns the argument under `p` and no error
exactly when `p` is present, its value has type `T` and is not the zero value of `T`.
It returns the error `missing required parameter: p` when `p` is absent or holds the
zero value, and the error `parameter p is not of type T` when the value has another
type; with every error it returns the zero value of `T`. -/
theorem requiredParam_cases {T : Type} [DecidableEq T] (ty : GoType T)
    (arguments : Option (GoMap Value)) (p : String) :
    ((requiredParam ty arguments p).2 = none ↔
      ∃ x v, index? arguments p = some x ∧ ty.assert x = some v ∧ v ≠ ty.zero) ∧
    (∀ x v, index? arguments p = some x → ty.assert x = some v → v ≠ ty.zero →
      requiredParam ty arguments p = (v, none)) ∧
    (index? arguments p = none →
      requiredParam ty arguments p = (ty.zero, some ("missing required parameter: " ++ p))) ∧
    (∀ x, index? arguments p = some x → ty.assert x = some ty.zero →
      requiredParam ty arguments p = (ty.zero, some ("missing required parameter: " ++ p))) ∧
    (∀ x, index? arguments p = some x → ty.assert x = none →
      requiredParam ty arguments p =
        (ty.zero, some ("parameter " ++ p ++ " is not of type " ++ ty.name))) ∧
    ((requiredParam ty arguments p).2 ≠ none → (requiredParam ty arguments p).1 = ty.zero) := by
  refine ⟨?_, fun x v h ha hv => requiredParam_ok ty arguments p x v h ha hv,
    requiredParam_absent ty arguments p,
    fun x h ha => requiredParam_zero ty arguments p x h ha,
    fun x h ha => requiredParam_wrong_type ty arguments p x h ha, ?_⟩
  · constructor
    · intro h
      cases hi : index? arguments p with
      | none =>
        rw [requiredParam_absent ty arguments p hi] at h
        cases h
      | some x =>
        cases ha : ty.assert x with
        | none =>
          rw [requiredParam_wrong_type ty arguments p x hi ha] at h
          cases h
        | some v =>
          by_cases hv : v = ty.zero
          · subst hv
            rw [requiredParam_zero ty arguments p x hi ha] at h
            cases h
          · exact ⟨x, v, rfl, ha, hv⟩
    · rintro ⟨x, v, hi, ha, hv⟩
      rw [requiredParam_ok ty arguments p x v hi ha hv]
  · intro h
    cases hi : index? arguments p with
    | none => rw [requiredParam_absent ty arguments p hi]
    | some x =>
      cases ha : ty.assert x with
      | none => rw [requiredParam_wrong_type ty arguments p x hi ha]
      | some v =>
        by_cases hv : v = ty.zero
        · subst hv
          rw [requiredParam_zero ty arguments p x hi ha]
        · rw [requiredParam_ok ty arguments p x v hi ha hv] at h
          exact absurd rfl h

/-! ## Parameter checks of the two action handlers -/

theorem asString_eq_none (x : Option Value) (h : ∀ s, x ≠ some (Value.str s)) :
    asString x = none := by
  cases x with
  | none => rfl
  | some v =>
    cases v with
    | str s => exact absurd rfl (h s)
    | object kvs => rfl
    | array xs => rfl
    | other tag => rfl

theorem asObject_eq_none (x : Option Value) (h : ∀ kvs, x ≠ some (Value.object kvs)) :
    asObject x = none := by
  cases x with
  | none => rfl
  | some v =>
    cases v with
    | str s => rfl
    | object kvs => exact absurd rfl (h kvs)
    | array xs => rfl
    | other tag => rfl

theorem asArray_eq_none (x : Option Value) (h : ∀ xs, x ≠ some (Value.array xs)) :
    asArray x = none := by
  cases x with
  | none => rfl
  | some v =>
    cases v with
    | str s => rfl
    | object kvs => rfl
    | array xs => exact absurd rfl (h xs)
    | other tag => rfl

theorem handleCreateOrder_no_order {V : Type} (h : ModelHandler V) (req : ModelRequest)
    (ho : ∀ kvs, index? req.Params "order" ≠ some (Value.object kvs)) :
    handleCreateOrder h req = (some (failure "order data is required"), none, []) := by
  simp [handleCreateOrder, asObject_eq_none _ ho]

theorem handleCreateOrder_no_customer {V : Type} (h : ModelHandler V) (req : ModelRequest)
    (kvs : List (String × Value))
    (ho : index? req.Params "order" = some (Value.object kvs))
    (hc : ∀ s, lookupL "customer_id" kvs ≠ some (Value.str s)) :
    handleCreateOrder h req =
      (some (failure "customer_id is required and must be a string"), none, []) := by
  simp [handleCreateOrder, ho, asObject, asString_eq_none _ hc]

theorem handleCreateOrder_no_items {V : Type} (h : ModelHandler V) (req : ModelRequest)
    (kvs : List (String × Value)) (s : String)
    (ho : index? req.Params "order" = some (Value.object kvs))
    (hc : lookupL "customer_id" kvs = some (Value.str s))
    (hi : ∀ xs, lookupL "items" kvs ≠ some (Value.array xs)) :
    handleCreateOrder h req =
      (some (failure "items is required and must be an array"), none, []) := by
  simp [handleCreateOrder, ho, asObject, hc, asString, asArray_eq_none _ hi]

/-- C21, as amended: for a registered model, the action `get_part`, parameters in
which `part_id` is missing or is not a string, and a context id that is empty or has
a finite parent chain, `HandleRequest` returns no error and the response with
`Success` false, no `Data` and `Error` equal to `part_id is required`, which starts
with the name of the parameter; it makes no call to the client (its only call, if
any, is the one to the context store) and leaves the store unchanged. -/
theorem HandleRequest_get_part_without_id {V : Type} (h : ModelHandler V)
    (req : ModelRequest) (cs : List (Context V))
    (hreg : h.isRegistered req.ModelID = true)
    (ha : req.Action = "get_part")
    (hp : ∀ s, index? req.Params "part_id" ≠ some (Value.str s))
    (hctx : req.ContextID = "" ∨ ParentChain h.contextManager req.ContextID cs) :
    ∃ d : Dispatched V,
      (∀ fuel, cs.length < fuel → HandleRequest fuel h req = some d) ∧
      d.err = none ∧
      d.resp = some { Success := false, Data := none, Error := "part_id is required" } ∧
      (∃ r rest, d.resp = some r ∧ r.Success = false ∧ r.Error = "part_id" ++ rest) ∧
      (∀ c ∈ d.calls, c = Call.GetInheritedContext req.ContextID) ∧
      (∀ id, Call.PartsGet id ∉ d.calls) ∧
      d.contextManager = h.contextManager := by
  obtain ⟨ctxData, calls, hres, hcalls⟩ := resolveContext_returns h req cs hctx
  have hg : handleGetPart h req = (some (failure "part_id is required"), none, []) := by
    simp [handleGetPart, asString_eq_none _ hp]
  refine ⟨{ resp := some (failure "part_id is required"), err := none,
            calls := calls, contextManager := h.contextManager }, ?_, rfl, rfl,
    ⟨failure "part_id is required", " is required", rfl, rfl, rfl⟩, hcalls, ?_, rfl⟩
  · intro fuel hf
    simp [HandleRequest, hreg, hres fuel hf, ha, hg]
  · intro id hmem
    have := hcalls _ hmem
    cases this

/-- What `handleCreateOrder` does check: for a registered model, the action
`create_order`, a context id that is empty or has a finite parent chain, and
parameters in which `order` is missing or not an object, or its `customer_id` is
missing or not a string, or its `items` is missing or not an array, `HandleRequest`
returns no error and a response with `Success` false and no `Data` whose `Error`
names the first of these fields that fails, in this order; it makes no call to the
client (its only call, if any, is the one to the context store) and leaves the store
unchanged. -/
theorem HandleRequest_create_order_invalid {V : Type} (h : ModelHandler V)
    (req : ModelRequest) (cs : List (Context V))
    (hreg : h.isRegistered req.ModelID = true)
    (ha : req.Action = "create_order")
    (hbad : (∀ kvs, index? req.Params "order" ≠ some (Value.object kvs)) ∨
      ∃ kvs, index? req.Params "order" = some (Value.object kvs) ∧
        ((∀ s, lookupL "customer_id" kvs ≠ some (Value.str s)) ∨
          (∀ xs, lookupL "items" kvs ≠ some (Value.array xs))))
    (hctx : req.ContextID = "" ∨ ParentChain h.contextManager req.ContextID cs) :
    ∃ (d : Dispatched V) (msg : String),
      (∀ fuel, cs.length < fuel → HandleRequest fuel h req = some d) ∧
      d.err = none ∧
      d.resp = some { Success := false, Data := none, Error := msg } ∧
      ((∀ kvs, index? req.Params "order" ≠ some (Value.object kvs)) →
        msg = "order data is required") ∧
      (∀ kvs, index? req.Params "order" = some (Value.object kvs) →
        (∀ s, lookupL "customer_id" kvs ≠ some (Value.str s)) →
        msg = "customer_id is required and must be a string") ∧
      (∀ kvs s, index? req.Params "order" = some (Value.object kvs) →
        lookupL "customer_id" kvs = some (Value.str s) →
        msg = "items is required and must be an array") ∧
      (∀ c ∈ d.calls, c = Call.GetInheritedContext req.ContextID) ∧
      (∀ o, Call.OrdersCreate o ∉ d.calls) ∧
      d.contextManager = h.contextManager := by
  obtain ⟨ctxData, calls, hres, hcalls⟩ := resolveContext_returns h req cs hctx
  have hne : req.Action ≠ "get_part" := by
    rw [ha]
    decide
  have hno : ∀ o, Call.OrdersCreate o ∉ calls := by
    intro o hmem
    have := hcalls _ hmem
    cases this
  have key : ∀ msg, handleCreateOrder h req = (some (failure msg), none, []) →
      ∀ fuel, cs.length < fuel → HandleRequest fuel h req =
        some { resp := some (failure msg), err := none, calls := calls,
               contextManager := h.contextManager } := by
    intro msg hg fuel hf
    simp [HandleRequest, hreg, hres fuel hf, ha, hg]
  rcases hbad with ho | ⟨kvs, ho, hcust | hitems⟩
  · refine ⟨_, "order data is required",
      key _ (handleCreateOrder_no_order h req ho), rfl, rfl, fun _ => rfl, ?_, ?_,
      hcalls, hno, rfl⟩
    · intro kvs hk
      exact absurd hk (ho kvs)
    · intro kvs s hk
      exact absurd hk (ho kvs)
  · refine ⟨_, "customer_id is required and must be a string",
      key _ (handleCreateOrder_no_customer h req kvs ho hcust), rfl, rfl, ?_,
      fun _ _ _ => rfl, ?_, hcalls, hno, rfl⟩
    · intro hk
      exact absurd ho (hk kvs)
    · intro kvs2 s hk hs
      rw [ho] at hk
      cases hk
      exact absurd hs (hcust s)
  · by_cases hcust : ∀ s, lookupL "customer_id" kvs ≠ some (Value.str s)
    · refine ⟨_, "customer_id is required and must be a string",
        key _ (handleCreateOrder_no_customer h req kvs ho hcust), rfl, rfl, ?_,
        fun _ _ _ => rfl, ?_, hcalls, hno, rfl⟩
      · intro hk
        exact absurd ho (hk kvs)
      · intro kvs2 s hk hs
        rw [ho] at hk
        cases hk
        exact absurd hs (hcust s)
    · push_neg at hcust
      obtain ⟨s, hs⟩ := hcust
      refine ⟨_, "items is required and must be an array",
        key _ (handleCreateOrder_no_items h req kvs s ho hs hitems), rfl, rfl, ?_, ?_,
        fun _ _ _ _ => rfl, hcalls, hno, rfl⟩
      · intro hk
        exact absurd ho (hk kvs)
      · intro kvs2 hk hc2
        rw [ho] at hk
        cases hk
        exact absurd hs (hc2 s)

/-! ## The later theorems at concrete stores and handlers -/

theorem storeTwo_Reachable : Reachable storeTwo :=
  Reachable.create _ 11 "C" (some (GoMap.ofList [("b", 9)])) none "test"
    (Reachable.create _ 10 "P" (some (GoMap.ofList [("a", 1), ("b", 2)])) none "test"
      Reachable.new rfl)
    (by decide)

theorem storePC_Reachable : Reachable storePC :=
  Reachable.link storeTwo "C" "P" storeTwo_Reachable

/-- C21, as stated, fails at the handler `handlerSelf`: the model `m1` is registered,
the action is `get_part` and `part_id` is missing, but the context `P` is its own
parent, so `GetInheritedContext` never returns and neither does `HandleRequest`. -/
theorem HandleRequest_get_part_no_return :
    handlerSelf.isRegistered reqGetPartBare.ModelID = true ∧
    reqGetPartBare.Action = "get_part" ∧
    index? reqGetPartBare.Params "part_id" = none ∧
    handlerSelf.contextManager.contexts.get? reqGetPartBare.ContextID = some ctxSelf ∧
    ctxSelf.ParentID = some reqGetPartBare.ContextID ∧
    ∀ fuel, HandleRequest fuel handlerSelf reqGetPartBare = none :=
  ⟨by decide, by decide, rfl, storeSelf_get?_P, rfl, fun fuel => by
    have hreg : handlerSelf.isRegistered reqGetPartBare.ModelID = true := by decide
    have hctx : reqGetPartBare.ContextID = "P" := rfl
    have hcm : handlerSelf.contextManager = storeSelf := rfl
    simp [HandleRequest, hreg, resolveContext, hctx, hcm, GetInheritedContext_storeSelf fuel]⟩

/-- C21, as amended, at the handler `handlerPC`: `get_part` without parameters, with
the context `P`, whose chain is `P` alone. -/
theorem HandleRequest_get_part_without_id_witness :
    (handlerPC.isRegistered reqGetPartBare.ModelID = true ∧
      reqGetPartBare.Action = "get_part" ∧
      (∀ s, index? reqGetPartBare.Params "part_id" ≠ some (Value.str s)) ∧
      (reqGetPartBare.ContextID = "" ∨
        ParentChain handlerPC.contextManager reqGetPartBare.ContextID [ctxP])) ∧
    ∃ d : Dispatched Int,
      (∀ fuel, [ctxP].length < fuel → HandleRequest fuel handlerPC reqGetPartBare = some d) ∧
      d.err = none ∧
      d.resp = some { Success := false, Data := none, Error := "part_id is required" } ∧
      (∃ r rest, d.resp = some r ∧ r.Success = false ∧ r.Error = "part_id" ++ rest) ∧
      (∀ c ∈ d.calls, c = Call.GetInheritedContext reqGetPartBare.ContextID) ∧
      (∀ id, Call.PartsGet id ∉ d.calls) ∧
      d.contextManager = handlerPC.contextManager :=
  ⟨⟨by decide, by decide, (fun s h => by cases h), Or.inr storePC_chain_P⟩,
    HandleRequest_get_part_without_id handlerPC reqGetPartBare [ctxP] (by decide)
      (by decide) (fun s h => by cases h) (Or.inr storePC_chain_P)⟩

/-- C22 fails on the code: at the handler `handlerOk` a `create_order` request whose
`customer_id` is the empty string, and one whose `items` is the empty list, are both
passed on to `Orders.Create` and answered with `Success` true, while `requiredParam`,
through which the tool `create_order` of `pkg/firstresonance` reads its
`customer_id`, rejects the empty string. -/
theorem HandleRequest_create_order_accepts_empty :
    (requiredParam stringType (some (GoMap.ofList [("customer_id", Value.str "")]))
      "customer_id").2 = some "missing required parameter: customer_id" ∧
    handlerOk.isRegistered "m1" = true ∧
    reqCreateEmptyCustomer.ModelID = "m1" ∧ reqCreateNoItems.ModelID = "m1" ∧
    reqCreateEmptyCustomer.Action = "create_order" ∧
    reqCreateNoItems.Action = "create_order" ∧
    index? reqCreateEmptyCustomer.Params "order" = some (Value.object
      [("customer_id", Value.str ""), ("items", Value.array [Value.str "bolt"])]) ∧
    index? reqCreateNoItems.Params "order" = some (Value.object
      [("customer_id", Value.str "acme"), ("items", Value.array [])]) ∧
    (∃ (d : Dispatched Int) (r : ModelResponse) (o : Order),
      (∀ fuel, HandleRequest fuel handlerOk reqCreateEmptyCustomer = some d) ∧
      d.err = none ∧ d.resp = some r ∧ r.Success = true ∧
      d.calls = [Call.OrdersCreate o] ∧ o.CustomerID = "") ∧
    (∃ (d : Dispatched Int) (r : ModelResponse) (o : Order),
      (∀ fuel, HandleRequest fuel handlerOk reqCreateNoItems = some d) ∧
      d.err = none ∧ d.resp = some r ∧ r.Success = true ∧
      d.calls = [Call.OrdersCreate o] ∧ o.Items = []) :=
  ⟨by decide, by decide, rfl, rfl, rfl, rfl, rfl, rfl,
    ⟨_, _, _, fun _ => rfl, rfl, rfl, rfl, rfl, rfl⟩,
    ⟨_, _, _, fun _ => rfl, rfl, rfl, rfl, rfl, rfl⟩⟩

/-- The checks of `handleCreateOrder` at the handler `handlerPC`: `create_order`
without parameters, with the context `P`, whose chain is `P` alone. -/
theorem HandleRequest_create_order_invalid_witness :
    (handlerPC.isRegistered reqCreateBare.ModelID = true ∧
      reqCreateBare.Action = "create_order" ∧
      (∀ kvs, index? reqCreateBare.Params "order" ≠ some (Value.object kvs)) ∧
      (reqCreateBare.ContextID = "" ∨
        ParentChain handlerPC.contextManager reqCreateBare.ContextID [ctxP])) ∧
    ∃ (d : Dispatched Int) (msg : String),
      (∀ fuel, [ctxP].length < fuel → HandleRequest fuel handlerPC reqCreateBare = some d) ∧
      d.err = none ∧
      d.resp = some { Success := false, Data := none, Error := msg } ∧
      ((∀ kvs, index? reqCreateBare.Params "order" ≠ some (Value.object kvs)) →
        msg = "order data is required") ∧
      (∀ kvs, index? reqCreateBare.Params "order" = some (Value.object kvs) →
        (∀ s, lookupL "customer_id" kvs ≠ some (Value.str s)) →
        msg = "customer_id is required and must be a string") ∧
      (∀ kvs s, index? reqCreateBare.Params "order" = some (Value.object kvs) →
        lookupL "customer_id" kvs = some (Value.str s) →
        msg = "items is required and must be an array") ∧
      (∀ c ∈ d.calls, c = Call.GetInheritedContext reqCreateBare.ContextID) ∧
      (∀ o, Call.OrdersCreate o ∉ d.calls) ∧
      d.contextManager = handlerPC.contextManager :=
  ⟨⟨by decide, by decide, (fun kvs h => by cases h), Or.inr storePC_chain_P⟩,
    HandleRequest_create_order_invalid handlerPC reqCreateBare [ctxP] (by decide)
      (by decide) (Or.inl (fun kvs h => by cases h)) (Or.inr storePC_chain_P)⟩

/-- C23, as stated, fails at the store `storePC`: `P` holds the `ChildrenIDs` `["C"]`,
and `CreateContext` on the id `P`, which is in the table before and after the call,
leaves `P` with no `ChildrenIDs`. -/
theorem CreateContext_resets_ChildrenIDs :
    storePC.contexts.get? "P" = some ctxP ∧ ctxP.ChildrenIDs = ["C"] ∧
    ∃ c', ((StoreOp.create 20 "P" none none "test").run storePC).contexts.get? "P" = some c' ∧
      c'.ChildrenIDs = [] ∧ ¬ (ctxP.ChildrenIDs <+: c'.ChildrenIDs) :=
  ⟨storePC_get?_P, rfl,
    ⟨{ ID := "P", Data := none, Metadata := none, CreatedAt := 20, UpdatedAt := 20,
       ExpiresAt := none, ParentID := none, ChildrenIDs := [], Source := "test" },
      by decide, rfl, by decide⟩⟩

/-- C23, as amended, at the store `storePC`: a second `SetParentContext("C", "P")`
extends the `ChildrenIDs` of `P` from `["C"]` to `["C", "C"]`. -/
theorem ChildrenIDs_extended_witness :
    (storePC.contexts.get? "P" = some ctxP ∧
      ((StoreOp.link "C" "P").run storePC).contexts.get? "P" =
        some { ctxP with ChildrenIDs := ["C", "C"] }) ∧
    ((StoreOp.link "C" "P" : StoreOp Int).createdID ≠ some "P" →
      ctxP.ChildrenIDs <+: ["C", "C"]) ∧
    ((StoreOp.link "C" "P" : StoreOp Int).createdID = some "P" →
      ([("C" : String), "C"] = [])) :=
  ⟨⟨storePC_get?_P, by decide⟩,
    ChildrenIDs_extended (StoreOp.link "C" "P") storePC "P" ctxP
      { ctxP with ChildrenIDs := ["C", "C"] } storePC_get?_P (by decide)⟩

/-- C26 at the stores `storePC` and `storeSelf`: the walk from `C` ends after two
steps and the call returns; the walk from `P` in `storeSelf` is back at `P` after one
step and no bound on the nested calls gives a result. -/
theorem GetInheritedContext_returns_iff_finite_witness :
    (ancestor storePC 2 "C" = none ∧ ∃ fuel r, GetInheritedContext fuel storePC "C" = some r) ∧
    (ancestor storeSelf 0 "P" = some "P" ∧ ancestor storeSelf 1 "P" = some "P" ∧
      ∀ fuel, GetInheritedContext fuel storeSelf "P" = none) :=
  ⟨⟨by decide, (GetInheritedContext_returns_iff_finite storePC "C").1.2
      ⟨[ctxC, ctxP], storePC_chain_C⟩⟩,
    by decide, by decide,
    (GetInheritedContext_returns_iff_finite storeSelf "P").2.2 0 1 "P" (by decide)
      (by decide) (by decide)⟩

/-- C27 at the store `storeTwo`: `P` becomes its own parent, and `C` and `P` become
each the parent of the other. -/
theorem SetParentContext_builds_cycles_witness :
    (storeTwo.contexts.get? "P" = some ctxP0 ∧ storeTwo.contexts.get? "C" = some ctxC0) ∧
    ((SetParentContext storeTwo "P" "P").1 = true ∧
      ∃ c', (SetParentContext storeTwo "P" "P").2.contexts.get? "P" = some c' ∧
        c'.ParentID = some "P" ∧ "P" ∈ c'.ChildrenIDs) ∧
    ((SetParentContext storeTwo "C" "P").1 = true ∧
      (SetParentContext (SetParentContext storeTwo "C" "P").2 "P" "C").1 = true ∧
      ∃ a' b',
        (SetParentContext (SetParentContext storeTwo "C" "P").2 "P" "C").2.contexts.get? "C"
          = some a' ∧
        (SetParentContext (SetParentContext storeTwo "C" "P").2 "P" "C").2.contexts.get? "P"
          = some b' ∧
        a'.ParentID = some "P" ∧ b'.ParentID = some "C") :=
  ⟨⟨storeTwo_get?_P, storeTwo_get?_C⟩,
    (SetParentContext_builds_cycles storeTwo).1 "P" ctxP0 storeTwo_get?_P,
    (SetParentContext_builds_cycles storeTwo).2 "C" "P" ctxC0 ctxP0 (by decide)
      storeTwo_get?_C storeTwo_get?_P⟩

/-- C28 for the type `string`: a present non-empty string is returned, and a missing
parameter, the empty string and a value of another type give the two errors. -/
theorem requiredParam_cases_witness :
    requiredParam stringType (some (GoMap.ofList [("customer_id", Value.str "acme")]))
      "customer_id" = ("acme", none) ∧
    requiredParam stringType (some (GoMap.ofList [("customer_id", Value.str "")]))
      "customer_id" = ("", some "missing required parameter: customer_id") ∧
    requiredParam stringType none "customer_id" =
      ("", some "missing required parameter: customer_id") ∧
    requiredParam stringType (some (GoMap.ofList [("customer_id", Value.other 0)]))
      "customer_id" = ("", some "parameter customer_id is not of type string") :=
  ⟨(requiredParam_cases stringType _ "customer_id").2.1 (Value.str "acme") "acme" rfl rfl
      (by decide),
    (requiredParam_cases stringType _ "customer_id").2.2.2.1 (Value.str "") rfl rfl,
    (requiredParam_cases stringType none "customer_id").2.2.1 rfl,
    (requiredParam_cases stringType _ "customer_id").2.2.2.2.1 (Value.other 0) rfl rfl⟩

/-- C29 at the store `storePC`, reached by two `CreateContext` calls and one
`SetParentContext` call: `C` has the parent `P`, which lists `C`. -/
theorem Reachable_parentsBacked_witness :
    Reachable storePC ∧
    (∀ id c p, storePC.contexts.get? id = some c → c.ParentID = some p →
      ∃ pc, storePC.contexts.get? p = some pc ∧ id ∈ pc.ChildrenIDs ∧
        c.ID ∈ pc.ChildrenIDs) ∧
    ∀ id c, storePC.contexts.get? id = some c → c.ID = id :=
  ⟨storePC_Reachable, Reachable_parentsBacked storePC storePC_Reachable⟩

/-- C30 at the store `storeTwo`: after linking `C` to `P`
and then to `C` itself, `C` is still listed by `P`; and linking `C` to `P` twice
lists it twice. -/
theorem SetParentContext_keeps_stale_links_witness :
    (storeTwo.contexts.get? "P" = some ctxP0 ∧ storeTwo.contexts.get? "C" = some ctxC0) ∧
    ((SetParentContext storeTwo "C" "P").1 = true ∧
      (SetParentContext (SetParentContext storeTwo "C" "P").2 "C" "C").1 = true ∧
      ∃ c' p',
        (SetParentContext (SetParentContext storeTwo "C" "P").2 "C" "C").2.contexts.get? "C"
          = some c' ∧
        (SetParentContext (SetParentContext storeTwo "C" "P").2 "C" "C").2.contexts.get? "P"
          = some p' ∧
        c'.ParentID = some "C" ∧ "C" ∈ p'.ChildrenIDs) ∧
    ((∃ p1, (SetParentContext storeTwo "C" "P").2.contexts.get? "P" = some p1 ∧
        p1.ChildrenIDs.count "C" = ctxP0.ChildrenIDs.count "C" + 1) ∧
      (∃ p2, (SetParentContext (SetParentContext storeTwo "C" "P").2 "C" "P").2.contexts.get?
          "P" = some p2 ∧
        p2.ChildrenIDs.count "C" = ctxP0.ChildrenIDs.count "C" + 2)) :=
  ⟨⟨storeTwo_get?_P, storeTwo_get?_C⟩,
    (SetParentContext_keeps_stale_links storeTwo).1 "C" "P" "C" ctxC0 ctxP0 ctxC0
      (by decide) storeTwo_get?_C storeTwo_get?_P storeTwo_get?_C,
    (SetParentContext_keeps_stale_links storeTwo).2 "C" "P" ctxC0 ctxP0
      storeTwo_get?_C storeTwo_get?_P⟩

/-! ## `UpdateContext` calls in sequence -/

/-- Run one after the other, in whatever order, `UpdateContext` calls on an id of the
table leave at that id the whole `data` of the call that ran last. -/
theorem UpdateAll_last {V : Type} (id : String) (u : Time × GoMap V) :
    ∀ (us : List (Time × GoMap V)) (cm : ContextManager V) (c : Context V),
      cm.contexts.get? id = some c →
      ∃ c', (UpdateAll cm id (us ++ [u])).contexts.get? id = some c' ∧ c'.Data = some u.2
  | [], cm, c, h => by
    simp only [List.nil_append, UpdateAll]
    rw [UpdateContext_of_get? cm u.1 id (some u.2) none c h]
    exact ⟨_, GoMap.get?_set_self _ _ _, rfl⟩
  | v :: us, cm, c, h => by
    simp only [List.cons_append, UpdateAll]
    refine UpdateAll_last id u us _ { c with Data := some v.2, UpdatedAt := v.1 } ?_
    rw [UpdateContext_of_get? cm v.1 id (some v.2) none c h]
    exact GoMap.get?_set_self _ _ _

end ContextStore
